import Mathlib

/-!
# bililive-go: event bus, watchers, capture workers and the native FLV parser

A shallow embedding of the orchestration core (`src/pkg/events`, `src/listeners`,
`src/recorders`, `src/pushers`), of the native container parser
(`src/pkg/parser/native/flv`), of `Stop` of the subprocess adapter
(`src/pkg/parser/ffmpeg`) and of the parser interface (`src/pkg/parser`), of the
configuration (`src/configs`) and of `parseInfo` (`src/servers`), followed by theorems
about them.

Conventions
* a byte is a `Fin 256`; `uint8`/`uint32` counters are `Nat` reduced modulo `2^8`/`2^32`;
* a Go method with a pointer receiver becomes a function returning the new receiver
  together with its results; an `error` result is an `Option Error` (`none` is `nil`);
* goroutines, timers and channel closes are recorded as counters or lists in the state.
* a call that can panic returns a `gosync.Outcome`.
-/

namespace flv

/-! ## Native FLV parser: `src/pkg/parser/native/flv` -/

abbrev Byte := Fin 256

/-- Errors the parser can return. -/
inductive Error where
  /-- Source `ErrNotFlvStream` of flv.go -/
  | ErrNotFlvStream
  /-- Source `ErrUnknownTag` of flv.go -/
  | ErrUnknownTag
  /-- Source `io.EOF`: the input ended before the requested bytes were available -/
  | EOF
  /-- Source `errors.New("EOF 新的sps和pps")` of tag_video.go -/
  | newSpsPps
  /-- the error returned by the destination's `Write` -/
  | writeFailed
  /-- Source `io.ErrShortWrite`, returned by `io.CopyN` -/
  | ErrShortWrite
  /-- Source `fmt.Errorf` at the end of `doWrite`: total size, retry budget, bytes left -/
  | incompleteWrite (total retries left : Nat)
  deriving DecidableEq, Repr

def audioTag : Nat := 8
def videoTag : Nat := 9
def scriptTag : Nat := 18
def ioRetryCount : Nat := 3
def flvSign : List Byte := [0x46, 0x4c, 0x56, 0x01]

/-- AVC codec id (`AVCCode`), packet types (`AVCSeqHeader`, `AVCNALU`) and the AAC sound format. -/
def AVCCode : Nat := 7
def AVCSeqHeader : Nat := 0
def AVCNALU : Nat := 1
def AAC : Nat := 10

/-- How one call of the destination's `Write` behaves: it takes at most `accept` bytes of
the slice it is given and reports an error when `fail` is set. -/
structure WriteResp where
  accept : Nat
  fail : Bool
  deriving DecidableEq, Repr

/-- The destination `io.Writer` (`p.o`): the bytes it holds so far and the behaviour of its
upcoming `Write` calls. Once `script` is exhausted every write is accepted in full. -/
structure Writer where
  out : List Byte
  script : List WriteResp
  deriving DecidableEq, Repr

/-- One call `p.o.Write(b)`: the new destination, the count written and whether it failed. -/
def Writer.Write (w : Writer) (b : List Byte) : Writer × Nat × Bool :=
  match w.script with
  | [] => ({ w with out := w.out ++ b }, b.length, false)
  | r :: rs =>
    ({ out := w.out ++ b.take r.accept, script := rs }, min r.accept b.length, r.fail)

/-- Modelled from the spec: `reader.BufferedReader` (package `src/pkg/reader`, not part of
the sources at hand). It reads the input stream and keeps the bytes handed out by `ReadN`
and `ReadByte` since the last `Reset`, so that a tag header and sub-header can be forwarded
with `AllBytes`; `Read` (used by `io.CopyN` for the payload) bypasses that buffer. -/
structure BufferedReader where
  rest : List Byte
  buf : List Byte
  deriving DecidableEq, Repr

/-- Modelled from the spec: `BufferedReader.ReadN` reads exactly `n` bytes or fails with
an end-of-input error. -/
def BufferedReader.ReadN (r : BufferedReader) (n : Nat) :
    BufferedReader × Except Error (List Byte) :=
  if n ≤ r.rest.length then
    ({ rest := r.rest.drop n, buf := r.buf ++ r.rest.take n }, .ok (r.rest.take n))
  else
    ({ rest := [], buf := r.buf ++ r.rest }, .error .EOF)

/-- Modelled from the spec: `BufferedReader.ReadByte` reads one byte. -/
def BufferedReader.ReadByte (r : BufferedReader) : BufferedReader × Except Error Byte :=
  match r.rest with
  | [] => (r, .error .EOF)
  | b :: rest => ({ rest := rest, buf := r.buf ++ [b] }, .ok b)

/-- Modelled from the spec: `BufferedReader.AllBytes`, the bytes read since the last `Reset`. -/
def BufferedReader.AllBytes (r : BufferedReader) : List Byte := r.buf

/-- Modelled from the spec: `BufferedReader.Reset` forgets the bytes read so far. -/
def BufferedReader.Reset (r : BufferedReader) : BufferedReader := { r with buf := [] }

structure Metadata where
  HasVideo : Bool
  HasAudio : Bool
  deriving DecidableEq, Repr

/-- The `Parser` struct of flv.go. `stopClosed` counts the `close(p.stopCh)` calls. -/
structure Parser where
  Metadata : Metadata
  i : BufferedReader
  o : Writer
  avcHeaderCount : Nat
  tagCount : Nat
  stopClosed : Nat
  deriving DecidableEq, Repr

/-- The parser as `builder.Build` and `ParseLiveStream` set it up over an input stream and
a destination. -/
def newParser (input : List Byte) (o : Writer) : Parser :=
  { Metadata := { HasVideo := false, HasAudio := false }
    i := { rest := input, buf := [] }
    o := o
    avcHeaderCount := 0
    tagCount := 0
    stopClosed := 0 }

/-- Source `binary.BigEndian.Uint32` on the first four bytes of `b`. -/
def bigEndianUint32 (b : List Byte) : Nat :=
  (b.getD 3 0).val ||| ((b.getD 2 0).val <<< 8) ||| ((b.getD 1 0).val <<< 16)
    ||| ((b.getD 0 0).val <<< 24)

/-- Subtraction on `uint32`. -/
def sub32 (a b : Nat) : Nat := (a + 2 ^ 32 - b % 2 ^ 32) % 2 ^ 32

/-- The retry loop of `Parser.doWrite`: `retryLeft` attempts remain and `leftInputSize`
bytes of `b` are still pending. Returns the destination, the bytes left and the error. -/
def doWriteLoop (b : List Byte) : Nat → Writer → Nat → Writer × Nat × Option Error
  | 0, o, left => (o, left, none)
  | retryLeft + 1, o, left =>
    if left > 0 then
      let r := o.Write (b.drop (b.length - left))
      let left1 := left - r.2.1
      if r.2.2 then (r.1, left1, some .writeFailed)
      else doWriteLoop b retryLeft r.1 left1
    else (o, left, none)

/-- Source `Parser.doWrite` (flv.go 164-183). -/
def Parser.doWrite (p : Parser) (b : List Byte) : Parser × Option Error :=
  match doWriteLoop b ioRetryCount p.o b.length with
  | (o, _, some e) => ({ p with o := o }, some e)
  | (o, left, none) =>
    if left ≠ 0 then ({ p with o := o }, some (.incompleteWrite b.length ioRetryCount left))
    else ({ p with o := o }, none)

/-- The size of the buffer that the standard library's `io.Copy` allocates for a reader
limited to `n` bytes: 32 KiB, or `n` when that is smaller, and at least one byte. -/
def copySize (n : Nat) : Nat :=
  if n < 32 * 1024 then (if n < 1 then 1 else n) else 32 * 1024

/-- The loop of the standard library's `io.Copy` over `io.LimitReader(src, limit)` with a
buffer of `size` bytes: each round reads up to `size` bytes, and no more than the limit
leaves, hands them to one `Write` and adds the count written; it ends at the end of the
input or of the limit, on a `Write` error, and with `io.ErrShortWrite` when `Write` took
fewer bytes than read. The rounds are bounded by `fuel`; a round reads at least one byte,
so one round more than the unread bytes is enough. -/
def copyLoop (size : Nat) : Nat → Writer → BufferedReader → Nat → Nat →
    Writer × BufferedReader × Nat × Option Error
  | 0, dst, src, _, written => (dst, src, written, none)
  | fuel + 1, dst, src, limit, written =>
    let data := src.rest.take (min size limit)
    if data = [] then (dst, src, written, none)
    else
      let src1 : BufferedReader := { src with rest := src.rest.drop data.length }
      let r := dst.Write data
      let written1 := written + r.2.1
      if r.2.2 then (r.1, src1, written1, some .writeFailed)
      else if r.2.1 < data.length then (r.1, src1, written1, some .ErrShortWrite)
      else copyLoop size fuel r.1 src1 (limit - data.length) written1

/-- The standard library's `io.CopyN(dst, src, n)`: it copies through `io.Copy` from the
reader limited to `n` bytes, returns nil whenever `n` bytes were written, whatever the
last `Write` reported, and `io.EOF` when the input ended early without another error. -/
def CopyN (dst : Writer) (src : BufferedReader) (n : Nat) :
    Writer × BufferedReader × Nat × Option Error :=
  let r := copyLoop (copySize n) (src.rest.length + 1) dst src n 0
  if r.2.2.1 = n then (r.1, r.2.1, n, none)
  else if r.2.2.1 < n ∧ r.2.2.2 = none then (r.1, r.2.1, r.2.2.1, some .EOF)
  else r

/-- Source `Parser.doCopy` (flv.go 152-161); the comparison `writtenCount != int64(writtenCount)`
of the source is never true, so only the error of `io.CopyN` decides. -/
def Parser.doCopy (p : Parser) (n : Nat) : Parser × Option Error :=
  let r := CopyN p.o p.i n
  ({ p with o := r.1, i := r.2.1 }, r.2.2.2)

structure AudioTagHeader where
  SoundFormat : Nat
  SoundRate : Nat
  SoundSize : Nat
  SoundType : Nat
  AACPacketType : Nat
  deriving DecidableEq, Repr

structure VideoTagHeader where
  FrameType : Nat
  CodeID : Nat
  AVCPacketType : Nat
  CompositionTime : Nat
  deriving DecidableEq, Repr

/-- The common tail of the three tag parsers: forward the buffered header bytes with
`doWrite`, `Reset` the reader, then `doCopy` the `l` payload bytes. -/
def Parser.forward (p : Parser) (l : Nat) : Parser × Option Error :=
  match p.doWrite p.i.AllBytes with
  | (p1, some e) => (p1, some e)
  | (p1, none) => ({ p1 with i := p1.i.Reset }).doCopy l

/-- Source `Parser.parseAudioTag` (tag_audio.go 51-84). -/
def Parser.parseAudioTag (p : Parser) (length _timestamp : Nat) :
    Parser × Except Error AudioTagHeader :=
  match p.i.ReadByte with
  | (i1, .error e) => ({ p with i := i1 }, .error e)
  | (i1, .ok b) =>
    let l := sub32 length 1
    let p1 := { p with i := i1 }
    let tag : AudioTagHeader :=
      { SoundFormat := (b.val >>> 4) &&& 15
        SoundRate := (b.val >>> 2) &&& 3
        SoundSize := (b.val >>> 1) &&& 1
        SoundType := b.val &&& 1
        AACPacketType := 0 }
    if tag.SoundFormat = AAC then
      match p1.i.ReadByte with
      | (i2, .error e) => ({ p1 with i := i2 }, .error e)
      | (i2, .ok b2) =>
        let l := sub32 l 1
        let p2 := { p1 with i := i2 }
        let tag := { tag with AACPacketType := b2.val }
        match p2.forward l with
        | (p3, some e) => (p3, .error e)
        | (p3, none) => (p3, .ok tag)
    else
      match p1.forward l with
      | (p3, some e) => (p3, .error e)
      | (p3, none) => (p3, .ok tag)

/-- Source `Parser.parseVideoTag` (tag_video.go 43-91). -/
def Parser.parseVideoTag (p : Parser) (length _timestamp : Nat) :
    Parser × Except Error VideoTagHeader :=
  match p.i.ReadByte with
  | (i1, .error e) => ({ p with i := i1 }, .error e)
  | (i1, .ok b) =>
    let l := sub32 length 1
    let p1 := { p with i := i1 }
    let tag : VideoTagHeader :=
      { FrameType := (b.val >>> 4) &&& 15
        CodeID := b.val &&& 15
        AVCPacketType := 0
        CompositionTime := 0 }
    if tag.CodeID = AVCCode then
      match p1.i.ReadByte with
      | (i2, .error e) => ({ p1 with i := i2 }, .error e)
      | (i2, .ok b2) =>
        let l := sub32 l 1
        let p2 := { p1 with i := i2 }
        let tag := { tag with AVCPacketType := b2.val }
        if tag.AVCPacketType = AVCNALU then
          match p2.i.ReadN 3 with
          | (i3, .error e) => ({ p2 with i := i3 }, .error e)
          | (i3, .ok c) =>
            let l := sub32 l 3
            let p3 := { p2 with i := i3 }
            let tag := { tag with CompositionTime :=
              ((c.getD 0 0).val <<< 16) ||| ((c.getD 1 0).val <<< 8) ||| (c.getD 2 0).val }
            match p3.forward l with
            | (p4, some e) => (p4, .error e)
            | (p4, none) => (p4, .ok tag)
        else if tag.AVCPacketType = AVCSeqHeader then
          let p3 := { p2 with avcHeaderCount := (p2.avcHeaderCount + 1) % 2 ^ 8 }
          if p3.avcHeaderCount > 1 then (p3, .error .newSpsPps)
          else
            match p3.forward l with
            | (p4, some e) => (p4, .error e)
            | (p4, none) => (p4, .ok tag)
        else
          match p2.forward l with
          | (p4, some e) => (p4, .error e)
          | (p4, none) => (p4, .ok tag)
    else
      match p1.forward l with
      | (p4, some e) => (p4, .error e)
      | (p4, none) => (p4, .ok tag)

/-- Source `Parser.parseScriptTag` (tag_script.go 22-34). -/
def Parser.parseScriptTag (p : Parser) (length : Nat) : Parser × Option Error :=
  p.forward length

/-- Source `Parser.parseTag` (tag.go 6-37). -/
def Parser.parseTag (p : Parser) : Parser × Option Error :=
  let p0 := { p with tagCount := (p.tagCount + 1) % 2 ^ 32 }
  match p0.i.ReadN 15 with
  | (i1, .error e) => ({ p0 with i := i1 }, some e)
  | (i1, .ok b) =>
    let p1 := { p0 with i := i1 }
    let tagType := (b.getD 4 0).val
    let length := ((b.getD 5 0).val <<< 16) ||| ((b.getD 6 0).val <<< 8) ||| (b.getD 7 0).val
    let timeStamp := ((b.getD 8 0).val <<< 16) ||| ((b.getD 9 0).val <<< 8)
      ||| (b.getD 10 0).val ||| ((b.getD 11 0).val <<< 24)
    if tagType = audioTag then
      match p1.parseAudioTag length timeStamp with
      | (p2, .error e) => (p2, some e)
      | (p2, .ok _) => (p2, none)
    else if tagType = videoTag then
      match p1.parseVideoTag length timeStamp with
      | (p2, .error e) => (p2, some e)
      | (p2, .ok _) => (p2, none)
    else if tagType = scriptTag then p1.parseScriptTag length
    else (p1, some .ErrUnknownTag)

/-- The header part of `Parser.doParse` (flv.go 115-136): read nine bytes, check the
signature, record the audio and video flags, check the header size, forward the header. -/
def Parser.parseHeader (p : Parser) : Parser × Option Error :=
  match p.i.ReadN 9 with
  | (i1, .error e) => ({ p with i := i1 }, some e)
  | (i1, .ok b) =>
    let p1 := { p with i := i1 }
    if b.take 4 ≠ flvSign then (p1, some .ErrNotFlvStream)
    else
      let p2 := { p1 with Metadata :=
        { HasVideo := decide ((b.getD 4 0).val &&& (1 <<< 2) ≠ 0)
          HasAudio := decide ((b.getD 4 0).val &&& 1 ≠ 0) } }
      if bigEndianUint32 (b.drop 5) ≠ 9 then (p2, some .ErrNotFlvStream)
      else
        match p2.doWrite p2.i.AllBytes with
        | (p3, some e) => (p3, some e)
        | (p3, none) => ({ p3 with i := p3.i.Reset }, none)

/-- The tag loop of `Parser.doParse` (flv.go 139-148). `stop k` tells whether the `k`-th
poll of `p.stopCh` finds the channel closed; `fuel` bounds the number of iterations and
`none` means that the bound was reached. -/
def parseTags (stop : Nat → Bool) : Nat → Nat → Parser → Option (Parser × Option Error)
  | 0, _, _ => none
  | fuel + 1, k, p =>
    if stop k then some (p, none)
    else
      match p.parseTag with
      | (p1, some e) => some (p1, some e)
      | (p1, none) => parseTags stop fuel (k + 1) p1

/-- Source `Parser.doParse` (flv.go 113-149). -/
def Parser.doParse (p : Parser) (stop : Nat → Bool) (fuel : Nat) :
    Option (Parser × Option Error) :=
  match p.parseHeader with
  | (p1, some e) => some (p1, some e)
  | (p1, none) => parseTags stop fuel 0 p1

/-- A destination that accepts every write in full. -/
def acceptAll (out : List Byte) : Writer := { out := out, script := [] }

/-- The nine header bytes with flags byte `flags`. -/
def flvHeader (flags : Byte) : List Byte := flvSign ++ [flags, 0, 0, 0, 9]


/-- The type byte of a tag: offset 4 of its 15-byte header, after the four bytes of the
previous tag size. -/
def tagTypeOf (t : List Byte) : Nat := (t.getD 4 0).val

/-- The 24-bit payload length declared at offsets 5 to 7 of a tag. -/
def declaredLength (t : List Byte) : Nat :=
  ((t.getD 5 0).val <<< 16) ||| ((t.getD 6 0).val <<< 8) ||| (t.getD 7 0).val

/-- Number of sub-header bytes the parser reads after the 15-byte header of tag `t`. -/
def subHeaderLen (t : List Byte) : Nat :=
  if tagTypeOf t = audioTag then
    if ((t.getD 15 0).val >>> 4) &&& 15 = AAC then 2 else 1
  else if tagTypeOf t = videoTag then
    if (t.getD 15 0).val &&& 15 = AVCCode then
      if (t.getD 16 0).val = AVCNALU then 5 else 2
    else 1
  else 0

/-- A video tag with codec AVC whose packet type is the sequence header. -/
def isAVCSeqHeaderTag (t : List Byte) : Bool :=
  decide (tagTypeOf t = videoTag) && decide ((t.getD 15 0).val &&& 15 = AVCCode)
    && decide ((t.getD 16 0).val = AVCSeqHeader)

/-- A well-formed tag: a 15-byte header of type 8, 9 or 18, all the declared payload bytes
present, and a declared length that covers the sub-header the parser reads. -/
def wellFormedTag (t : List Byte) : Bool :=
  decide (15 ≤ t.length)
    && (decide (tagTypeOf t = audioTag) || decide (tagTypeOf t = videoTag)
        || decide (tagTypeOf t = scriptTag))
    && decide (t.length = 15 + declaredLength t)
    && decide (subHeaderLen t ≤ declaredLength t)

/-- An AAC audio tag with one payload byte. -/
def exampleAudioTag : List Byte :=
  [0, 0, 0, 0, 8, 0, 0, 3, 0, 0, 0, 0, 0, 0, 0, 0xAF, 1, 0x21]

/-- An AVC video tag (NAL unit) with one payload byte. -/
def exampleVideoTag : List Byte :=
  [0, 0, 0, 14, 9, 0, 0, 6, 0, 0, 0, 0, 0, 0, 0, 0x17, 1, 0, 0, 0, 0x65]

/-- An AVC sequence-header video tag with two payload bytes. -/
def exampleSeqHeaderTag : List Byte :=
  [0, 0, 0, 0, 9, 0, 0, 4, 0, 0, 0, 0, 0, 0, 0, 0x17, 0, 1, 2]

end flv

/-! ## Go maps -/

namespace gomap

/-- Lookup `m[k]` in a Go map kept as a list of entries with distinct keys. -/
def get {κ α : Type} [DecidableEq κ] (m : List (κ × α)) (k : κ) : Option α :=
  match m with
  | [] => none
  | e :: rest => if e.1 = k then some e.2 else get rest k

/-- Removal `delete(m, k)`. -/
def delete {κ α : Type} [DecidableEq κ] (m : List (κ × α)) (k : κ) : List (κ × α) :=
  m.filter (fun e => decide (e.1 ≠ k))

/-- Assignment `m[k] = v`. -/
def set {κ α : Type} [DecidableEq κ] (m : List (κ × α)) (k : κ) (v : α) : List (κ × α) :=
  delete m k ++ [(k, v)]

end gomap

/-! ## Sources: `src/live` -/

namespace live

/-- The fields of `live.Info` the core reads. -/
structure Info where
  HostName : String
  RoomName : String
  Status : Bool
  Initializing : Bool
  CustomLiveId : String
  deriving DecidableEq, Repr

/-- The `internal.BaseLive` every source embeds; times are nanoseconds. -/
structure BaseLive where
  LiveId : String
  RawUrl : String
  LastStartTime : Int
  deriving DecidableEq, Repr

/-- A `live.Live` as the watcher holds it (always behind a `WrappedLive`): a platform
adapter, or the placeholder `system.InitializingLive` with its `OriginalLive`. -/
inductive Live where
  | platform (b : BaseLive)
  | initializing (b : BaseLive) (original : BaseLive)
  deriving DecidableEq, Repr

def Live.base : Live → BaseLive
  | .platform b => b
  | .initializing b _ => b

def Live.GetLiveId (l : Live) : String := l.base.LiveId

def Live.GetRawUrl (l : Live) : String := l.base.RawUrl

/-- Source `BaseLive.SetLastStartTime`. -/
def Live.SetLastStartTime (l : Live) (t : Int) : Live :=
  match l with
  | .platform b => .platform { b with LastStartTime := t }
  | .initializing b o => .initializing { b with LastStartTime := t } o

/-- Source `Live.GetInfo`: a platform adapter answers with what the network returned (`resp`);
`InitializingLive.GetInfo` of initializing_live.go always succeeds with an offline,
initializing room named after the raw URL. -/
def Live.GetInfo (l : Live) (resp : Except String Info) : Except String Info :=
  match l with
  | .platform _ => resp
  | .initializing b _ =>
    .ok { HostName := "", RoomName := b.RawUrl, Status := false, Initializing := true,
          CustomLiveId := "" }

end live

/-! ## Event bus: `src/pkg/events` -/

namespace events

abbrev EventType := String

/-- The `Object` of an event: a source, or the `live.InitializingFinishedParam`. -/
inductive Payload where
  | live (l : live.Live)
  | initializingFinished (initializingLive : live.Live) (original : live.BaseLive)
      (info : live.Info)
  deriving DecidableEq, Repr

structure Event where
  /-- The field `Type` of the source. -/
  Typ : EventType
  Object : Payload
  deriving DecidableEq, Repr

def NewEvent (eventType : EventType) (object : Payload) : Event := ⟨eventType, object⟩

/-- A `*EventListener`: `none` is the nil pointer, `some a` the listener at address `a`. -/
abbrev ListenerRef := Option Nat

/-- The `dispatcher` struct: `saver` maps an event type to its listener list. -/
structure dispatcher where
  saver : List (EventType × List ListenerRef)
  deriving DecidableEq, Repr

def NewDispatcher : dispatcher := { saver := [] }

/-- Source `dispatcher.AddEventListener` (dispatcher.go 57-75). -/
def dispatcher.AddEventListener (e : dispatcher) (eventType : EventType)
    (listener : ListenerRef) : dispatcher :=
  match gomap.get e.saver eventType with
  | some listeners =>
    if listener = none then { saver := gomap.set e.saver eventType ([] ++ [listener]) }
    else { saver := gomap.set e.saver eventType (listeners ++ [listener]) }
  | none => { saver := gomap.set e.saver eventType ([] ++ [listener]) }

/-- The removal loop of `RemoveEventListener`: `listeners.Remove(e)` clears the links of
the removed element, so `e.Next()` is nil afterwards and the loop ends at the first match. -/
def removeLoop (listener : ListenerRef) : List ListenerRef → List ListenerRef
  | [] => []
  | v :: rest => if v = listener then rest else v :: removeLoop listener rest

/-- Source `dispatcher.RemoveEventListener` (dispatcher.go 78-101). -/
def dispatcher.RemoveEventListener (e : dispatcher) (eventType : EventType)
    (listener : ListenerRef) : dispatcher :=
  match gomap.get e.saver eventType with
  | none => e
  | some listeners =>
    let listeners1 := removeLoop listener listeners
    if listeners1.length = 0 then { saver := gomap.delete e.saver eventType }
    else { saver := gomap.set e.saver eventType listeners1 }

/-- Source `dispatcher.RemoveAllEventListener` (dispatcher.go 104-110). -/
def dispatcher.RemoveAllEventListener (_e : dispatcher) (_eventType : EventType) :
    dispatcher :=
  { saver := [] }

/-- The copy loop of `DispatchEvent`: append every element of the list to `hs`. -/
def snapshot (listeners : List ListenerRef) : List ListenerRef :=
  listeners.foldl (fun hs v => hs ++ [v]) []

/-- Source `dispatcher.DispatchEvent` (dispatcher.go 113-149). The result is the background task
it starts, given by the handlers the task will call in order, or `none` when it starts no
task; the dispatcher itself is not changed and no handler runs inside the call. -/
def dispatcher.DispatchEvent (e : dispatcher) (event : Option Event) :
    Option (List ListenerRef) :=
  match event with
  | none => none
  | some ev =>
    match gomap.get e.saver ev.Typ with
    | none => none
    | some listeners => some (snapshot listeners)

/-- One mutation of the dispatcher. -/
inductive Op where
  | add (eventType : EventType) (listener : ListenerRef)
  | remove (eventType : EventType) (listener : ListenerRef)
  | removeAll (eventType : EventType)
  deriving DecidableEq, Repr

def dispatcher.apply (e : dispatcher) : Op → dispatcher
  | .add t l => e.AddEventListener t l
  | .remove t l => e.RemoveEventListener t l
  | .removeAll t => e.RemoveAllEventListener t

/-- The dispatcher reached from `NewDispatcher` by a sequence of mutations. -/
def run (ops : List Op) : dispatcher := ops.foldl dispatcher.apply NewDispatcher

/-- The listeners currently registered for an event type, in list order. -/
def dispatcher.registered (e : dispatcher) (eventType : EventType) : List ListenerRef :=
  (gomap.get e.saver eventType).getD []

/-- No event type is mapped to an empty listener list. -/
def dispatcher.noEmptyList (e : dispatcher) : Prop :=
  ∀ t ls, gomap.get e.saver t = some ls → ls ≠ []

/-- The listener that `op` registers for event type `t`, when `op` is such a registration. -/
def addedFor (t : EventType) : Op → Option ListenerRef
  | .add t1 l => if t1 = t then some l else none
  | _ => none

/-- A registration of a non-nil listener. -/
def isPlainAdd : Op → Bool
  | .add _ (some _) => true
  | _ => false

end events

/-! ## Watchers: `src/listeners` -/

namespace listeners

open events live

def begin : Nat := 0
def pending : Nat := 1
def running : Nat := 2
def stopped : Nat := 3

def ListenStart : EventType := "ListenStart"
def ListenStop : EventType := "ListenStop"
def LiveStart : EventType := "LiveStart"
def LiveEnd : EventType := "LiveEnd"
def RoomNameChanged : EventType := "RoomNameChanged"
def RoomInitializingFinished : EventType := "RoomInitializingFinished"

def statusToTrueEvt : Nat := 1
def statusToFalseEvt : Nat := 2
def roomNameChangedEvt : Nat := 4

/-- The `status` snapshot of status.go. -/
structure status where
  roomName : String
  roomStatus : Bool
  deriving DecidableEq, Repr

/-- Source `status.Diff` (status.go 18-29). -/
def status.Diff (s that : status) : Nat :=
  let res := 0
  let res := if !s.roomStatus && that.roomStatus then res ||| statusToTrueEvt else res
  let res := if s.roomStatus && !that.roomStatus then res ||| statusToFalseEvt else res
  let res := if s.roomStatus && that.roomStatus && decide (s.roomName ≠ that.roomName)
    then res ||| roomNameChangedEvt else res
  res

/-- The `listener` struct. `OnRoomNameChanged` is the flag
`config.VideoSplitStrategies.OnRoomNameChanged`, `stopClosed` counts `close(l.stop)` and
`loops` counts the `go l.run()` goroutines started. -/
structure listener where
  Live : live.Live
  status : listeners.status
  OnRoomNameChanged : Bool
  state : Nat
  stopClosed : Nat
  loops : Nat
  deriving DecidableEq, Repr

/-- Source `NewListener` (listener.go 36-50). -/
def NewListener (live : Live) (onRoomNameChanged : Bool) : listener :=
  { Live := live, status := { roomName := "", roomStatus := false },
    OnRoomNameChanged := onRoomNameChanged, state := begin, stopClosed := 0, loops := 0 }

/-- A watcher of the platform room "X" that holds the given snapshot and rename policy. -/
def watcherWith (roomName : String) (roomStatus policy : Bool) : listener :=
  { NewListener (.platform ⟨"X", "u", 0⟩) policy with
    status := { roomName := roomName, roomStatus := roomStatus } }

/-- What the outside world answers during one `refresh`: the platform's `GetInfo`, the
`GetInfo` of the original source of an initializing room, and the clock. -/
structure Env where
  resp : Except String Info
  origResp : Except String Info
  now : Int

/-- What a call did besides changing the receiver: the events handed to `DispatchEvent`,
in order, and whether it ended in a run-time panic. -/
structure Effects where
  events : List Event
  panicked : Bool
  deriving DecidableEq, Repr

/-- Steps 5 and 6 of `refresh` (listener.go 146-163): dispatch the event chosen by the
switch when the status changed, then, for an initializing room, ask the original source
and dispatch `RoomInitializingFinished` when it answers. The type assertion on `l.Live`
panics when the source is not an `InitializingLive`. The deferred assignment stores
`latestStatus` in every case. -/
def listener.refreshTail (l : listener) (env : Env) (info : Info)
    (latestStatus : listeners.status) (isStatusChanged : Bool) (evtTyp : EventType) :
    listener × Effects :=
  let evs := if isStatusChanged then [NewEvent evtTyp (.live l.Live)] else []
  let l1 := { l with status := latestStatus }
  if info.Initializing then
    match l.Live with
    | .initializing _ original =>
      match env.origResp with
      | .ok info2 =>
        (l1, { events := evs ++ [NewEvent RoomInitializingFinished
                  (.initializingFinished l.Live original info2)],
               panicked := false })
      | .error _ => (l1, { events := evs, panicked := false })
    | .platform _ => (l1, { events := evs, panicked := true })
  else (l1, { events := evs, panicked := false })

/-- Source `listener.refresh` (listener.go 101-164). The cases of the `switch` on the diff
are the branches below, the last one being a diff that matches no case; the deferred
`l.status = latestStatus` runs on every path after `GetInfo` succeeded. -/
def listener.refresh (l : listener) (env : Env) : listener × Effects :=
  match l.Live.GetInfo env.resp with
  | .error _ => (l, { events := [], panicked := false })
  | .ok info =>
    let latestStatus : listeners.status :=
      { roomName := info.RoomName, roomStatus := info.Status }
    let d := l.status.Diff latestStatus
    if d = 0 then l.refreshTail env info latestStatus false ""
    else if d = statusToTrueEvt then
      ({ l with Live := l.Live.SetLastStartTime env.now }).refreshTail env info latestStatus
        true LiveStart
    else if d = statusToFalseEvt then l.refreshTail env info latestStatus true LiveEnd
    else if d = roomNameChangedEvt then
      if !l.OnRoomNameChanged then
        ({ l with status := latestStatus }, { events := [], panicked := false })
      else l.refreshTail env info latestStatus true RoomNameChanged
    else l.refreshTail env info latestStatus true ""

/-- Source `listener.Start` (listener.go 66-84). -/
def listener.Start (l : listener) (env : Env) : listener × Effects :=
  if l.state = begin then
    let l1 := { l with state := pending }
    let ev := NewEvent ListenStart (.live l1.Live)
    let r := l1.refresh env
    let l2 := if r.2.panicked then r.1 else { r.1 with loops := r.1.loops + 1 }
    let l3 := if l2.state = pending then { l2 with state := running } else l2
    (l3, { events := ev :: r.2.events, panicked := r.2.panicked })
  else (l, { events := [], panicked := false })

/-- Source `listener.Close` (listener.go 87-98). -/
def listener.Close (l : listener) : listener × Effects :=
  if l.state = running then
    ({ l with state := stopped, stopClosed := l.stopClosed + 1 },
      { events := [NewEvent ListenStop (.live l.Live)], panicked := false })
  else (l, { events := [], panicked := false })

inductive Error where
  | ErrListenerExist
  | ErrListenerNotExist
  deriving DecidableEq, Repr

/-- The watcher `manager`: `listeners` maps a RoomId to a watcher, given by its index in
`objs`, the watcher objects created so far. -/
structure manager where
  listeners : List (String × Nat)
  objs : List listener
  OnRoomNameChanged : Bool
  deriving DecidableEq, Repr

def NewManager (onRoomNameChanged : Bool) : manager :=
  { listeners := [], objs := [], OnRoomNameChanged := onRoomNameChanged }

/-- Call `Close` on the watcher object at index `idx`. -/
def manager.closeObj (m : manager) (idx : Nat) : manager × List Event :=
  match m.objs.get? idx with
  | none => (m, [])
  | some l => ({ m with objs := m.objs.set idx l.Close.1 }, l.Close.2.events)

/-- Source `manager.AddListener` (manager.go 129-145). -/
def manager.AddListener (m : manager) (live : Live) (env : Env) :
    manager × List Event × Option Error :=
  match gomap.get m.listeners live.GetLiveId with
  | some _ => (m, [], some .ErrListenerExist)
  | none =>
    let listener := NewListener live m.OnRoomNameChanged
    let idx := m.objs.length
    let r := listener.Start env
    ({ m with listeners := gomap.set m.listeners live.GetLiveId idx, objs := m.objs ++ [r.1] },
      r.2.events, none)

/-- Source `manager.RemoveListener` (manager.go 148-163). -/
def manager.RemoveListener (m : manager) (liveId : String) :
    manager × List Event × Option Error :=
  match gomap.get m.listeners liveId with
  | none => (m, [], some .ErrListenerNotExist)
  | some idx =>
    let r := m.closeObj idx
    ({ r.1 with listeners := gomap.delete r.1.listeners liveId }, r.2, none)

/-- Source `manager.replaceListener` (manager.go 166-197). -/
def manager.replaceListener (m : manager) (oldLive newLive : Live) (env : Env) :
    manager × List Event × Option Error :=
  let oldLiveId := oldLive.GetLiveId
  match gomap.get m.listeners oldLiveId with
  | none => (m, [], some .ErrListenerNotExist)
  | some oldIdx =>
    let r := m.closeObj oldIdx
    let newListener := NewListener newLive m.OnRoomNameChanged
    let idx := r.1.objs.length
    let listeners1 :=
      if oldLiveId = newLive.GetLiveId then gomap.set r.1.listeners oldLiveId idx
      else gomap.set (gomap.delete r.1.listeners oldLiveId) newLive.GetLiveId idx
    let s := newListener.Start env
    ({ r.1 with listeners := listeners1, objs := r.1.objs ++ [s.1] }, r.2 ++ s.2.events, none)

/-- The loop of `manager.Close` (manager.go 116-119) over the entries of the map. -/
def closeAll : List (String × Nat) → manager → manager × List Event
  | [], m => (m, [])
  | (id, idx) :: rest, m =>
    let r := m.closeObj idx
    let r2 := closeAll rest { r.1 with listeners := gomap.delete r.1.listeners id }
    (r2.1, r.2 ++ r2.2)

/-- Source `manager.Close` (manager.go 110-126). -/
def manager.Close (m : manager) : manager × List Event := closeAll m.listeners m

/-- Source `manager.HasListener` (manager.go 216-224). -/
def manager.HasListener (m : manager) (liveId : String) : Bool :=
  (gomap.get m.listeners liveId).isSome

/-- One call on the watcher manager. -/
inductive Call where
  | AddListener (live : Live) (env : Env)
  | RemoveListener (liveId : String)
  | replaceListener (oldLive newLive : Live) (env : Env)
  | Close

def manager.call (m : manager) : Call → manager
  | .AddListener live env => (m.AddListener live env).1
  | .RemoveListener liveId => (m.RemoveListener liveId).1
  | .replaceListener o n env => (m.replaceListener o n env).1
  | .Close => m.Close.1

/-- The watchers that have been started and not yet closed: indices of the objects whose
state is `running`. -/
def manager.active (m : manager) : List Nat :=
  (List.range m.objs.length).filter (fun i => (m.objs.get? i).any (fun l => l.state = running))

/-- The RoomId of the watcher object at index `idx`. -/
def manager.roomIdOf (m : manager) (idx : Nat) : Option String :=
  (m.objs.get? idx).map (fun l => l.Live.GetLiveId)

/-- The manager invariant of the spec: every active watcher is the one the map holds under
its RoomId. -/
def manager.activeInMap (m : manager) : Bool :=
  m.active.all (fun i => (m.roomIdOf i).any (fun id => gomap.get m.listeners id = some i))

/-- Consistency of the watcher manager: every map entry points to an existing watcher
object of that RoomId, and every active watcher is the one the map holds under its RoomId. -/
def manager.consistent (m : manager) : Prop :=
  (∀ id idx, gomap.get m.listeners id = some idx →
    ∃ l, m.objs[idx]? = some l ∧ l.Live.GetLiveId = id) ∧
  (∀ idx l, m.objs[idx]? = some l → l.state = running →
    gomap.get m.listeners l.Live.GetLiveId = some idx)

/-- A call that does not move a watcher onto a RoomId held by another watcher: every call
but a `replaceListener` whose new RoomId differs from the old one and is already in the map. -/
def Call.safe (m : manager) : Call → Prop
  | .replaceListener oldLive newLive _ =>
    newLive.GetLiveId = oldLive.GetLiveId ∨ gomap.get m.listeners newLive.GetLiveId = none
  | _ => True

end listeners

/-! ## Configuration: `src/configs` -/

namespace configs

/-- The fields of `configs.LiveRoom` the managers read and write. -/
structure LiveRoom where
  Url : String
  Listen : Bool
  Listening : Bool
  Record : Bool
  Rtmp : String
  Push : Bool
  deriving DecidableEq, Repr

end configs

/-! ## Standard library: `sync.Once` and panics -/

namespace gosync

/-- How a call ended: it returned with a result, or it panicked. -/
inductive Outcome (α : Type) where
  | returned (a : α)
  | panicked
  deriving DecidableEq, Repr

/-- The standard library's `sync.Once`: `done` is set once `Do` has run a function. -/
structure Once where
  done : Bool
  deriving DecidableEq, Repr

/-- The standard library's `Once.Do(f)` over the state `s` that `f` works on. The function
gives back the new state and whether it panicked; `done` is set on the first call also
when `f` panics, and every later call returns without running `f`. -/
def Once.Do {σ : Type} (o : Once) (f : σ → σ × Bool) (s : σ) : Once × σ × Bool :=
  if o.done then (o, s, false) else ({ done := true }, f s)

end gosync

namespace flv

/-- Source `close(p.stopCh)`: the close is counted, and closing a channel that is already
closed panics. -/
def Parser.closeStopCh (p : Parser) : Parser × Bool :=
  ({ p with stopClosed := p.stopClosed + 1 }, decide (p.stopClosed ≠ 0))

/-- Source `Parser.Stop` (flv.go 105-110). The `sync.Once` that the field `closeOnce`
points to is passed and returned next to the parser. -/
def Parser.Stop (p : Parser) (closeOnce : gosync.Once) :
    Parser × gosync.Once × gosync.Outcome (Option Error) :=
  let r := closeOnce.Do Parser.closeStopCh p
  (r.2.1, r.1, if r.2.2 then .panicked else .returned none)

/-- The parser after `n` calls of `Stop` in a row, with the outcome of each call in call
order. -/
def stopTimes : Nat → Parser → gosync.Once →
    Parser × gosync.Once × List (gosync.Outcome (Option Error))
  | 0, p, o => (p, o, [])
  | n + 1, p, o =>
    let r := p.Stop o
    let rs := stopTimes n r.1 r.2.1
    (rs.1, rs.2.1, r.2.2 :: rs.2.2)

/-- The destination holds, after the bytes `out0` it held at the start, the first `k` bytes
of the input for some `k`. -/
def writtenStart (input out0 out : List Byte) : Prop :=
  ∃ k, k ≤ input.length ∧ out = out0 ++ input.take k

/-- Every input byte is in the destination, in the reader's buffer or still unread, in
that order. -/
def inOrder (input out0 out : List Byte) (i : BufferedReader) : Prop :=
  ∃ w, out = out0 ++ w ∧ input = w ++ i.buf ++ i.rest

/-- A 15-byte audio tag header that declares a payload of length 0, the sub-header byte of
an MP3 tag, and three further bytes. -/
def exampleZeroLengthTag : List Byte :=
  [0, 0, 0, 0, 8, 0, 0, 0, 0, 0, 0, 0, 0, 0, 0, 0x2F, 7, 8, 9]

end flv

/-! ## Subprocess adapter: `src/pkg/parser/ffmpeg` -/

namespace ffmpeg

abbrev Error := String

/-- The part of `exec.Cmd` that `Stop` reads: `ProcessState` is nil (`none`) until the
process has exited, then it holds the exit code. -/
structure Cmd where
  ProcessState : Option Int
  deriving DecidableEq, Repr

/-- The `Parser` struct of ffmpeg.go: `cmd` is nil until `ParseLiveStream` creates the
process, `cmdStdIn` is nil or the pipe to the process's input with the writes it has
received, `closeOnce` is the `sync.Once` the field points to. -/
structure Parser where
  cmd : Option Cmd
  cmdStdIn : Option (List String)
  closeOnce : gosync.Once
  debug : Bool
  timeoutInUs : String
  deriving DecidableEq, Repr

/-- Source `builder.Build` (ffmpeg.go 36-48). -/
def Build (cfg : List (String × String)) : Parser :=
  let debug :=
    match gomap.get cfg "debug" with
    | some debugFlag => decide (debugFlag ≠ "")
    | none => false
  { cmd := none
    cmdStdIn := none
    closeOnce := { done := false }
    debug := debug
    timeoutInUs := (gomap.get cfg "timeout_in_us").getD "" }

/-- The function that `Stop` hands to `closeOnce.Do` (ffmpeg.go 248-250). Reading
`p.cmd.ProcessState` through a nil `p.cmd` panics, and so does `Write` on a nil
`p.cmdStdIn`; the error of `Write` is dropped by the source. -/
def Parser.quit (p : Parser) : Parser × Bool :=
  match p.cmd with
  | none => (p, true)
  | some cmd =>
    if cmd.ProcessState = none then
      match p.cmdStdIn with
      | none => (p, true)
      | some w => ({ p with cmdStdIn := some (w ++ ["q"]) }, false)
    else (p, false)

/-- Source `Parser.Stop` (ffmpeg.go 246-253). -/
def Parser.Stop (p : Parser) : Parser × gosync.Outcome (Option Error) :=
  let r := p.closeOnce.Do Parser.quit p
  ({ r.2.1 with closeOnce := r.1 }, if r.2.2 then .panicked else .returned none)

/-- The process of `ParseLiveStream` (ffmpeg.go 224-237) once it is created and started:
`cmd` is assigned and the pipe to its input is attached. -/
def Parser.started (p : Parser) : Parser :=
  { p with cmd := some { ProcessState := none }, cmdStdIn := some [] }

/-- The process exits with `code` and `cmd.Wait` records it. -/
def Parser.exited (p : Parser) (code : Int) : Parser :=
  match p.cmd with
  | none => p
  | some _ => { p with cmd := some { ProcessState := some code } }

/-- What happens to a parser: a `Stop` call, or the process exiting in between. -/
inductive Act where
  | stop
  | exit (code : Int)
  deriving DecidableEq, Repr

/-- The parser after a sequence of acts, with the outcome of each `Stop` in call order. -/
def runActs : List Act → Parser → Parser × List (gosync.Outcome (Option Error))
  | [], p => (p, [])
  | .stop :: acts, p =>
    let r := p.Stop
    let rs := runActs acts r.1
    (rs.1, r.2 :: rs.2)
  | .exit code :: acts, p => runActs acts (p.exited code)

/-- The quit signals written to the process's input so far. -/
def Parser.quits (p : Parser) : Nat :=
  match p.cmdStdIn with
  | none => 0
  | some w => w.count "q"

/-- The process exists: `cmd` is assigned and the pipe to its input is attached. -/
def Parser.hasProcess (p : Parser) : Bool := p.cmd.isSome && p.cmdStdIn.isSome

/-- The process exists and has not exited. -/
def Parser.alive (p : Parser) : Bool :=
  match p.cmd with
  | some cmd => decide (cmd.ProcessState = none)
  | none => false

end ffmpeg

/-! ## Parser interface: `src/pkg/parser` -/

namespace parser

/-- A `parser.Parser` (parser.go 17-20) as a worker holds it: the native parser together
with the `sync.Once` of its `closeOnce`, or the subprocess adapter. -/
inductive Parser where
  | native (p : flv.Parser) (closeOnce : gosync.Once)
  | adapter (p : ffmpeg.Parser)
  deriving DecidableEq, Repr

/-- The call `p.Stop()` through the interface: the parser after the call and whether the
call panicked. The workers drop the error it returns. -/
def Parser.Stop : Parser → Parser × Bool
  | .native p closeOnce =>
    let r := p.Stop closeOnce
    (.native r.1 r.2.1, decide (r.2.2 = .panicked))
  | .adapter p =>
    let r := p.Stop
    (.adapter r.1, decide (r.2 = .panicked))

end parser

/-! ## Capture workers: `src/recorders` -/

namespace recorders

open events live

def begin : Nat := 0
def pending : Nat := 1
def running : Nat := 2
def stopped : Nat := 3

def RecorderStart : EventType := "RecorderStart"
def RecorderStop : EventType := "RecorderStop"

/-- The `recorder` struct. `parser` is `r.parser`: nil, or the parser the worker holds;
`stopClosed` counts `close(r.stop)` and `loops` the `go r.run(ctx)` goroutines started.
Times are nanoseconds. -/
structure recorder where
  Live : live.Live
  startTime : Int
  parser : Option parser.Parser
  state : Nat
  stopClosed : Nat
  loops : Nat
  deriving DecidableEq, Repr

/-- Source `NewRecorder` (recorder.go 94-108), created at time `now`. -/
def NewRecorder (live : Live) (now : Int) : recorder :=
  { Live := live, startTime := now, parser := none, state := begin, stopClosed := 0,
    loops := 0 }

/-- Source `recorder.Start` (recorder.go 332-341). -/
def recorder.Start (r : recorder) : recorder × List Event :=
  if r.state = begin then
    let r1 := { r with state := pending }
    let r2 := { r1 with loops := r1.loops + 1 }
    let ev := NewEvent RecorderStart (.live r2.Live)
    let r3 := if r2.state = pending then { r2 with state := running } else r2
    (r3, [ev])
  else (r, [])

/-- Source `recorder.StartTime` (recorder.go 344-346). -/
def recorder.StartTime (r : recorder) : Int := r.startTime

/-- Source `recorder.Close` (recorder.go 349-359): after the compare-and-swap and
`close(r.stop)` the parser the worker holds is stopped, and `RecorderStop` is dispatched
only when that `Stop` returned; when it panics, `Close` ends in that panic with the state
already Stopped and the stop channel closed. -/
def recorder.Close (r : recorder) : recorder × listeners.Effects :=
  if r.state = running then
    let r1 := { r with state := stopped, stopClosed := r.stopClosed + 1 }
    match r1.parser with
    | some p =>
      let s := p.Stop
      let r2 := { r1 with parser := some s.1 }
      if s.2 then (r2, { events := [], panicked := true })
      else (r2, { events := [NewEvent RecorderStop (.live r2.Live)], panicked := false })
    | none => (r1, { events := [NewEvent RecorderStop (.live r1.Live)], panicked := false })
  else (r, { events := [], panicked := false })

inductive Error where
  | ErrRecorderExist
  | ErrRecorderNotExist
  | ErrListenNotEnabled
  | ErrNoListening
  | ErrRecordNotEnabled
  deriving DecidableEq, Repr

/-- The capture `manager`: `recorders` maps a RoomId to a worker, given by its index in
`objs`; `MaxDuration` is `cfg.VideoSplitStrategies.MaxDuration` in nanoseconds. -/
structure manager where
  recorders : List (String × Nat)
  objs : List recorder
  MaxDuration : Int
  deriving DecidableEq, Repr

/-- What a manager call did besides changing the manager: the events dispatched, the
`go m.cronRestart` goroutines started, the times at which `time.AfterFunc` timers will run
`cronRestart` again, and whether the call ended in a run-time panic instead of returning. -/
structure Effects where
  events : List Event
  crons : Nat
  timers : List Int
  panicked : Bool := false
  deriving DecidableEq, Repr

def Effects.none : Effects := { events := [], crons := 0, timers := [] }

/-- Source `manager.GetRecorder` (manager.go 245-255). -/
def manager.GetRecorder (m : manager) (liveId : String) : Except Error recorder :=
  match gomap.get m.recorders liveId with
  | none => .error .ErrRecorderNotExist
  | some idx =>
    match m.objs.get? idx with
    | some r => .ok r
    | none => .error .ErrRecorderNotExist

/-- Source `manager.HasRecorder` (manager.go 258-265). -/
def manager.HasRecorder (m : manager) (liveId : String) : Bool :=
  (gomap.get m.recorders liveId).isSome

/-- Source `manager.RemoveRecorder` (manager.go 228-242). When `recorder.Close` panics the
call ends there: the entry is not deleted from the map. -/
def manager.RemoveRecorder (m : manager) (liveId : String) :
    manager × Effects × Option Error :=
  match gomap.get m.recorders liveId with
  | none => (m, Effects.none, some .ErrRecorderNotExist)
  | some idx =>
    match m.objs.get? idx with
    | none => ({ m with recorders := gomap.delete m.recorders liveId }, Effects.none, none)
    | some r =>
      let c := r.Close
      if c.2.panicked then
        ({ m with objs := m.objs.set idx c.1 },
          { events := c.2.events, crons := 0, timers := [], panicked := true }, none)
      else
        ({ m with objs := m.objs.set idx c.1,
                  recorders := gomap.delete m.recorders liveId },
          { events := c.2.events, crons := 0, timers := [] }, none)

/-- Source `manager.AddRecorder` (manager.go 143-192). `room` is the room that
`config.GetLiveRoomByUrl` found for the source, `lm` the watcher manager asked through
`HasListener`, `now` the clock read by `NewRecorder`. The room comes back with its
`Listening` field as the call left it. -/
def manager.AddRecorder (m : manager) (live : Live) (room : configs.LiveRoom)
    (lm : listeners.manager) (now : Int) :
    manager × configs.LiveRoom × Effects × Option Error :=
  if !room.Listen then (m, room, Effects.none, some .ErrListenNotEnabled)
  else
    let room1 := { room with Listening := lm.HasListener live.GetLiveId }
    if !room1.Listening then (m, room1, Effects.none, some .ErrNoListening)
    else if !room1.Record then (m, room1, Effects.none, some .ErrRecordNotEnabled)
    else
      match gomap.get m.recorders live.GetLiveId with
      | some _ => (m, room1, Effects.none, some .ErrRecorderExist)
      | none =>
        let recorder := NewRecorder live now
        let idx := m.objs.length
        let crons := if m.MaxDuration ≠ 0 then 1 else 0
        let r := recorder.Start
        ({ m with recorders := gomap.set m.recorders live.GetLiveId idx,
                  objs := m.objs ++ [r.1] },
          room1, { events := r.2, crons := crons, timers := [] }, none)

/-- Source `manager.RestartRecorder` (manager.go 215-225). A panic of `RemoveRecorder`
ends the call before `AddRecorder`. -/
def manager.RestartRecorder (m : manager) (live : Live) (room : configs.LiveRoom)
    (lm : listeners.manager) (now : Int) :
    manager × configs.LiveRoom × Effects × Option Error :=
  match m.RemoveRecorder live.GetLiveId with
  | (m1, eff, some e) => (m1, room, eff, some e)
  | (m1, eff, none) =>
    if eff.panicked then (m1, room, eff, none)
    else
      let r := m1.AddRecorder live room lm now
      (r.1, r.2.1,
        { events := eff.events ++ r.2.2.1.events, crons := eff.crons + r.2.2.1.crons,
          timers := eff.timers ++ r.2.2.1.timers },
        r.2.2.2)

/-- Source `time.Minute / 4` in nanoseconds. -/
def quarterMinute : Int := 15000000000

/-- Source `manager.cronRestart` (manager.go 195-212), run at time `now`. -/
def manager.cronRestart (m : manager) (live : Live) (room : configs.LiveRoom)
    (lm : listeners.manager) (now : Int) : manager × configs.LiveRoom × Effects :=
  match m.GetRecorder live.GetLiveId with
  | .error _ => (m, room, Effects.none)
  | .ok recorder =>
    if now - recorder.StartTime < m.MaxDuration then
      (m, room, { events := [], crons := 0, timers := [now + quarterMinute] })
    else
      let r := m.RestartRecorder live room lm now
      (r.1, r.2.1, r.2.2.1)

/-- The claim "the worker of this room was restarted": after the call a worker is
registered for the room and it is not the worker that was registered before. -/
def restarted (m m1 : manager) (liveId : String) : Bool :=
  m1.HasRecorder liveId && decide (gomap.get m1.recorders liveId ≠ gomap.get m.recorders liveId)

/-- A capture manager with `MaxDuration` of one minute and one running worker for the
room "X", started at time 0. -/
def splitExample : manager :=
  { recorders := [("X", 0)]
    objs := [{ NewRecorder (.platform ⟨"X", "u1", 0⟩) 0 with state := running, loops := 1 }]
    MaxDuration := 60000000000 }

/-- A watcher manager with an active watcher for the room "X". -/
def watchingX : listeners.manager :=
  ((listeners.NewManager false).AddListener (.platform ⟨"X", "u1", 0⟩)
    ⟨.error "", .error "", 0⟩).1

/-- The worker of `processlessExample`: running since time 0 and holding a subprocess
adapter whose process was never created. -/
def processlessWorker : recorder :=
  { NewRecorder (.platform ⟨"X", "u1", 0⟩) 0 with
    state := running, loops := 1, parser := some (.adapter (ffmpeg.Build [])) }

/-- A capture manager with `MaxDuration` of one minute whose one worker, for the room "X",
is `processlessWorker`. -/
def processlessExample : manager :=
  { recorders := [("X", 0)], objs := [processlessWorker], MaxDuration := 60000000000 }

end recorders

/-! ## Re-emit workers: `src/pushers` -/

namespace pushers

open events live

def begin : Nat := 0
def pending : Nat := 1
def running : Nat := 2
def stopped : Nat := 3

def PusherStart : EventType := "PusherStart"
def PusherStop : EventType := "PusherStop"

/-- The `pusher` struct, with the same conventions as `recorders.recorder`; `TimeoutInUs`
and `Debug` are `r.config.TimeoutInUs` and `r.config.Debug`, with the values of the
default configuration unless set. -/
structure pusher where
  Live : live.Live
  startTime : Int
  parser : Option parser.Parser
  state : Nat
  stopClosed : Nat
  loops : Nat
  TimeoutInUs : Int := 60000000
  Debug : Bool := false
  deriving DecidableEq, Repr

/-- Source `NewPusher` (pusher.go 58-72), created at time `now`. -/
def NewPusher (live : Live) (now : Int) : pusher :=
  { Live := live, startTime := now, parser := none, state := begin, stopClosed := 0,
    loops := 0 }

/-- Source `pusher.Start` (pusher.go 157-166). -/
def pusher.Start (r : pusher) : pusher × List Event :=
  if r.state = begin then
    let r1 := { r with state := pending }
    let r2 := { r1 with loops := r1.loops + 1 }
    let ev := NewEvent PusherStart (.live r2.Live)
    let r3 := if r2.state = pending then { r2 with state := running } else r2
    (r3, [ev])
  else (r, [])

/-- Source `pusher.Close` (pusher.go 174-184): after the compare-and-swap and
`close(r.stop)` the parser the worker holds is stopped, and `PusherStop` is dispatched only
when that `Stop` returned; when it panics, `Close` ends in that panic with the state
already Stopped and the stop channel closed. -/
def pusher.Close (r : pusher) : pusher × listeners.Effects :=
  if r.state = running then
    let r1 := { r with state := stopped, stopClosed := r.stopClosed + 1 }
    match r1.parser with
    | some p =>
      let s := p.Stop
      let r2 := { r1 with parser := some s.1 }
      if s.2 then (r2, { events := [], panicked := true })
      else (r2, { events := [NewEvent PusherStop (.live r2.Live)], panicked := false })
    | none => (r1, { events := [NewEvent PusherStop (.live r1.Live)], panicked := false })
  else (r, { events := [], panicked := false })

end pushers

/-! ## Example workers -/

namespace lifecycle

/-- A watcher of room "X" after its first `Start`, so in state Running. -/
def startedWatcher : listeners.listener :=
  ((listeners.watcherWith "A" false false).Start ⟨.error "", .error "", 0⟩).1

/-- A capture worker of room "X" that has been closed. -/
def closedRecorder : recorders.recorder :=
  (recorders.NewRecorder (.platform ⟨"X", "u", 0⟩) 0).Start.1.Close.1

/-- A re-emit worker of room "X" that is running. -/
def startedPusher : pushers.pusher :=
  (pushers.NewPusher (.platform ⟨"X", "u", 0⟩) 0).Start.1

/-- A running capture worker of room "X" that holds a subprocess adapter whose process was
never created: `ParseLiveStream` returned before assigning `cmd`. -/
def processlessRecorder : recorders.recorder :=
  { (recorders.NewRecorder (.platform ⟨"X", "u", 0⟩) 0).Start.1 with
    parser := some (.adapter (ffmpeg.Build [])) }

/-- A running re-emit worker of room "X" that holds a subprocess adapter whose process is
running. -/
def streamingPusher : pushers.pusher :=
  { (pushers.NewPusher (.platform ⟨"X", "u", 0⟩) 0).Start.1 with
    parser := some (.adapter (ffmpeg.Build []).started) }

end lifecycle

namespace flv

/-- A 15-byte tag header of the unknown type 10. -/
def exampleUnknownHeader : List Byte :=
  [0, 0, 0, 0, 10, 0, 0, 2, 0, 0, 0, 0, 0, 0, 0]

end flv

/-! ## Watcher manager: lookups and the ids it should hold -/

namespace listeners

/-- Source `manager.GetListener` (manager.go 200-213); a found watcher is given by its
index in `objs`. -/
def manager.GetListener (m : manager) (liveId : String) : Except Error Nat :=
  match gomap.get m.listeners liveId with
  | none => .error .ErrListenerNotExist
  | some idx => .ok idx

/-- The RoomIds that have been added and not since removed, followed through one call:
`AddListener` adds the id of its source, `RemoveListener` removes an id, `replaceListener`
swaps the old id for the new one when the old one is held, `Close` removes every id. -/
def trackStep (ids : List String) : Call → List String
  | .AddListener live _ => if live.GetLiveId ∈ ids then ids else ids ++ [live.GetLiveId]
  | .RemoveListener liveId => ids.filter (fun x => decide (x ≠ liveId))
  | .replaceListener oldLive newLive _ =>
    if oldLive.GetLiveId ∈ ids then
      (ids.filter (fun x => decide (x ≠ oldLive.GetLiveId) && decide (x ≠ newLive.GetLiveId)))
        ++ [newLive.GetLiveId]
    else ids
  | .Close => []

/-- The RoomIds added and not since removed after a sequence of calls. -/
def tracked (calls : List Call) : List String := calls.foldl trackStep []

/-- The manager reached from `NewManager` by a sequence of calls. -/
def runCalls (policy : Bool) (calls : List Call) : manager :=
  calls.foldl manager.call (NewManager policy)

end listeners

/-! ## Re-emit manager: `src/pushers/manager.go` -/

namespace pushers

open events live

inductive Error where
  | ErrPusherExist
  | ErrPusherNotExist
  | ErrPusherNotSupportStatus
  | ErrRtmpNotExist
  | ErrListenNotEnabled
  | ErrNoListening
  | ErrPushNotEnabled
  deriving DecidableEq, Repr

/-- The re-emit `manager`: `pushers` maps a RoomId to a worker, given by its index in
`objs`, the worker objects created so far. -/
structure manager where
  pushers : List (String × Nat)
  objs : List pusher
  deriving DecidableEq, Repr

/-- Source `manager.HasPusher` (manager.go 203-210). -/
def manager.HasPusher (m : manager) (liveId : String) : Bool :=
  (gomap.get m.pushers liveId).isSome

/-- Source `manager.GetPusher` (manager.go 190-200). -/
def manager.GetPusher (m : manager) (liveId : String) : Except Error Nat :=
  match gomap.get m.pushers liveId with
  | none => .error .ErrPusherNotExist
  | some idx => .ok idx

/-- Source `manager.RemovePusher` (manager.go 173-187). When `pusher.Close` panics the call
ends there: the entry is not deleted from the map. -/
def manager.RemovePusher (m : manager) (liveId : String) :
    manager × listeners.Effects × Option Error :=
  match gomap.get m.pushers liveId with
  | none => (m, { events := [], panicked := false }, some .ErrPusherNotExist)
  | some idx =>
    match m.objs.get? idx with
    | none =>
      ({ m with pushers := gomap.delete m.pushers liveId },
        { events := [], panicked := false }, none)
    | some r =>
      let c := r.Close
      if c.2.panicked then ({ m with objs := m.objs.set idx c.1 }, c.2, none)
      else
        ({ objs := m.objs.set idx c.1, pushers := gomap.delete m.pushers liveId }, c.2, none)

/-- Source `manager.AddPusher` (manager.go 120-170). `room` is the room that
`config.GetLiveRoomByUrl` found for the source, `lm` the watcher manager asked through
`HasListener`, `now` the clock read by `NewPusher`. The room comes back with its
`Listening` field as the call left it. -/
def manager.AddPusher (m : manager) (live : Live) (room : configs.LiveRoom)
    (lm : listeners.manager) (now : Int) :
    manager × configs.LiveRoom × List Event × Option Error :=
  if !room.Listen then (m, room, [], some .ErrListenNotEnabled)
  else
    let room1 := { room with Listening := lm.HasListener live.GetLiveId }
    if !room1.Listening then (m, room1, [], some .ErrNoListening)
    else if room1.Rtmp = "" then (m, room1, [], some .ErrRtmpNotExist)
    else if !room1.Push then (m, room1, [], some .ErrPushNotEnabled)
    else
      match gomap.get m.pushers live.GetLiveId with
      | some _ => (m, room1, [], some .ErrPusherExist)
      | none =>
        let pusher := NewPusher live now
        let idx := m.objs.length
        let r := pusher.Start
        ({ pushers := gomap.set m.pushers live.GetLiveId idx, objs := m.objs ++ [r.1] },
          room1, r.2, none)

end pushers


namespace pushers

/-- Source `NewManager` (manager.go 15-22): a re-emit manager with no worker. -/
def NewManager : manager := { pushers := [], objs := [] }

end pushers



/-! ## Third-party `gcache`: the shared info cache -/

namespace gcache

/-- The cache `gcache.New(1024).LRU().Build()` of bililive.go, built without a loader
function: the snapshots it holds at the moment, by RoomId. -/
abbrev Cache := List (String × live.Info)

/-- The cache's `Get(key)`: the value as an `interface{}` (`none` is the nil interface) and
the error, which is `KeyNotFoundError` when the key is not held. -/
def Get (c : Cache) (key : String) : Option live.Info × Option String :=
  match gomap.get c key with
  | some v => (some v, none)
  | none => (none, some "Key not found.")

/-- The type assertion `obj.(*live.Info)` in its one-result form: it panics on a nil
interface. -/
def assertInfo (obj : Option live.Info) : gosync.Outcome live.Info :=
  match obj with
  | some info => .returned info
  | none => .panicked

end gcache



/-! ## Configuration: `src/configs/config.go` -/

namespace configs

structure RPC where
  Enable : Bool
  Bind : String
  deriving DecidableEq, Repr

/-- Source `VideoSplitStrategies`; `MaxDuration` is a `time.Duration` in nanoseconds. -/
structure VideoSplitStrategies where
  OnRoomNameChanged : Bool
  MaxDuration : Int
  MaxFileSize : Int
  deriving DecidableEq, Repr

/-- The fields of `Config` that `Verify` and the room lookups read and write. The map
`liveRoomIndexCache` is allocated by `NewConfig` and `NewConfigWithBytes`. -/
structure Config where
  RPC : configs.RPC
  Interval : Int
  OutPutPath : String
  LiveRooms : List LiveRoom
  VideoSplitStrategies : configs.VideoSplitStrategies
  liveRoomIndexCache : List (String × Int)
  deriving DecidableEq, Repr

/-- What `Verify` asks of the machine: whether `net.ResolveTCPAddr("tcp", bind)` succeeds
and whether `os.Stat(path)` succeeds. -/
structure Env where
  resolves : String → Bool
  statOk : String → Bool

/-- The errors of `Verify`, one for each `return` of an error in the source. -/
inductive VerifyError where
  | nilConfig
  | rpcBind
  | interval
  | outPutPath
  | maxDuration
  | nothingToDo
  deriving DecidableEq, Repr

/-- Source `time.Minute` in nanoseconds. -/
def minute : Int := 60000000000

/-- Source `RPC.verify` (config.go 27-38); `none` as receiver is the nil pointer. -/
def RPC.verify (r : Option RPC) (env : Env) : Option VerifyError :=
  match r with
  | none => none
  | some r =>
    if !r.Enable then none
    else if !env.resolves r.Bind then some .rpcBind
    else none

/-- Source `Config.Verify` (config.go 171-191); `none` as receiver is the nil pointer. -/
def Config.Verify (c : Option Config) (env : Env) : Option VerifyError :=
  match c with
  | none => some .nilConfig
  | some c =>
    match RPC.verify (some c.RPC) env with
    | some err => some err
    | none =>
      if c.Interval ≤ 0 then some .interval
      else if !env.statOk c.OutPutPath then some .outPutPath
      else if c.VideoSplitStrategies.MaxDuration > 0
          ∧ c.VideoSplitStrategies.MaxDuration < minute then some .maxDuration
      else if !c.RPC.Enable ∧ c.LiveRooms.length = 0 then some .nothingToDo
      else none

/-- The loop of `RefreshLiveRoomIndexCache`: the rooms from index `index` on are entered
into the map one after the other. -/
def refreshLoop : List LiveRoom → Nat → List (String × Int) → List (String × Int)
  | [], _, m => m
  | room :: rest, index, m => refreshLoop rest (index + 1) (gomap.set m room.Url (index : Int))

/-- Source `Config.RefreshLiveRoomIndexCache` (config.go 194-198). -/
def Config.RefreshLiveRoomIndexCache (c : Config) : Config :=
  { c with liveRoomIndexCache := refreshLoop c.LiveRooms 0 c.liveRoomIndexCache }

/-- The test `index >= 0 && index < len(c.LiveRooms) && c.LiveRooms[index].Url == url` of
the three lookups. -/
def Config.indexIsRoom (c : Config) (index : Int) (url : String) : Bool :=
  decide (0 ≤ index) && decide (index < c.LiveRooms.length) &&
    match c.LiveRooms.get? index.toNat with
    | some room => decide (room.Url = url)
    | none => false

/-- Source `Config.getLiveRoomByUrlImpl` (config.go 244-251). The pointer
`&c.LiveRooms[index]` it returns is given by `index`. -/
def Config.getLiveRoomByUrlImpl (c : Config) (url : String) : Except String Nat :=
  match gomap.get c.liveRoomIndexCache url with
  | some index =>
    if c.indexIsRoom index url then .ok index.toNat
    else .error ("房间 " ++ url ++ " 不存在")
  | none => .error ("房间 " ++ url ++ " 不存在")

/-- Source `Config.GetLiveRoomByUrl` (config.go 232-241). -/
def Config.GetLiveRoomByUrl (c : Config) (url : String) : Config × Except String Nat :=
  match c.getLiveRoomByUrlImpl url with
  | .ok room => (c, .ok room)
  | .error _ =>
    let c1 := c.RefreshLiveRoomIndexCache
    match c1.getLiveRoomByUrlImpl url with
    | .error err => (c1, .error err)
    | .ok room => (c1, .ok room)

/-- Source `Config.RemoveLiveRoomByUrl` (config.go 201-211). -/
def Config.RemoveLiveRoomByUrl (c : Config) (url : String) : Config × Option String :=
  let c1 := c.RefreshLiveRoomIndexCache
  match gomap.get c1.liveRoomIndexCache url with
  | some index =>
    if c1.indexIsRoom index url then
      ({ c1 with
          LiveRooms := c1.LiveRooms.take index.toNat ++ c1.LiveRooms.drop (index.toNat + 1)
          liveRoomIndexCache := gomap.delete c1.liveRoomIndexCache url }, none)
    else (c1, some ("移除房间失败：" ++ url))
  | none => (c1, some ("移除房间失败：" ++ url))

/-- Source `Config.UpdateLiveRoomByUrl` (config.go 214-229). The two `append` statements
are taken one after the other: the first assigns `c.LiveRooms[:index]` followed by the new
room to `c.LiveRooms`, the second reads `c.LiveRooms[index+1:]` from that new value. -/
def Config.UpdateLiveRoomByUrl (c : Config) (url : String) (room : LiveRoom) :
    Config × Option String :=
  let c1 := c.RefreshLiveRoomIndexCache
  match gomap.get c1.liveRoomIndexCache url with
  | some index =>
    if c1.indexIsRoom index url then
      let newRoom := room
      let c2 := { c1 with LiveRooms := c1.LiveRooms.take index.toNat ++ [newRoom] }
      let c3 := { c2 with LiveRooms := c2.LiveRooms ++ c2.LiveRooms.drop (index.toNat + 1) }
      (c3, none)
    else (c1, some ("更新房间失败：" ++ url))
  | none => (c1, some ("更新房间失败：" ++ url))

/-- A room with the given url that is watched and nothing else. -/
def roomAt (url : String) : LiveRoom :=
  { Url := url, Listen := true, Listening := false, Record := false, Rtmp := "", Push := false }

/-- A configuration with the given rooms and index cache, RPC on its default address. -/
def configWith (rooms : List LiveRoom) (cache : List (String × Int)) : Config :=
  { RPC := { Enable := true, Bind := "127.0.0.1:8080" }
    Interval := 30
    OutPutPath := "./"
    LiveRooms := rooms
    VideoSplitStrategies := { OnRoomNameChanged := false, MaxDuration := 0, MaxFileSize := 0 }
    liveRoomIndexCache := cache }

/-- A machine on which every address resolves and every path exists. -/
def anyEnv : Env := { resolves := fun _ => true, statOk := fun _ => true }

end configs

/-! ## Capture worker: the cache lookup of `tryRecord` -/

namespace recorders

/-- How far one `tryRecord` got: without a stream URL it warns, sleeps five seconds and
returns; the cache lookup can panic; otherwise it goes on to render the file name from
the snapshot and to record the first URL. -/
inductive Attempt where
  | retry
  | panicked
  | recording (url : String) (info : live.Info)
  deriving DecidableEq, Repr

/-- Source `recorder.getFields` (recorder.go 367-377): the host and room name for the log
entry, or nil (`none`) when the cache has no entry. -/
def recorder.getFields (r : recorder) (cache : gcache.Cache) :
    gosync.Outcome (Option (String × String)) :=
  match gcache.Get cache r.Live.GetLiveId with
  | (_, some _) => .returned none
  | (obj, none) =>
    match gcache.assertInfo obj with
    | .panicked => .panicked
    | .returned info => .returned (some (info.HostName, info.RoomName))

/-- Source `recorder.tryRecord` up to the cache lookup (recorder.go 111-123). `urls` is the
answer of `r.Live.GetStreamUrls()`; the error of `r.cache.Get` is dropped by the source. -/
def recorder.tryRecord (r : recorder) (urls : Except String (List String))
    (cache : gcache.Cache) : Attempt :=
  match urls with
  | .error _ => .retry
  | .ok [] => .retry
  | .ok (url :: _) =>
    let obj := (gcache.Get cache r.Live.GetLiveId).1
    match gcache.assertInfo obj with
    | .panicked => .panicked
    | .returned info => .recording url info

end recorders

/-! ## Control plane: `parseInfo` of `src/servers/handler.go` -/

namespace servers

/-- The `live.Info` that `parseInfo` returns: the cached snapshot, the room whose `Listen`,
`Record`, `Push` and `Rtmp` were copied into it when the configuration has the room, and
the three flags read from the managers. -/
structure InfoView where
  info : live.Info
  room : Option configs.LiveRoom
  Listening : Bool
  Recording : Bool
  Pushing : Bool
  deriving DecidableEq, Repr

/-- Source `parseInfo` (handler.go 30-56). `room` is the answer of
`inst.Config.GetLiveRoomByUrl`, the three flags are the answers of `HasListener`,
`HasRecorder` and `HasPusher`; the error of `inst.Cache.Get` is dropped by the source. -/
def parseInfo (cache : gcache.Cache) (l : live.Live) (room : Except String configs.LiveRoom)
    (listening recording pushing : Bool) : gosync.Outcome InfoView :=
  let obj := (gcache.Get cache l.GetLiveId).1
  match gcache.assertInfo obj with
  | .panicked => .panicked
  | .returned info =>
    let copied :=
      match room with
      | .ok room => some room
      | .error _ => none
    .returned { info := info, room := copied, Listening := listening,
                Recording := recording, Pushing := pushing }

end servers

/-! ## Re-emit worker: `tryPush` -/

namespace pushers

/-- What one `tryPush` did: whether it slept the five seconds of backoff, how many parsers
it built with `parser.New`, and its `ParseLiveStream` calls as pairs of stream URL and
destination. -/
structure Pushed where
  slept : Bool
  built : Nat
  sessions : List (String × String)
  deriving DecidableEq, Repr

/-- Source `pusher.setAndCloseParser` (pusher.go 146-154): the new parser takes the place
of the one held so far. The `Stop` that the parser held so far receives first acts on that
parser alone, which the worker then lets go; it is not followed here, so this function and
`tryPush` describe the calls in which that `Stop` returns. -/
def pusher.setAndCloseParser (r : pusher) (p : parser.Parser) : pusher :=
  { r with parser := some p }

/-- The `parserCfg` map that `tryPush` hands to `parser.New` (pusher.go 94-99). -/
def pusher.parserCfg (r : pusher) : List (String × String) :=
  let cfg := gomap.set [] "timeout_in_us" (toString r.TimeoutInUs)
  if r.Debug then gomap.set cfg "debug" "true" else cfg

/-- Source `pusher.tryPush` (pusher.go 75-124). `urls` is the answer of
`r.Live.GetStreamUrls()` and `room` the pointer that `r.config.GetLiveRoomByUrl` returns,
nil (`none`) when the configuration has no such room: the source drops the error and
reads `room.Push` through the pointer. `parser.New(ffmpeg.Name, ...)` cannot fail, the
adapter being registered when the package is loaded. -/
def pusher.tryPush (r : pusher) (urls : Except String (List String))
    (room : Option configs.LiveRoom) : pusher × gosync.Outcome Pushed :=
  match urls with
  | .error _ => (r, .returned { slept := true, built := 0, sessions := [] })
  | .ok [] => (r, .returned { slept := true, built := 0, sessions := [] })
  | .ok (url :: _) =>
    match room with
    | none => (r, .panicked)
    | some room =>
      if !room.Push && decide (room.Rtmp ≠ "") then
        (r, .returned { slept := false, built := 0, sessions := [] })
      else
        let p := parser.Parser.adapter (ffmpeg.Build r.parserCfg)
        let r1 := r.setAndCloseParser p
        (r1, .returned { slept := false, built := 1, sessions := [(url, room.Rtmp)] })

end pushers

namespace configs

/-- A configuration with one room whose `MaxDuration` is `d` nanoseconds. -/
def splitting (d : Int) : Config :=
  { configWith [roomAt "u1"] [] with
    VideoSplitStrategies := { OnRoomNameChanged := false, MaxDuration := d, MaxFileSize := 0 } }

end configs

namespace recorders

/-- A capture manager without workers whose `MaxDuration` is minus one nanosecond. -/
def negativeSplit : manager := { recorders := [], objs := [], MaxDuration := -1 }

end recorders

namespace flv

/-- What a parsing step keeps: the destination holds the first bytes of the input, and
when the step succeeded every input byte is in the destination or still unread, in that
order, the buffer is empty and at most `m` bytes are unread. -/
def stepOk (input out0 : List Byte) (m : Nat) (r : Parser × Option Error) : Prop :=
  writtenStart input out0 r.1.o.out ∧
    (r.2 = none → inOrder input out0 r.1.o.out r.1.i ∧ r.1.i.buf = [] ∧ r.1.i.rest.length ≤ m)

/-- The same for a step that returns a tag header on success. -/
def tagOk {τ : Type} (input out0 : List Byte) (m : Nat) (r : Parser × Except Error τ) : Prop :=
  writtenStart input out0 r.1.o.out ∧
    (∀ t, r.2 = .ok t →
      inOrder input out0 r.1.o.out r.1.i ∧ r.1.i.buf = [] ∧ r.1.i.rest.length ≤ m)

end flv

namespace flv

/-- A stream of the header, an audio tag and a tag header of the unknown type 10. -/
def exampleStream : List Byte := flvHeader 5 ++ exampleAudioTag ++ exampleUnknownHeader

/-- A destination that takes the 9 header bytes, then 4 bytes only, then what is offered,
and then fails without taking a byte. -/
def exampleFailingWriter : Writer :=
  { out := [], script := [⟨9, false⟩, ⟨4, false⟩, ⟨100, false⟩, ⟨0, true⟩] }

/-- A destination that takes the 9 header bytes and the header bytes of the first tag, and
then takes every payload byte offered but reports an error with that write. -/
def exampleReportingWriter : Writer :=
  { out := [], script := [⟨9, false⟩, ⟨100, false⟩, ⟨100, true⟩] }

end flv


/-! # Theorems -/
namespace flv

theorem doWrite_acceptAll (p : Parser) (b : List Byte) (h : p.o.script = []) :
    p.doWrite b = ({ p with o := { out := p.o.out ++ b, script := [] } }, none) := by
  obtain ⟨md, i, ⟨out, script⟩, a, tc, sc⟩ := p
  simp only at h
  subst h
  cases b with
  | nil => simp [Parser.doWrite, doWriteLoop, ioRetryCount]
  | cons x xs => simp [Parser.doWrite, doWriteLoop, ioRetryCount, Writer.Write]

theorem copySize_pos (n : Nat) : 0 < copySize n := by
  unfold copySize
  split_ifs <;> omega

theorem take_length_take (m : Nat) (l : List Byte) :
    l.take (l.take m).length = l.take m := by
  rw [List.length_take]
  rcases Nat.le_total m l.length with h | h
  · rw [Nat.min_eq_left h]
  · rw [Nat.min_eq_right h, List.take_of_length_le (Nat.le_refl _), List.take_of_length_le h]

theorem copyLoop_acceptAll (size : Nat) (hsize : 0 < size) :
    ∀ (fuel : Nat) (out : List Byte) (src : BufferedReader) (limit written : Nat),
      src.rest.length < fuel →
      copyLoop size fuel ⟨out, []⟩ src limit written =
        (⟨out ++ src.rest.take limit, []⟩, { src with rest := src.rest.drop limit },
          written + min limit src.rest.length, none) := by
  intro fuel
  induction fuel with
  | zero => intro out src limit written h; omega
  | succ fuel ih =>
    intro out src limit written hf
    obtain ⟨rest, buf⟩ := src
    simp only at hf
    by_cases hd : List.take (min size limit) rest = []
    · simp only [copyLoop, hd, if_true]
      rcases List.take_eq_nil_iff.mp hd with h0 | h0
      · have hl : limit = 0 := by omega
        subst hl
        simp
      · subst h0
        simp
    · have hdl : 1 ≤ (List.take (min size limit) rest).length := by
        cases hh : List.take (min size limit) rest with
        | nil => exact absurd hh hd
        | cons x xs => simp
      have hdl2 : (List.take (min size limit) rest).length = min (min size limit) rest.length :=
        List.length_take _ _
      have hdata := take_length_take (min size limit) rest
      generalize hdg : List.take (min size limit) rest = data at hd hdl hdl2 hdata
      simp only [copyLoop, hdg, hd, if_false, Writer.Write, Bool.false_eq_true,
        Nat.lt_irrefl]
      rw [ih (out ++ data) ⟨List.drop data.length rest, buf⟩ (limit - data.length)
        (written + data.length) (by simp only [List.length_drop]; omega)]
      have h1 : data.length ≤ limit := by omega
      have h2 : data.length ≤ rest.length := by omega
      have e1 : out ++ data ++ List.take (limit - data.length) (List.drop data.length rest)
          = out ++ List.take limit rest := by
        have ht : List.take limit rest = List.take data.length rest ++
            List.take (limit - data.length) (List.drop data.length rest) := by
          rw [← List.take_add]
          congr 1
          omega
        rw [List.append_assoc, ht, hdata]
      have e2 : List.drop (limit - data.length) (List.drop data.length rest)
          = List.drop limit rest := by
        rw [List.drop_drop]
        congr 1
        omega
      simp only [e1, e2, List.length_drop]
      congr 3
      omega

theorem copyLoop_spec (size : Nat) (hsize : 0 < size) :
    ∀ (fuel : Nat) (dst : Writer) (src : BufferedReader) (limit written : Nat),
      src.rest.length < fuel →
      ∃ k c, k ≤ c ∧ c ≤ limit ∧ c ≤ src.rest.length ∧
        (copyLoop size fuel dst src limit written).1.out = dst.out ++ src.rest.take k ∧
        (copyLoop size fuel dst src limit written).2.1 = { src with rest := src.rest.drop c } ∧
        (copyLoop size fuel dst src limit written).2.2.1 = written + k ∧
        ((copyLoop size fuel dst src limit written).2.2.2 = none →
          k = c ∧ c = min limit src.rest.length) ∧
        ((copyLoop size fuel dst src limit written).2.2.2 = some .ErrShortWrite → k < c) := by
  intro fuel
  induction fuel with
  | zero => intro dst src limit written h; omega
  | succ fuel ih =>
    intro dst src limit written hf
    obtain ⟨rest, buf⟩ := src
    obtain ⟨out, script⟩ := dst
    simp only at hf
    by_cases hd : List.take (min size limit) rest = []
    · refine ⟨0, 0, Nat.le_refl _, Nat.zero_le _, Nat.zero_le _, ?_, ?_, ?_, ?_, ?_⟩
      · simp [copyLoop, hd]
      · simp [copyLoop, hd]
      · simp [copyLoop, hd]
      · intro _
        refine ⟨rfl, ?_⟩
        rcases List.take_eq_nil_iff.mp hd with h0 | h0
        · have hl : limit = 0 := by omega
          subst hl
          simp
        · subst h0
          simp
      · intro h
        simp [copyLoop, hd] at h
    · have hdl : 1 ≤ (List.take (min size limit) rest).length := by
        cases hh : List.take (min size limit) rest with
        | nil => exact absurd hh hd
        | cons x xs => simp
      have hdl2 : (List.take (min size limit) rest).length = min (min size limit) rest.length :=
        List.length_take _ _
      have hdata := take_length_take (min size limit) rest
      generalize hdg : List.take (min size limit) rest = data at hd hdl hdl2 hdata
      have h1 : data.length ≤ limit := by omega
      have h2 : data.length ≤ rest.length := by omega
      have hrec : ∀ (o1 : Writer) (ho : o1.out = out ++ data),
          ∃ k c, k ≤ c ∧ c ≤ limit ∧ c ≤ rest.length ∧
            (copyLoop size fuel o1 ⟨List.drop data.length rest, buf⟩ (limit - data.length)
              (written + data.length)).1.out = out ++ List.take k rest ∧
            (copyLoop size fuel o1 ⟨List.drop data.length rest, buf⟩ (limit - data.length)
              (written + data.length)).2.1 = ⟨List.drop c rest, buf⟩ ∧
            (copyLoop size fuel o1 ⟨List.drop data.length rest, buf⟩ (limit - data.length)
              (written + data.length)).2.2.1 = written + k ∧
            ((copyLoop size fuel o1 ⟨List.drop data.length rest, buf⟩ (limit - data.length)
              (written + data.length)).2.2.2 = none → k = c ∧ c = min limit rest.length) ∧
            ((copyLoop size fuel o1 ⟨List.drop data.length rest, buf⟩ (limit - data.length)
              (written + data.length)).2.2.2 = some .ErrShortWrite → k < c) := by
        intro o1 ho
        obtain ⟨k1, c1, hk, hc, hc2, e1, e2, e3, e4, e5⟩ :=
          ih o1 ⟨List.drop data.length rest, buf⟩ (limit - data.length)
            (written + data.length) (by simp only [List.length_drop]; omega)
        simp only [List.length_drop] at hc2 e4
        refine ⟨data.length + k1, data.length + c1, by omega, by omega, by omega,
          ?_, ?_, ?_, ?_, ?_⟩
        · rw [e1, ho, List.append_assoc, List.take_add, hdata]
        · rw [e2]
          simp [List.drop_drop, Nat.add_comm]
        · rw [e3]; omega
        · intro hn
          obtain ⟨a1, a2⟩ := e4 hn
          omega
        · intro hn
          have := e5 hn
          omega
      have hpart : ∀ cnt, cnt ≤ data.length →
          out ++ List.take cnt data = out ++ List.take cnt rest := by
        intro cnt hc
        rw [← hdata, List.take_take, Nat.min_eq_left hc]
      cases script with
      | nil =>
        simp only [copyLoop, hdg, hd, if_false, Writer.Write, Bool.false_eq_true,
          Nat.lt_irrefl]
        exact hrec ⟨out ++ data, []⟩ rfl
      | cons x rs =>
        have htake : List.take x.accept data = List.take (min x.accept data.length) data := by
          rcases Nat.le_total x.accept data.length with h | h
          · rw [Nat.min_eq_left h]
          · rw [Nat.min_eq_right h, List.take_of_length_le h,
              List.take_of_length_le (Nat.le_refl _)]
        cases hfail : x.fail with
        | true =>
          simp only [copyLoop, hdg, hd, if_false, Writer.Write, hfail, if_true]
          refine ⟨min x.accept data.length, data.length, Nat.min_le_right _ _, h1, h2,
            ?_, rfl, rfl, (fun h => by cases h), (fun h => by cases h)⟩
          show out ++ List.take x.accept data = _
          rw [htake]
          exact hpart _ (Nat.min_le_right _ _)
        | false =>
          by_cases hshort : min x.accept data.length < data.length
          · simp only [copyLoop, hdg, hd, if_false, Writer.Write, hfail, Bool.false_eq_true,
              hshort, if_true]
            refine ⟨min x.accept data.length, data.length, Nat.min_le_right _ _, h1, h2,
              ?_, rfl, rfl, (fun h => by cases h), (fun _ => hshort)⟩
            show out ++ List.take x.accept data = _
            rw [htake]
            exact hpart _ (Nat.min_le_right _ _)
          · have hfull : min x.accept data.length = data.length := by
              have := Nat.min_le_right x.accept data.length
              omega
            simp only [copyLoop, hdg, hd, if_false, Writer.Write, hfail, Bool.false_eq_true,
              hfull, Nat.lt_irrefl]
            refine hrec ⟨out ++ List.take x.accept data, rs⟩ ?_
            show out ++ List.take x.accept data = _
            rw [htake, hfull, List.take_of_length_le (Nat.le_refl _)]

theorem doCopy_acceptAll (p : Parser) (n : Nat) (h : p.o.script = []) (hn : n ≤ p.i.rest.length) :
    p.doCopy n = ({ p with o := { out := p.o.out ++ p.i.rest.take n, script := [] },
                           i := { p.i with rest := p.i.rest.drop n } }, none) := by
  obtain ⟨md, ⟨rest, buf⟩, ⟨out, script⟩, a, tc, sc⟩ := p
  simp only at h hn
  subst h
  simp only [Parser.doCopy, CopyN]
  rw [copyLoop_acceptAll (copySize n) (copySize_pos n) (rest.length + 1) out ⟨rest, buf⟩ n 0
    (Nat.lt_succ_self _)]
  simp [Nat.min_eq_left hn]

theorem forward_acceptAll (p : Parser) (l : Nat) (h : p.o.script = []) (hl : l ≤ p.i.rest.length) :
    p.forward l = ({ p with o := { out := p.o.out ++ p.i.buf ++ p.i.rest.take l, script := [] },
                            i := { rest := p.i.rest.drop l, buf := [] } }, none) := by
  unfold Parser.forward
  rw [doWrite_acceptAll p _ h]
  simp only
  rw [doCopy_acceptAll _ _ rfl (by simpa [BufferedReader.Reset] using hl)]
  simp [BufferedReader.Reset, BufferedReader.AllBytes]


theorem sub32_of_le (a b : Nat) (hb : b ≤ a) (ha : a < 2 ^ 32) : sub32 a b = a - b := by
  unfold sub32
  have hb2 : b % 2 ^ 32 = b := Nat.mod_eq_of_lt (by omega)
  rw [hb2]
  have : a + 2 ^ 32 - b = (a - b) + 2 ^ 32 := by omega
  rw [this, Nat.add_mod_right]
  exact Nat.mod_eq_of_lt (by omega)

theorem declaredLength_lt (t : List Byte) : declaredLength t < 2 ^ 24 := by
  unfold declaredLength
  have h5 := (t.getD 5 0).isLt
  have h6 := (t.getD 6 0).isLt
  have h7 := (t.getD 7 0).isLt
  apply Nat.or_lt_two_pow
  · apply Nat.or_lt_two_pow
    · rw [Nat.shiftLeft_eq]; omega
    · rw [Nat.shiftLeft_eq]; omega
  · omega

theorem parseTag_wellFormed (p : Parser) (t r : List Byte)
    (hwf : wellFormedTag t = true) (hbuf : p.i.buf = []) (hrest : p.i.rest = t ++ r)
    (hscript : p.o.script = [])
    (havc : isAVCSeqHeaderTag t = true → p.avcHeaderCount = 0) :
    p.parseTag =
      ({ p with
          i := { rest := r, buf := [] }
          o := { out := p.o.out ++ t, script := [] }
          tagCount := (p.tagCount + 1) % 2 ^ 32
          avcHeaderCount := if isAVCSeqHeaderTag t then 1 else p.avcHeaderCount }, none) := by
  obtain ⟨md, ⟨rest, buf⟩, ⟨out, script⟩, a, tc, sc⟩ := p
  simp only at hbuf hrest hscript havc
  subst hbuf hrest hscript
  simp only [wellFormedTag, Bool.and_eq_true, Bool.or_eq_true, decide_eq_true_eq] at hwf
  obtain ⟨⟨⟨h15, hty⟩, hlen⟩, hsub⟩ := hwf
  have hdl := declaredLength_lt t
  obtain ⟨hd, body, hhd, rfl⟩ : ∃ hd body : List Byte, hd.length = 15 ∧ t = hd ++ body :=
    ⟨t.take 15, t.drop 15, by simp [h15], by simp⟩
  have e4 : (hd ++ body).getD 4 0 = hd.getD 4 0 := List.getD_append _ _ _ _ (by omega)
  have e5 : (hd ++ body).getD 5 0 = hd.getD 5 0 := List.getD_append _ _ _ _ (by omega)
  have e6 : (hd ++ body).getD 6 0 = hd.getD 6 0 := List.getD_append _ _ _ _ (by omega)
  have e7 : (hd ++ body).getD 7 0 = hd.getD 7 0 := List.getD_append _ _ _ _ (by omega)
  have e15 : (hd ++ body).getD 15 0 = body.getD 0 0 := by
    rw [List.getD_append_right _ _ _ _ (by omega), hhd]
  have e16 : (hd ++ body).getD 16 0 = body.getD 1 0 := by
    rw [List.getD_append_right _ _ _ _ (by omega), hhd]
  have hlen2 : body.length = declaredLength (hd ++ body) := by
    rw [List.length_append] at hlen; omega
  have hread : ∀ (x : List Byte), (15 ≤ (hd ++ body ++ x).length) := by
    intro x; simp [hhd]
  have htake : List.take 15 (hd ++ body ++ r) = hd := by
    rw [List.append_assoc]; exact List.take_left' hhd
  have hdrop : List.drop 15 (hd ++ body ++ r) = body ++ r := by
    rw [List.append_assoc]; exact List.drop_left' hhd
  simp only [tagTypeOf, declaredLength, subHeaderLen, isAVCSeqHeaderTag, e4, e5, e6, e7, e15, e16] at *
  generalize hD : (↑(hd.getD 5 0) <<< 16 ||| ↑(hd.getD 6 0) <<< 8 ||| (↑(hd.getD 7 0) : Nat)) = D at *
  simp only [Parser.parseTag, BufferedReader.ReadN, hread, htake, hdrop, if_true, hD]
  rcases hty with (hty | hty) | hty
  · rw [hty] at hsub havc ⊢
    simp only [audioTag, videoTag, scriptTag, if_true] at hsub havc ⊢
    simp only [Parser.parseAudioTag]
    rcases body with _ | ⟨b0, body⟩
    · simp at hlen2; split at hsub <;> omega
    simp only [List.getD_cons_zero, List.getD_cons_succ, List.cons_append, BufferedReader.ReadByte,
      List.length_cons] at *
    by_cases haac : (b0.val >>> 4) &&& 15 = AAC
    · simp only [haac, if_true] at hsub ⊢
      rcases body with _ | ⟨b1, body⟩
      · simp at hlen2; omega
      simp only [List.getD_cons_zero, List.getD_cons_succ, List.cons_append, BufferedReader.ReadByte,
        List.length_cons] at *
      rw [sub32_of_le D 1 (by omega) (by omega), sub32_of_le (D - 1) 1 (by omega) (by omega)]
      rw [forward_acceptAll _ _ rfl (by simp; omega)]
      have : D - 1 - 1 = body.length := by omega
      simp [this]
    · simp only [haac, if_false] at hsub ⊢
      rw [sub32_of_le D 1 (by omega) (by omega)]
      rw [forward_acceptAll _ _ rfl (by simp; omega)]
      have : D - 1 = body.length := by omega
      simp [this]
  · rw [hty] at hsub havc ⊢
    simp only [audioTag, videoTag, scriptTag, Nat.reduceEqDiff, if_false, if_true] at hsub havc ⊢
    simp only [Parser.parseVideoTag]
    have hD1 : 1 ≤ D := by
      split at hsub
      · split at hsub <;> omega
      · omega
    rcases body with _ | ⟨b0, body⟩
    · simp at hlen2; omega
    simp only [List.getD_cons_zero, List.getD_cons_succ, List.cons_append, BufferedReader.ReadByte,
      List.length_cons] at *
    by_cases hcodec : b0.val &&& 15 = AVCCode
    · simp only [hcodec, if_true] at hsub havc ⊢
      have hD2 : 2 ≤ D := by split at hsub <;> omega
      rcases body with _ | ⟨b1, body⟩
      · simp at hlen2; omega
      simp only [List.getD_cons_zero, List.getD_cons_succ, List.cons_append,
        BufferedReader.ReadByte, List.length_cons] at *
      by_cases hnalu : b1.val = AVCNALU
      · simp only [hnalu, if_true] at hsub havc ⊢
        have hr3 : 3 ≤ (body ++ r).length := by simp; omega
        simp only [BufferedReader.ReadN, hr3, if_true]
        rw [sub32_of_le D 1 (by omega) (by omega), sub32_of_le (D - 1) 1 (by omega) (by omega),
          sub32_of_le (D - 1 - 1) 3 (by omega) (by omega)]
        rw [forward_acceptAll _ _ rfl (by simp; omega)]
        have h3 : List.take 3 (body ++ r) ++ List.take (D - 1 - 1 - 3) (List.drop 3 (body ++ r))
            = body := by
          rw [← List.take_add]
          have : 3 + (D - 1 - 1 - 3) = body.length := by omega
          rw [this]; simp
        have h4 : List.drop (D - 1 - 1 - 3) (List.drop 3 (body ++ r)) = r := by
          rw [List.drop_drop]
          have : 3 + (D - 1 - 1 - 3) = body.length := by omega
          rw [this]; simp
        simp [h4, AVCNALU, AVCSeqHeader, List.append_assoc, h3]
      · simp only [hnalu, if_false] at hsub ⊢
        by_cases hseq : b1.val = AVCSeqHeader
        · simp only [hseq, if_true] at havc ⊢
          have ha : a = 0 := havc (by simp)
          subst ha
          simp only [Nat.zero_add, Nat.one_mod, gt_iff_lt, Nat.lt_irrefl, if_false]
          rw [sub32_of_le D 1 (by omega) (by omega), sub32_of_le (D - 1) 1 (by omega) (by omega)]
          rw [forward_acceptAll _ _ rfl (by simp; omega)]
          have : D - 1 - 1 = body.length := by omega
          simp [this]
        · simp only [hseq, if_false]
          rw [sub32_of_le D 1 (by omega) (by omega), sub32_of_le (D - 1) 1 (by omega) (by omega)]
          rw [forward_acceptAll _ _ rfl (by simp; omega)]
          have : D - 1 - 1 = body.length := by omega
          simp [this, hseq]
    · simp only [hcodec, if_false] at hsub ⊢
      rw [sub32_of_le D 1 (by omega) (by omega)]
      rw [forward_acceptAll _ _ rfl (by simp; omega)]
      have : D - 1 = body.length := by omega
      simp [this, hcodec]
  · rw [hty]
    simp only [audioTag, videoTag, scriptTag, Parser.parseScriptTag]
    simp
    rw [forward_acceptAll _ _ rfl (by simp; omega)]
    simp [hlen2, hty, videoTag, scriptTag]


theorem parseHeader_valid (p : Parser) (flags : Byte) (r : List Byte)
    (hbuf : p.i.buf = []) (hrest : p.i.rest = flvHeader flags ++ r) (hscript : p.o.script = []) :
    p.parseHeader =
      ({ p with
          Metadata := { HasVideo := decide (flags.val &&& (1 <<< 2) ≠ 0)
                        HasAudio := decide (flags.val &&& 1 ≠ 0) }
          i := { rest := r, buf := [] }
          o := { out := p.o.out ++ flvHeader flags, script := [] } }, none) := by
  obtain ⟨md, ⟨rest, buf⟩, ⟨out, script⟩, a, tc, sc⟩ := p
  simp only at hbuf hrest hscript
  subst hbuf hrest hscript
  simp only [Parser.parseHeader, BufferedReader.ReadN, flvHeader, flvSign]
  simp [bigEndianUint32, flvSign, doWrite_acceptAll, BufferedReader.AllBytes, BufferedReader.Reset]
  rfl

theorem parseTags_wellFormed (stop : Nat → Bool) (tags : List (List Byte)) :
    ∀ (fuel k : Nat) (p : Parser),
      (∀ t ∈ tags, wellFormedTag t = true) → p.i.buf = [] → p.i.rest = tags.flatten →
      p.o.script = [] → p.avcHeaderCount + (tags.filter isAVCSeqHeaderTag).length ≤ 1 →
      tags.length < fuel →
      ∃ p1 err n, parseTags stop fuel k p = some (p1, err) ∧ n ≤ tags.length ∧
        p1.o.out = p.o.out ++ (tags.take n).flatten ∧ p1.i.rest = (tags.drop n).flatten ∧
        p1.i.buf = [] ∧ p1.Metadata = p.Metadata ∧
        (err = none ∨ (err = some .EOF ∧ n = tags.length)) ∧
        ((∀ j, stop j = false) → err = some .EOF) := by
  induction tags with
  | nil =>
    intro fuel k p _ hbuf hrest hscript _ hfuel
    obtain ⟨md, ⟨rest, buf⟩, ⟨out, script⟩, a, tc, sc⟩ := p
    simp only [List.flatten] at hbuf hrest hscript
    subst hbuf hrest hscript
    cases fuel with
    | zero => simp at hfuel
    | succ f =>
      by_cases hs : stop k = true
      · exact ⟨_, none, 0, by simp [parseTags, hs], by simp, by simp, by simp, rfl, rfl, by simp,
          fun h => by simp [h] at hs⟩
      · refine ⟨⟨md, ⟨[], []⟩, ⟨out, []⟩, a, (tc + 1) % 2 ^ 32, sc⟩, some .EOF, 0, ?_, by simp, ?_, ?_, ?_, ?_, by simp, fun _ => rfl⟩
        · simp [parseTags, hs, Parser.parseTag, BufferedReader.ReadN]
        all_goals simp
  | cons t ts ih =>
    intro fuel k p hwf hbuf hrest hscript havc hfuel
    cases fuel with
    | zero => simp at hfuel
    | succ f =>
      by_cases hs : stop k = true
      · exact ⟨p, none, 0, by simp [parseTags, hs], by simp, by simp, by simpa using hrest, hbuf,
          rfl, by simp, fun h => by simp [h] at hs⟩
      · have hwt : wellFormedTag t = true := hwf t (by simp)
        have hcount : p.avcHeaderCount + (if isAVCSeqHeaderTag t = true then 1 else 0)
            + (ts.filter isAVCSeqHeaderTag).length ≤ 1 := by
          rw [List.filter_cons] at havc
          split at havc <;> simp_all <;> omega
        have hstep := parseTag_wellFormed p t ts.flatten hwt hbuf (by simpa using hrest) hscript
          (by intro h; rw [if_pos h] at hcount; omega)
        obtain ⟨q, hq⟩ : ∃ q : Parser, q = { p with
            i := { rest := ts.flatten, buf := [] }
            o := { out := p.o.out ++ t, script := [] }
            tagCount := (p.tagCount + 1) % 2 ^ 32
            avcHeaderCount := if isAVCSeqHeaderTag t then 1 else p.avcHeaderCount } := ⟨_, rfl⟩
        rw [← hq] at hstep
        obtain ⟨p1, err, n, h1, h2, h3, h4, h5, h6, h7, h8⟩ := ih f (k + 1) q
          (fun t ht => hwf t (by simp [ht])) (by rw [hq]) (by rw [hq]) (by rw [hq])
          (by
            rw [hq]
            cases hb : isAVCSeqHeaderTag t <;>
              simp only [hb, reduceIte, Bool.false_eq_true] at hcount ⊢ <;> omega)
          (by simp at hfuel; omega)
        refine ⟨p1, err, n + 1, ?_, by simp; omega, ?_, by simpa using h4, h5, ?_, ?_, h8⟩
        · simp [parseTags, hs, hstep, h1]
        · rw [h3, hq]; simp [List.append_assoc]
        · rw [h6, hq]
        · rcases h7 with h7 | ⟨h7, h7n⟩
          · exact Or.inl h7
          · exact Or.inr ⟨h7, by simp [h7n]⟩


theorem parseTags_wellFormed_then (stop : Nat → Bool) (r : List Byte) (tags : List (List Byte)) :
    ∀ (fuel k : Nat) (p : Parser),
      (∀ t ∈ tags, wellFormedTag t = true) → p.i.buf = [] → p.i.rest = tags.flatten ++ r →
      p.o.script = [] → p.avcHeaderCount + (tags.filter isAVCSeqHeaderTag).length ≤ 1 →
      (∀ j, k ≤ j → j < k + tags.length → stop j = false) →
      ∃ q : Parser,
        parseTags stop (fuel + tags.length) k p = parseTags stop fuel (k + tags.length) q ∧
        q.i = { rest := r, buf := [] } ∧
        q.o = { out := p.o.out ++ tags.flatten, script := [] } ∧
        q.avcHeaderCount = p.avcHeaderCount + (tags.filter isAVCSeqHeaderTag).length ∧
        q.Metadata = p.Metadata := by
  induction tags with
  | nil =>
    intro fuel k p _ hbuf hrest hscript _ _
    obtain ⟨md, ⟨rest, buf⟩, ⟨out, script⟩, a, tc, sc⟩ := p
    simp only [List.flatten, List.nil_append] at hbuf hrest hscript
    subst hbuf hrest hscript
    exact ⟨_, rfl, by simp, by simp, by simp, rfl⟩
  | cons t ts ih =>
    intro fuel k p hwf hbuf hrest hscript havc hstop
    have hs : stop k = false := hstop k (Nat.le_refl _) (by simp)
    have hwt : wellFormedTag t = true := hwf t (by simp)
    have hcount : p.avcHeaderCount + (if isAVCSeqHeaderTag t = true then 1 else 0)
        + (ts.filter isAVCSeqHeaderTag).length ≤ 1 := by
      rw [List.filter_cons] at havc
      split at havc <;> simp_all <;> omega
    have hstep := parseTag_wellFormed p t (ts.flatten ++ r) hwt hbuf
      (by simpa [List.append_assoc] using hrest) hscript
      (by intro h; rw [if_pos h] at hcount; omega)
    obtain ⟨q0, hq0⟩ : ∃ q : Parser, q = { p with
        i := { rest := ts.flatten ++ r, buf := [] }
        o := { out := p.o.out ++ t, script := [] }
        tagCount := (p.tagCount + 1) % 2 ^ 32
        avcHeaderCount := if isAVCSeqHeaderTag t then 1 else p.avcHeaderCount } := ⟨_, rfl⟩
    rw [← hq0] at hstep
    obtain ⟨q, h1, h2, h3, h4, h5⟩ := ih fuel (k + 1) q0
      (fun t ht => hwf t (by simp [ht])) (by rw [hq0]) (by rw [hq0]) (by rw [hq0])
      (by
        rw [hq0]
        cases hb : isAVCSeqHeaderTag t <;>
          simp only [hb, reduceIte, Bool.false_eq_true] at hcount ⊢ <;> omega)
      (fun j hj1 hj2 => hstop j (by omega) (by simp; omega))
    refine ⟨q, ?_, h2, ?_, ?_, ?_⟩
    · have e1 : fuel + (t :: ts).length = (fuel + ts.length) + 1 := by simp; omega
      have e2 : k + (t :: ts).length = k + 1 + ts.length := by simp; omega
      rw [e1, e2, ← h1]
      simp [parseTags, hs, hstep]
    · rw [h3, hq0]; simp [List.append_assoc]
    · rw [h4, hq0, List.filter_cons]
      cases hb : isAVCSeqHeaderTag t <;>
        simp only [hb, reduceIte, Bool.false_eq_true, List.length_cons] at hcount ⊢ <;> omega
    · rw [h5, hq0]

theorem parseTag_secondSeqHeader (p : Parser) (t2 : List Byte) (h17 : 17 ≤ t2.length)
    (hseq : isAVCSeqHeaderTag t2 = true) (hrest : p.i.rest = t2) (havc : p.avcHeaderCount = 1) :
    p.parseTag.2 = some .newSpsPps ∧ p.parseTag.1.o = p.o := by
  obtain ⟨md, ⟨rest, buf⟩, o, a, tc, sc⟩ := p
  simp only at hrest havc
  subst hrest havc
  obtain ⟨hd, body, hhd, rfl⟩ : ∃ hd body : List Byte, hd.length = 15 ∧ rest = hd ++ body :=
    ⟨rest.take 15, rest.drop 15, by simp; omega, by simp⟩
  have e4 : (hd ++ body).getD 4 0 = hd.getD 4 0 := List.getD_append _ _ _ _ (by omega)
  have e15 : (hd ++ body).getD 15 0 = body.getD 0 0 := by
    rw [List.getD_append_right _ _ _ _ (by omega), hhd]
  have e16 : (hd ++ body).getD 16 0 = body.getD 1 0 := by
    rw [List.getD_append_right _ _ _ _ (by omega), hhd]
  simp only [isAVCSeqHeaderTag, tagTypeOf, e4, e15, e16, Bool.and_eq_true, decide_eq_true_eq] at hseq
  obtain ⟨⟨hty, hcodec⟩, hpkt⟩ := hseq
  have hread : 15 ≤ (hd ++ body).length := by simp [hhd]
  rcases body with _ | ⟨b0, _ | ⟨b1, body⟩⟩
  · simp [hhd] at h17
  · simp [hhd] at h17
  simp only [List.getD_cons_zero, List.getD_cons_succ] at hcodec hpkt
  simp only [Parser.parseTag, BufferedReader.ReadN, hread, if_true, List.take_left' hhd,
    List.drop_left' hhd, hty, audioTag, videoTag, Nat.reduceEqDiff, if_false,
    Parser.parseVideoTag, BufferedReader.ReadByte, hcodec, hpkt, AVCNALU, AVCSeqHeader]
  simp


set_option maxRecDepth 1000000 in
theorem flagBits (x : Byte) :
    decide (x.val &&& (1 <<< 2) ≠ 0) = x.val.testBit 2 ∧
    decide (x.val &&& 1 ≠ 0) = x.val.testBit 0 := by
  revert x
  decide

/-- C1: a valid header followed by well-formed tags (at most one AVC sequence header),
written to a destination that accepts every write, is forwarded byte for byte: the parser
returns, what it wrote followed by what it left unread is the input, it wrote the header
and a whole number of tags, and when no stop is requested it wrote the entire input and
ended with the end-of-input error. -/
theorem doParse_output_identical (flags : Byte) (tags : List (List Byte)) (stop : Nat → Bool)
    (fuel : Nat)
    (hwf : ∀ t ∈ tags, wellFormedTag t = true)
    (hseq : (tags.filter isAVCSeqHeaderTag).length ≤ 1)
    (hfuel : tags.length < fuel) :
    ∃ p1 err n,
      (newParser (flvHeader flags ++ tags.flatten) (acceptAll [])).doParse stop fuel
        = some (p1, err) ∧
      n ≤ tags.length ∧
      p1.o.out = flvHeader flags ++ (tags.take n).flatten ∧
      p1.i.rest = (tags.drop n).flatten ∧
      p1.i.buf = [] ∧
      p1.o.out ++ p1.i.rest = flvHeader flags ++ tags.flatten ∧
      ((∀ j, stop j = false) →
        err = some .EOF ∧ p1.i.rest = [] ∧ p1.o.out = flvHeader flags ++ tags.flatten) := by
  have hh := parseHeader_valid (newParser (flvHeader flags ++ tags.flatten) (acceptAll []))
    flags tags.flatten rfl rfl rfl
  obtain ⟨q, hq⟩ : ∃ q : Parser, q = { newParser (flvHeader flags ++ tags.flatten) (acceptAll []) with
      Metadata := { HasVideo := decide (flags.val &&& (1 <<< 2) ≠ 0)
                    HasAudio := decide (flags.val &&& 1 ≠ 0) }
      i := { rest := tags.flatten, buf := [] }
      o := { out := (newParser (flvHeader flags ++ tags.flatten) (acceptAll [])).o.out
                      ++ flvHeader flags, script := [] } } := ⟨_, rfl⟩
  rw [← hq] at hh
  obtain ⟨p1, err, n, h1, h2, h3, h4, h5, _, h7, h8⟩ := parseTags_wellFormed stop tags fuel 0 q
    hwf (by rw [hq]) (by rw [hq]) (by rw [hq]) (by rw [hq]; simpa [newParser] using hseq) hfuel
  have hout : q.o.out = flvHeader flags := by rw [hq]; simp [newParser, acceptAll]
  rw [hout] at h3
  refine ⟨p1, err, n, ?_, h2, h3, h4, h5, ?_, ?_⟩
  · simp [Parser.doParse, hh, h1]
  · rw [h3, h4, List.append_assoc, ← List.flatten_append, List.take_append_drop]
  · intro hs
    have he := h8 hs
    rcases h7 with h7 | ⟨_, h7⟩
    · rw [h7] at he; cases he
    · subst h7
      refine ⟨he, ?_, ?_⟩
      · rw [h4]; simp
      · rw [h3]; simp

/-- Witness for C1: the spec's example, flags 0x05, one audio tag and one video tag; with
no stop request the destination ends up holding the whole input. -/
theorem doParse_output_identical_witness :
    (∀ t ∈ [exampleAudioTag, exampleVideoTag], wellFormedTag t = true) ∧
    ∃ p1,
      (newParser (flvHeader 5 ++ [exampleAudioTag, exampleVideoTag].flatten)
          (acceptAll [])).doParse (fun _ => false) 3 = some (p1, some .EOF) ∧
      p1.o.out = flvHeader 5 ++ [exampleAudioTag, exampleVideoTag].flatten := by
  obtain ⟨p1, err, n, h1, _, _, _, _, _, h7⟩ :=
    doParse_output_identical 5 [exampleAudioTag, exampleVideoTag] (fun _ => false) 3
      (by decide) (by decide) (by decide)
  obtain ⟨he, _, ho⟩ := h7 (fun _ => rfl)
  exact ⟨by decide, p1, by rw [h1, he], ho⟩

theorem doWriteLoop_error (b : List Byte) :
    ∀ (n : Nat) (o : Writer) (left : Nat),
      (doWriteLoop b n o left).2.2 = none ∨ (doWriteLoop b n o left).2.2 = some .writeFailed := by
  intro n
  induction n with
  | zero => intro o left; simp [doWriteLoop]
  | succ n ih =>
    intro o left
    simp only [doWriteLoop]
    split
    · split
      · simp
      · exact ih _ _
    · simp

theorem doWrite_ne_notFlv (p : Parser) (b : List Byte) :
    (p.doWrite b).2 ≠ some .ErrNotFlvStream := by
  unfold Parser.doWrite
  have h := doWriteLoop_error b ioRetryCount p.o b.length
  split
  · rename_i o l e he
    rw [he] at h
    simp at h
    simp [h]
  · split <;> simp

theorem doWrite_fst (p : Parser) (b : List Byte) :
    (p.doWrite b).1 = { p with o := (doWriteLoop b ioRetryCount p.o b.length).1 } := by
  unfold Parser.doWrite
  rcases doWriteLoop b ioRetryCount p.o b.length with ⟨o1, left, _ | e⟩
  · simp only; split <;> rfl
  · rfl

theorem resetOnSuccess_frame (x : Parser × Option Error) :
    (match x with
      | (p3, some e) => (p3, some e)
      | (p3, none) => ({ p3 with i := p3.i.Reset }, none)).1.Metadata = x.1.Metadata ∧
    (match x with
      | (p3, some e) => (p3, some e)
      | (p3, none) => ({ p3 with i := p3.i.Reset }, none)).1.o = x.1.o ∧
    (match x with
      | (p3, some e) => (p3, some e)
      | (p3, none) => ({ p3 with i := p3.i.Reset }, none)).1.i.rest = x.1.i.rest ∧
    (match x with
      | (p3, some e) => (p3, some e)
      | (p3, none) => ({ p3 with i := p3.i.Reset }, none)).2 = x.2 := by
  rcases x with ⟨p3, _ | e⟩ <;> simp [BufferedReader.Reset]

/-- C10: on a stream that starts with the nine bytes `b`, the header step fails with
`ErrNotFlvStream` exactly when the first four bytes are not the signature or the big-endian
value of the last four is not 9; for a valid header it records bit 0 of the flags byte as
`HasAudio` and bit 2 as `HasVideo`, hands exactly the nine header bytes to `doWrite`, and
with a destination that accepts the write it succeeds with the nine bytes appended. -/
theorem parseHeader_spec (b rest : List Byte) (o : Writer) (hb : b.length = 9) :
    ((newParser (b ++ rest) o).parseHeader.2 = some .ErrNotFlvStream ↔
        (b.take 4 ≠ flvSign ∨ bigEndianUint32 (b.drop 5) ≠ 9)) ∧
    (b.take 4 = flvSign → bigEndianUint32 (b.drop 5) = 9 →
      (newParser (b ++ rest) o).parseHeader.1.Metadata.HasAudio = (b.getD 4 0).val.testBit 0 ∧
      (newParser (b ++ rest) o).parseHeader.1.Metadata.HasVideo = (b.getD 4 0).val.testBit 2 ∧
      (newParser (b ++ rest) o).parseHeader.1.o = (doWriteLoop b ioRetryCount o b.length).1 ∧
      (newParser (b ++ rest) o).parseHeader.1.i.rest = rest ∧
      (o.script = [] →
        (newParser (b ++ rest) o).parseHeader.2 = none ∧
        (newParser (b ++ rest) o).parseHeader.1.o.out = o.out ++ b)) := by
  have hread : 9 ≤ (b ++ rest).length := by simp [hb]
  have hph : (newParser (b ++ rest) o).parseHeader =
      if b.take 4 ≠ flvSign then
        ({ newParser (b ++ rest) o with i := { rest := rest, buf := b } }, some .ErrNotFlvStream)
      else if bigEndianUint32 (b.drop 5) ≠ 9 then
        ({ newParser (b ++ rest) o with
            i := { rest := rest, buf := b }
            Metadata := { HasVideo := decide ((b.getD 4 0).val &&& (1 <<< 2) ≠ 0)
                          HasAudio := decide ((b.getD 4 0).val &&& 1 ≠ 0) } },
          some .ErrNotFlvStream)
      else
        match ({ newParser (b ++ rest) o with
            i := { rest := rest, buf := b }
            Metadata := { HasVideo := decide ((b.getD 4 0).val &&& (1 <<< 2) ≠ 0)
                          HasAudio := decide ((b.getD 4 0).val &&& 1 ≠ 0) } } : Parser).doWrite b with
        | (p3, some e) => (p3, some e)
        | (p3, none) => ({ p3 with i := p3.i.Reset }, none) := by
    simp only [Parser.parseHeader, BufferedReader.ReadN, newParser, hread, if_true,
      List.take_left' hb, List.drop_left' hb, List.nil_append, BufferedReader.AllBytes]
  rw [hph]
  obtain ⟨q, hq⟩ : ∃ q : Parser, q = { newParser (b ++ rest) o with
            i := { rest := rest, buf := b }
            Metadata := { HasVideo := decide ((b.getD 4 0).val &&& (1 <<< 2) ≠ 0)
                          HasAudio := decide ((b.getD 4 0).val &&& 1 ≠ 0) } } := ⟨_, rfl⟩
  rw [← hq]
  have hne := doWrite_ne_notFlv q b
  have hbits := flagBits (b.getD 4 0)
  constructor
  · by_cases h1 : b.take 4 = flvSign
    · by_cases h2 : bigEndianUint32 (b.drop 5) = 9
      · simp only [h1, h2, ne_eq, not_true_eq_false, if_false, or_self, iff_false]
        revert hne
        rcases q.doWrite b with ⟨p3, _ | e⟩ <;> simp
      · simp [h1, h2]
    · simp [h1]
  · intro h1 h2
    simp only [h1, h2, ne_eq, not_true_eq_false, if_false]
    obtain ⟨f1, f2, f3, f4⟩ := resetOnSuccess_frame (q.doWrite b)
    have hfst := doWrite_fst q b
    refine ⟨?_, ?_, ?_, ?_, ?_⟩
    · rw [f1, hfst, hq]; exact hbits.2
    · rw [f1, hfst, hq]; exact hbits.1
    · rw [f2, hfst, hq]; rfl
    · rw [f3, hfst, hq]
    · intro hs
      have hacc := doWrite_acceptAll q b (by rw [hq]; simpa [newParser] using hs)
      rw [f4, f2, hacc]
      simp [hq, newParser]

/-- C3: in a session that has forwarded a header and well-formed tags, one of them an AVC
sequence header, a further video tag carrying an AVC sequence header makes the parser
return the "new sps and pps" error; the destination then holds the header and every byte
of the earlier tags and no byte of the second sequence-header tag. -/
theorem doParse_second_seq_header (flags : Byte) (tags : List (List Byte)) (t2 : List Byte)
    (stop : Nat → Bool) (fuel : Nat)
    (hwf : ∀ t ∈ tags, wellFormedTag t = true)
    (hone : (tags.filter isAVCSeqHeaderTag).length = 1)
    (h17 : 17 ≤ t2.length) (hseq2 : isAVCSeqHeaderTag t2 = true)
    (hstop : ∀ j, j ≤ tags.length → stop j = false)
    (hfuel : tags.length < fuel) :
    ∃ p1,
      (newParser (flvHeader flags ++ tags.flatten ++ t2) (acceptAll [])).doParse stop fuel
        = some (p1, some .newSpsPps) ∧
      p1.o.out = flvHeader flags ++ tags.flatten := by
  have hh := parseHeader_valid (newParser (flvHeader flags ++ tags.flatten ++ t2) (acceptAll []))
    flags (tags.flatten ++ t2) rfl (by simp [newParser, List.append_assoc]) rfl
  obtain ⟨q0, hq0⟩ : ∃ q : Parser,
      q = { newParser (flvHeader flags ++ tags.flatten ++ t2) (acceptAll []) with
        Metadata := { HasVideo := decide (flags.val &&& (1 <<< 2) ≠ 0)
                      HasAudio := decide (flags.val &&& 1 ≠ 0) }
        i := { rest := tags.flatten ++ t2, buf := [] }
        o := { out := (newParser (flvHeader flags ++ tags.flatten ++ t2) (acceptAll [])).o.out
                        ++ flvHeader flags, script := [] } } := ⟨_, rfl⟩
  rw [← hq0] at hh
  obtain ⟨f, rfl⟩ : ∃ f, fuel = (f + 1) + tags.length := ⟨fuel - tags.length - 1, by omega⟩
  obtain ⟨q, h1, h2, h3, h4, _⟩ := parseTags_wellFormed_then stop t2 tags (f + 1) 0 q0 hwf
    (by rw [hq0]) (by rw [hq0]) (by rw [hq0])
    (by rw [hq0]; simp [newParser, hone])
    (fun j _ hj => hstop j (by omega))
  have havc : q.avcHeaderCount = 1 := by rw [h4, hq0]; simp [newParser, hone]
  obtain ⟨e1, e2⟩ := parseTag_secondSeqHeader q t2 h17 hseq2 (by rw [h2]) havc
  have hs : stop (0 + tags.length) = false := hstop _ (by omega)
  refine ⟨q.parseTag.1, ?_, ?_⟩
  · simp only [Parser.doParse, hh, h1, parseTags, hs]
    rcases hpt : q.parseTag with ⟨p2, _ | e⟩
    · rw [hpt] at e1; simp at e1
    · rw [hpt] at e1; simp at e1; simp [e1]
  · rw [e2, h3, hq0]; simp [newParser, acceptAll]


/-- Witness for C3: a sequence header and an audio tag, then a second sequence header. -/
theorem doParse_second_seq_header_witness :
    (∀ t ∈ [exampleSeqHeaderTag, exampleAudioTag], wellFormedTag t = true) ∧
    isAVCSeqHeaderTag exampleSeqHeaderTag = true ∧
    ∃ p1,
      (newParser (flvHeader 5 ++ [exampleSeqHeaderTag, exampleAudioTag].flatten
          ++ exampleSeqHeaderTag) (acceptAll [])).doParse (fun _ => false) 3
        = some (p1, some .newSpsPps) ∧
      p1.o.out = flvHeader 5 ++ [exampleSeqHeaderTag, exampleAudioTag].flatten :=
  ⟨by decide, by decide,
   doParse_second_seq_header 5 [exampleSeqHeaderTag, exampleAudioTag] exampleSeqHeaderTag
     (fun _ => false) 3 (by decide) (by decide) (by decide) (by decide) (fun _ _ => rfl)
     (by decide)⟩

/-- Witness for C10: the header with flags 0x05 in front of an audio tag. -/
theorem parseHeader_spec_witness :
    (flvHeader 5).length = 9 ∧
    (newParser (flvHeader 5 ++ exampleAudioTag) (acceptAll [])).parseHeader.2 = none ∧
    (newParser (flvHeader 5 ++ exampleAudioTag) (acceptAll [])).parseHeader.1.o.out
      = [] ++ flvHeader 5 ∧
    (newParser (flvHeader 5 ++ exampleAudioTag) (acceptAll [])).parseHeader.1.Metadata.HasAudio
      = true ∧
    (newParser (flvHeader 5 ++ exampleAudioTag) (acceptAll [])).parseHeader.1.Metadata.HasVideo
      = true :=
  ⟨rfl,
   (((parseHeader_spec (flvHeader 5) exampleAudioTag (acceptAll []) rfl).2
      (by decide) (by decide)).2.2.2.2 rfl).1,
   (((parseHeader_spec (flvHeader 5) exampleAudioTag (acceptAll []) rfl).2
      (by decide) (by decide)).2.2.2.2 rfl).2,
   ((parseHeader_spec (flvHeader 5) exampleAudioTag (acceptAll []) rfl).2
      (by decide) (by decide)).1.trans (by decide),
   ((parseHeader_spec (flvHeader 5) exampleAudioTag (acceptAll []) rfl).2
      (by decide) (by decide)).2.1.trans (by decide)⟩

end flv

namespace gomap

theorem get_append {κ α : Type} [DecidableEq κ] (m n : List (κ × α)) (k : κ) :
    get (m ++ n) k = (get m k).orElse (fun _ => get n k) := by
  induction m with
  | nil => simp [get]
  | cons e rest ih =>
    simp only [List.cons_append, get]
    split
    · simp
    · exact ih

theorem get_delete_self {κ α : Type} [DecidableEq κ] (m : List (κ × α)) (k : κ) :
    get (delete m k) k = none := by
  induction m with
  | nil => simp [delete, get]
  | cons e rest ih =>
    simp only [delete, List.filter_cons] at ih ⊢
    split
    · rename_i h
      simp only [get]
      rw [if_neg (by simpa using h)]
      exact ih
    · exact ih

theorem get_delete_other {κ α : Type} [DecidableEq κ] (m : List (κ × α)) (k k1 : κ)
    (h : k1 ≠ k) : get (delete m k) k1 = get m k1 := by
  induction m with
  | nil => simp [delete, get]
  | cons e rest ih =>
    simp only [delete, List.filter_cons] at ih ⊢
    by_cases he : e.1 = k
    · simp only [he, ne_eq, not_true_eq_false, decide_False, Bool.false_eq_true, if_false, get]
      rw [if_neg (fun h2 => h h2.symm)]
      exact ih
    · simp only [ne_eq, he, not_false_eq_true, decide_True, if_true, get]
      rw [ih]

theorem get_set_self {κ α : Type} [DecidableEq κ] (m : List (κ × α)) (k : κ) (v : α) :
    get (set m k v) k = some v := by
  simp [set, get_append, get_delete_self, get]

theorem get_set_other {κ α : Type} [DecidableEq κ] (m : List (κ × α)) (k k1 : κ) (v : α)
    (h : k1 ≠ k) : get (set m k v) k1 = get m k1 := by
  simp only [set, get_append, get_delete_other m k k1 h, get]
  rw [if_neg (fun h2 => h h2.symm)]
  cases get m k1 <;> simp

theorem delete_delete {κ α : Type} [DecidableEq κ] (m : List (κ × α)) (k : κ) :
    delete (delete m k) k = delete m k := by
  simp [delete, List.filter_filter]

theorem set_delete_self {κ α : Type} [DecidableEq κ] (m : List (κ × α)) (k : κ) (v : α) :
    set (delete m k) k v = set m k v := by
  simp [set, delete_delete]

theorem mem_of_get {κ α : Type} [DecidableEq κ] (m : List (κ × α)) (k : κ) (v : α)
    (h : get m k = some v) : (k, v) ∈ m := by
  induction m with
  | nil => simp [get] at h
  | cons e rest ih =>
    simp only [get] at h
    split at h
    · rename_i he
      cases h
      simp [← he]
    · exact List.mem_cons_of_mem _ (ih h)

theorem get_foldl_delete {κ α : Type} [DecidableEq κ] (es : List (κ × α)) :
    ∀ (m : List (κ × α)) (k : κ),
      get (es.foldl (fun acc e => delete acc e.1) m) k =
        if k ∈ es.map Prod.fst then none else get m k := by
  induction es with
  | nil => intro m k; simp
  | cons e rest ih =>
    intro m k
    rw [List.foldl_cons, ih]
    by_cases h1 : k ∈ rest.map Prod.fst
    · simp [h1]
    · by_cases h2 : k = e.1
      · subst h2; simp [get_delete_self]
      · have : k ∉ (e :: rest).map Prod.fst := by
          simp only [List.map_cons, List.mem_cons, not_or]
          exact ⟨h2, h1⟩
        rw [if_neg h1, if_neg this, get_delete_other _ _ _ h2]

end gomap

namespace events

theorem snapshot_eq (listeners : List ListenerRef) : snapshot listeners = listeners := by
  have h : ∀ (acc ls : List ListenerRef),
      List.foldl (fun hs v => hs ++ [v]) acc ls = acc ++ ls := by
    intro acc ls
    induction ls generalizing acc with
    | nil => simp
    | cons x xs ih => simp [List.foldl, ih]
  simpa [snapshot] using h [] listeners

theorem apply_noEmptyList (e : dispatcher) (op : Op) (h : e.noEmptyList) :
    (e.apply op).noEmptyList := by
  intro t ls hget
  cases op with
  | add t1 l =>
    simp only [dispatcher.apply, dispatcher.AddEventListener] at hget
    by_cases ht : t = t1
    · subst ht
      split at hget
      · split at hget <;>
        · rw [gomap.get_set_self] at hget
          cases hget
          simp
      · rw [gomap.get_set_self] at hget
        cases hget
        simp
    · split at hget
      · split at hget <;>
        · rw [gomap.get_set_other _ _ _ _ ht] at hget
          exact h t ls hget
      · rw [gomap.get_set_other _ _ _ _ ht] at hget
        exact h t ls hget
  | remove t1 l =>
    simp only [dispatcher.apply, dispatcher.RemoveEventListener] at hget
    split at hget
    · exact h t ls hget
    · split at hget
      · by_cases ht : t = t1
        · subst ht
          rw [gomap.get_delete_self] at hget
          cases hget
        · rw [gomap.get_delete_other _ _ _ ht] at hget
          exact h t ls hget
      · rename_i hlen
        by_cases ht : t = t1
        · subst ht
          rw [gomap.get_set_self] at hget
          cases hget
          intro h0
          exact hlen (by rw [h0]; rfl)
        · rw [gomap.get_set_other _ _ _ _ ht] at hget
          exact h t ls hget
  | removeAll t1 =>
    simp [dispatcher.apply, dispatcher.RemoveAllEventListener, gomap.get] at hget

theorem foldl_noEmptyList (ops : List Op) :
    ∀ e : dispatcher, e.noEmptyList → (ops.foldl dispatcher.apply e).noEmptyList := by
  induction ops with
  | nil => intro e h; exact h
  | cons op rest ih => intro e h; exact ih _ (apply_noEmptyList e op h)

theorem run_noEmptyList (ops : List Op) : (run ops).noEmptyList :=
  foldl_noEmptyList ops NewDispatcher (by intro t ls h; simp [NewDispatcher, gomap.get] at h)

theorem foldl_plainAdds (t : EventType) (ops : List Op) :
    ∀ e : dispatcher, (∀ op ∈ ops, isPlainAdd op = true) →
      (ops.foldl dispatcher.apply e).registered t = e.registered t ++ ops.filterMap (addedFor t) := by
  induction ops with
  | nil => intro e _; simp
  | cons op rest ih =>
    intro e h
    have hop : isPlainAdd op = true := h op (by simp)
    rw [List.foldl_cons, ih _ (fun o ho => h o (by simp [ho]))]
    cases op with
    | add t1 l =>
      cases l with
      | none => simp [isPlainAdd] at hop
      | some a =>
        by_cases ht : t1 = t
        · subst ht
          cases hg : gomap.get e.saver t1 <;>
            simp [dispatcher.apply, dispatcher.AddEventListener, dispatcher.registered, hg,
              gomap.get_set_self, addedFor, List.filterMap_cons]
        · have ht2 : t ≠ t1 := fun h2 => ht h2.symm
          cases hg : gomap.get e.saver t1 <;>
            simp [dispatcher.apply, dispatcher.AddEventListener, dispatcher.registered, hg,
              gomap.get_set_other _ _ _ _ ht2, addedFor, List.filterMap_cons, ht]
    | remove t1 l => simp [isPlainAdd] at hop
    | removeAll t1 => simp [isPlainAdd] at hop

/-- C9: in every dispatcher state reached from `NewDispatcher`, `DispatchEvent` starts one
background task holding exactly the listeners registered for the event's type, in list
order and once per entry, and it starts no task when that list is empty or the event is
nil; after registrations of non-nil listeners only, that list is the listeners registered
for the type in registration order. -/
theorem DispatchEvent_spec (ops : List Op) (ev : Event) :
    (run ops).DispatchEvent (some ev) =
        (if (run ops).registered ev.Typ = [] then none
         else some ((run ops).registered ev.Typ)) ∧
    (run ops).DispatchEvent none = none ∧
    ((∀ op ∈ ops, isPlainAdd op = true) →
      (run ops).registered ev.Typ = ops.filterMap (addedFor ev.Typ)) := by
  refine ⟨?_, rfl, ?_⟩
  · have hinv := run_noEmptyList ops
    simp only [dispatcher.DispatchEvent, dispatcher.registered]
    cases hg : gomap.get (run ops).saver ev.Typ with
    | none => simp
    | some ls =>
      have hne := hinv ev.Typ ls hg
      simp [snapshot_eq, hne]
  · intro h
    have := foldl_plainAdds ev.Typ ops NewDispatcher h
    simpa [run, dispatcher.registered, NewDispatcher, gomap.get] using this

/-- Witness for C9: two listeners registered for `LiveStart`, one for `LiveEnd`. -/
theorem DispatchEvent_spec_witness :
    (∀ op ∈ [Op.add "LiveStart" (some 1), Op.add "LiveEnd" (some 2), Op.add "LiveStart" (some 3)],
        isPlainAdd op = true) ∧
    (run [Op.add "LiveStart" (some 1), Op.add "LiveEnd" (some 2),
        Op.add "LiveStart" (some 3)]).registered "LiveStart" = [some 1, some 3] :=
  ⟨by decide,
   ((DispatchEvent_spec [Op.add "LiveStart" (some 1), Op.add "LiveEnd" (some 2),
      Op.add "LiveStart" (some 3)]
      ⟨"LiveStart", .live (.platform ⟨"X", "u", 0⟩)⟩).2.2 (by decide)).trans (by decide)⟩

end events

namespace listeners

open events live

theorem SetLastStartTime_liveId (l : Live) (t : Int) :
    (l.SetLastStartTime t).GetLiveId = l.GetLiveId := by
  cases l <;> rfl

theorem refreshTail_liveId (x : listener) (env : Env) (info : Info) (st : status) (c : Bool)
    (t : EventType) : (x.refreshTail env info st c t).1.Live = x.Live := by
  simp only [listener.refreshTail]
  split
  · split
    · split <;> rfl
    · rfl
  · rfl

theorem refresh_liveId (x : listener) (env : Env) :
    (x.refresh env).1.Live.GetLiveId = x.Live.GetLiveId := by
  simp only [listener.refresh]
  split
  · rfl
  · split_ifs <;> simp [refreshTail_liveId, SetLastStartTime_liveId]

theorem Start_liveId (x : listener) (env : Env) :
    (x.Start env).1.Live.GetLiveId = x.Live.GetLiveId := by
  simp only [listener.Start]
  split
  · have h := refresh_liveId { x with state := pending } env
    split_ifs <;> simpa using h
  · rfl

theorem Close_liveId (x : listener) : x.Close.1.Live = x.Live := by
  simp only [listener.Close]; split <;> rfl

theorem Close_not_running (x : listener) : x.Close.1.state ≠ running := by
  simp only [listener.Close]
  split
  · simp [stopped, running]
  · assumption

theorem AddListener_consistent (m : manager) (live : Live) (env : Env) (h : m.consistent) :
    (m.AddListener live env).1.consistent := by
  obtain ⟨h1, h2⟩ := h
  simp only [manager.AddListener]
  cases hg : gomap.get m.listeners live.GetLiveId with
  | some i => exact ⟨h1, h2⟩
  | none =>
    simp only
    constructor
    · intro id idx hget
      by_cases hid : id = live.GetLiveId
      · subst hid
        rw [gomap.get_set_self] at hget
        cases hget
        exact ⟨((NewListener live m.OnRoomNameChanged).Start env).1, by simp,
          by rw [Start_liveId]; rfl⟩
      · rw [gomap.get_set_other _ _ _ _ hid] at hget
        obtain ⟨l, hl, hl2⟩ := h1 id idx hget
        have hlt : idx < m.objs.length := by
          rcases Nat.lt_or_ge idx m.objs.length with h | h
          · exact h
          · rw [List.getElem?_eq_none h] at hl; cases hl
        exact ⟨l, by rw [List.getElem?_append_left hlt]; exact hl, hl2⟩
    · intro idx l hl hrun
      rcases Nat.lt_or_ge idx m.objs.length with hlt | hge
      · rw [List.getElem?_append_left hlt] at hl
        have h3 := h2 idx l hl hrun
        have hne : l.Live.GetLiveId ≠ live.GetLiveId := by
          intro he; rw [he, hg] at h3; cases h3
        rw [gomap.get_set_other _ _ _ _ hne]
        exact h3
      · rw [List.getElem?_append_right hge] at hl
        have hidx : idx - m.objs.length = 0 := by
          rcases Nat.eq_zero_or_pos (idx - m.objs.length) with h | h
          · exact h
          · rw [List.getElem?_eq_none (by simp; omega)] at hl; cases hl
        rw [hidx] at hl
        simp at hl
        subst hl
        rw [Start_liveId]
        have : idx = m.objs.length := by omega
        subst this
        exact gomap.get_set_self _ _ _


theorem closeObj_listeners (m : manager) (idx : Nat) :
    (m.closeObj idx).1.listeners = m.listeners ∧
    (m.closeObj idx).1.OnRoomNameChanged = m.OnRoomNameChanged := by
  simp only [manager.closeObj]
  split <;> exact ⟨rfl, rfl⟩

theorem closeObj_objs (m : manager) (idx j : Nat) :
    (m.closeObj idx).1.objs[j]? =
      if j = idx then (m.objs[j]?).map (fun l => l.Close.1) else m.objs[j]? := by
  simp only [manager.closeObj]
  by_cases hj : j = idx
  · subst hj
    cases hl : m.objs.get? j with
    | none =>
      have : m.objs[j]? = none := by simpa using hl
      simp [this]
    | some l =>
      have h2 : m.objs[j]? = some l := by simpa using hl
      have hlt : j < m.objs.length := by
        rcases Nat.lt_or_ge j m.objs.length with h | h
        · exact h
        · rw [List.getElem?_eq_none h] at h2; cases h2
      simp [h2, List.getElem?_set_self, hlt]
  · cases hl : m.objs.get? idx with
    | none => simp [hj]
    | some l =>
      simp only [if_neg hj]
      rw [List.getElem?_set_ne (fun h => hj h.symm)]

/-- Closing the watcher object `idx0` and deleting the key `id0` keeps the manager
consistent when no other active watcher has the RoomId `id0`. -/
theorem closeDelete_consistent (m : manager) (id0 : String) (idx0 : Nat) (h : m.consistent)
    (hother : ∀ j l, m.objs[j]? = some l → l.state = running → l.Live.GetLiveId = id0 →
      j = idx0) :
    manager.consistent
      { (m.closeObj idx0).1 with listeners := gomap.delete (m.closeObj idx0).1.listeners id0 } := by
  obtain ⟨h1, h2⟩ := h
  have hls := (closeObj_listeners m idx0).1
  constructor
  · intro id idx hget
    simp only [hls] at hget
    by_cases hid : id = id0
    · subst hid; rw [gomap.get_delete_self] at hget; cases hget
    · rw [gomap.get_delete_other _ _ _ hid] at hget
      obtain ⟨l, hl, hl2⟩ := h1 id idx hget
      simp only [closeObj_objs, hl]
      by_cases hi : idx = idx0
      · exact ⟨l.Close.1, by simp [hi], by rw [Close_liveId]; exact hl2⟩
      · exact ⟨l, by simp [hi], hl2⟩
  · intro idx l hl hrun
    simp only [closeObj_objs] at hl
    simp only [hls]
    by_cases hi : idx = idx0
    · simp only [hi, if_true] at hl
      cases hl0 : m.objs[idx0]? with
      | none => rw [hl0] at hl; cases hl
      | some l0 =>
        rw [hl0] at hl
        simp at hl
        subst hl
        exact absurd hrun (Close_not_running l0)
    · simp only [if_neg hi] at hl
      have h3 := h2 idx l hl hrun
      have hne : l.Live.GetLiveId ≠ id0 := fun he => hi (hother idx l hl hrun he)
      rw [gomap.get_delete_other _ _ _ hne]
      exact h3

theorem RemoveListener_consistent (m : manager) (liveId : String) (h : m.consistent) :
    (m.RemoveListener liveId).1.consistent := by
  simp only [manager.RemoveListener]
  cases hg : gomap.get m.listeners liveId with
  | none => exact h
  | some idx0 =>
    apply closeDelete_consistent m liveId idx0 h
    intro j l hl hrun hid
    have := h.2 j l hl hrun
    rw [hid, hg] at this
    cases this
    rfl


theorem replaceListener_eq (m : manager) (oldLive newLive : Live) (env : Env) (idx0 : Nat)
    (hg : gomap.get m.listeners oldLive.GetLiveId = some idx0)
    (hsafe : newLive.GetLiveId = oldLive.GetLiveId ∨
      gomap.get m.listeners newLive.GetLiveId = none) :
    (m.replaceListener oldLive newLive env).1 =
      (manager.AddListener
        { (m.closeObj idx0).1 with
          listeners := gomap.delete (m.closeObj idx0).1.listeners oldLive.GetLiveId }
        newLive env).1 := by
  have hls := (closeObj_listeners m idx0).1
  have hpol := (closeObj_listeners m idx0).2
  have habs : gomap.get (gomap.delete m.listeners oldLive.GetLiveId) newLive.GetLiveId
      = none := by
    by_cases he : newLive.GetLiveId = oldLive.GetLiveId
    · rw [he]; exact gomap.get_delete_self _ _
    · rw [gomap.get_delete_other _ _ _ he]
      rcases hsafe with h | h
      · exact absurd h he
      · exact h
  simp only [manager.replaceListener, hg, manager.AddListener, hls, habs, hpol]
  by_cases he : oldLive.GetLiveId = newLive.GetLiveId
  · simp only [he, if_true]
    rw [gomap.set_delete_self]
  · simp only [he, if_false]

theorem replaceListener_consistent (m : manager) (oldLive newLive : Live) (env : Env)
    (h : m.consistent)
    (hsafe : newLive.GetLiveId = oldLive.GetLiveId ∨
      gomap.get m.listeners newLive.GetLiveId = none) :
    (m.replaceListener oldLive newLive env).1.consistent := by
  cases hg : gomap.get m.listeners oldLive.GetLiveId with
  | none => simpa [manager.replaceListener, hg] using h
  | some idx0 =>
    rw [replaceListener_eq m oldLive newLive env idx0 hg hsafe]
    apply AddListener_consistent
    apply closeDelete_consistent m _ idx0 h
    intro j l hl hrun hid
    have := h.2 j l hl hrun
    rw [hid, hg] at this
    cases this
    rfl

theorem closeAll_spec (es : List (String × Nat)) :
    ∀ m : manager,
      (closeAll es m).1.listeners = es.foldl (fun acc e => gomap.delete acc e.1) m.listeners ∧
      (∀ j l1, (closeAll es m).1.objs[j]? = some l1 →
        ∃ l, m.objs[j]? = some l ∧ (l1 = l ∨ l1.state ≠ running) ∧
          (j ∈ es.map Prod.snd → l1.state ≠ running)) := by
  induction es with
  | nil =>
    intro m
    exact ⟨rfl, fun j l1 h => ⟨l1, h, Or.inl rfl, by simp⟩⟩
  | cons e rest ih =>
    intro m
    obtain ⟨id, idx⟩ := e
    obtain ⟨ih1, ih2⟩ := ih
      { (m.closeObj idx).1 with listeners := gomap.delete (m.closeObj idx).1.listeners id }
    simp only [closeAll]
    refine ⟨?_, ?_⟩
    · rw [ih1]; simp [(closeObj_listeners m idx).1]
    · intro j l1 hl1
      obtain ⟨l, hl, hor, hmem⟩ := ih2 j l1 hl1
      simp only [closeObj_objs] at hl
      by_cases hj : j = idx
      · simp only [hj, if_true] at hl
        cases hl0 : m.objs[idx]? with
        | none => rw [hl0] at hl; cases hl
        | some l0 =>
          rw [hl0] at hl
          simp at hl
          have hnr : l1.state ≠ running := by
            rcases hor with h | h
            · rw [h, ← hl]; exact Close_not_running l0
            · exact h
          exact ⟨l0, by rw [hj]; exact hl0, Or.inr hnr, fun _ => hnr⟩
      · simp only [if_neg hj] at hl
        refine ⟨l, hl, hor, ?_⟩
        intro hm
        simp only [List.map_cons, List.mem_cons] at hm
        rcases hm with hm | hm
        · exact absurd hm hj
        · exact hmem hm

theorem Close_consistent (m : manager) (h : m.consistent) : m.Close.1.consistent := by
  obtain ⟨hl, ho⟩ := closeAll_spec m.listeners m
  constructor
  · intro id idx hget
    rw [manager.Close, hl, gomap.get_foldl_delete] at hget
    split at hget
    · cases hget
    · rename_i hn
      have := gomap.mem_of_get _ _ _ hget
      exact absurd (List.mem_map.mpr ⟨(id, idx), this, rfl⟩) hn
  · intro idx l1 hl1 hrun
    obtain ⟨l, hlm, hor, hmem⟩ := ho idx l1 hl1
    rcases hor with h1 | h1
    · subst h1
      have h3 := h.2 idx l1 hlm hrun
      have := gomap.mem_of_get _ _ _ h3
      exact absurd hrun (hmem (List.mem_map.mpr ⟨(_, idx), this, rfl⟩))
    · exact absurd hrun h1

theorem NewManager_consistent (policy : Bool) : (NewManager policy).consistent := by
  constructor
  · intro id idx h; simp [NewManager, gomap.get] at h
  · intro idx l h; simp [NewManager] at h

/-- Every call keeps the watcher manager consistent, provided a `replaceListener` call
does not move a watcher onto a RoomId that another watcher already holds. -/
theorem call_consistent (m : manager) (c : Call) (h : m.consistent) (hs : c.safe m) :
    (m.call c).consistent := by
  cases c with
  | AddListener live env => exact AddListener_consistent m live env h
  | RemoveListener liveId => exact RemoveListener_consistent m liveId h
  | replaceListener o n env => exact replaceListener_consistent m o n env h hs
  | Close => exact Close_consistent m h

theorem consistent_activeInMap (m : manager) (h : m.consistent) : m.activeInMap = true := by
  simp only [manager.activeInMap, manager.active, List.all_eq_true, List.mem_filter,
    List.mem_range, and_imp]
  intro i _ hrun
  cases hl : m.objs[i]? with
  | none => simp [hl] at hrun
  | some l =>
    simp only [List.get?_eq_getElem?, hl, Option.any_some, decide_eq_true_eq] at hrun
    simp [manager.roomIdOf, hl, h.2 i l hl hrun]

theorem Diff_wentLive (s that : status) (h1 : s.roomStatus = false) (h2 : that.roomStatus = true) :
    s.Diff that = statusToTrueEvt := by
  simp [status.Diff, h1, h2, statusToTrueEvt]

theorem Diff_renamed (s that : status) (h1 : s.roomStatus = true) (h2 : that.roomStatus = true)
    (h3 : s.roomName ≠ that.roomName) : s.Diff that = roomNameChangedEvt := by
  simp [status.Diff, h1, h2, h3, roomNameChangedEvt]

/-- C4: when `GetInfo` fails, `refresh` returns the watcher as it was, snapshot included,
and dispatches no event. -/
theorem refresh_getInfo_error (l : listener) (env : Env) (e : String)
    (h : l.Live.GetInfo env.resp = .error e) :
    l.refresh env = (l, { events := [], panicked := false }) := by
  simp [listener.refresh, h]

/-- Witness for C4: a platform source whose `GetInfo` times out. -/
theorem refresh_getInfo_error_witness :
    (Live.platform ⟨"X", "u", 0⟩).GetInfo (.error "timeout") = .error "timeout" ∧
    (watcherWith "A" true true).refresh ⟨.error "timeout", .error "timeout", 7⟩ =
      (watcherWith "A" true true, { events := [], panicked := false }) :=
  ⟨rfl, refresh_getInfo_error (watcherWith "A" true true)
    ⟨.error "timeout", .error "timeout", 7⟩ "timeout" rfl⟩

/-- C5: from an offline snapshot, a fetched info that is live makes `refresh` dispatch
exactly one event, `LiveStart` with the source as payload, and sets the source's
`LastStartTime` to the time of the refresh; the snapshot becomes the fetched one. -/
theorem refresh_went_live (l : listener) (env : Env) (info : Info)
    (hget : l.Live.GetInfo env.resp = .ok info)
    (hold : l.status.roomStatus = false) (hnew : info.Status = true) :
    (l.refresh env).2.events = [NewEvent LiveStart (.live (l.Live.SetLastStartTime env.now))] ∧
    (l.refresh env).1.Live = l.Live.SetLastStartTime env.now ∧
    (l.refresh env).1.Live.base.LastStartTime = env.now ∧
    (l.refresh env).1.status = { roomName := info.RoomName, roomStatus := true } ∧
    (info.Initializing = false → (l.refresh env).2.panicked = false) := by
  obtain ⟨lv, st, pol, state, sc, loops⟩ := l
  simp only at hget hold
  have hd := Diff_wentLive st { roomName := info.RoomName, roomStatus := true } hold rfl
  cases lv with
  | initializing b o =>
    simp only [Live.GetInfo, Except.ok.injEq] at hget
    rw [← hget] at hnew
    simp at hnew
  | platform b =>
    simp only [Live.GetInfo] at hget
    cases hi : info.Initializing <;>
      simp [listener.refresh, listener.refreshTail, Live.GetInfo, hget, hd, statusToTrueEvt,
        roomNameChangedEvt, hi,
        Live.SetLastStartTime, hnew, Live.base]

/-- Witness for C5: the spec's example, name "A", offline then live. -/
theorem refresh_went_live_witness :
    ((watcherWith "A" false false).refresh
      ⟨.ok ⟨"host", "A", true, false, ""⟩, .error "", 42⟩).2.events
      = [NewEvent LiveStart (.live (.platform ⟨"X", "u", 42⟩))] :=
  (refresh_went_live (watcherWith "A" false false)
    ⟨.ok ⟨"host", "A", true, false, ""⟩, .error "", 42⟩
    ⟨"host", "A", true, false, ""⟩ rfl rfl rfl).1

/-- C6: from a live snapshot, a fetched info that is live under a different room name makes
`refresh` dispatch exactly one event, `RoomNameChanged` with the source as payload, when
the rename policy is enabled, and no event at all when it is disabled. -/
theorem refresh_renamed (l : listener) (env : Env) (info : Info)
    (hget : l.Live.GetInfo env.resp = .ok info)
    (hold : l.status.roomStatus = true) (hnew : info.Status = true)
    (hname : l.status.roomName ≠ info.RoomName) :
    (l.OnRoomNameChanged = true →
      (l.refresh env).2.events = [NewEvent RoomNameChanged (.live l.Live)]) ∧
    (l.OnRoomNameChanged = false → (l.refresh env).2.events = []) := by
  obtain ⟨lv, st, pol, state, sc, loops⟩ := l
  simp only at hget hold hname
  have hd := Diff_renamed st { roomName := info.RoomName, roomStatus := true }
    hold rfl hname
  cases lv with
  | initializing b o =>
    simp only [Live.GetInfo, Except.ok.injEq] at hget
    rw [← hget] at hnew
    simp at hnew
  | platform b =>
    simp only [Live.GetInfo] at hget
    constructor
    · intro hp
      simp only at hp
      cases hi : info.Initializing <;>
        simp [listener.refresh, listener.refreshTail, Live.GetInfo, hget, hd, statusToTrueEvt,
          statusToFalseEvt,
          roomNameChangedEvt, hi, hp, hnew]
    · intro hp
      simp only at hp
      simp [listener.refresh, listener.refreshTail, Live.GetInfo, hget, hd, hp, hnew,
        statusToTrueEvt, statusToFalseEvt, roomNameChangedEvt]

/-- Witness for C6: the spec's example, live under "A" then live under "B". -/
theorem refresh_renamed_witness :
    ((watcherWith "A" true true).refresh
      ⟨.ok ⟨"host", "B", true, false, ""⟩, .error "", 42⟩).2.events
      = [NewEvent RoomNameChanged (.live (.platform ⟨"X", "u", 0⟩))] ∧
    ((watcherWith "A" true false).refresh
      ⟨.ok ⟨"host", "B", true, false, ""⟩, .error "", 42⟩).2.events = [] :=
  ⟨(refresh_renamed (watcherWith "A" true true)
      ⟨.ok ⟨"host", "B", true, false, ""⟩, .error "", 42⟩
      ⟨"host", "B", true, false, ""⟩ rfl rfl rfl (by decide)).1 rfl,
   (refresh_renamed (watcherWith "A" true false)
      ⟨.ok ⟨"host", "B", true, false, ""⟩, .error "", 42⟩
      ⟨"host", "B", true, false, ""⟩ rfl rfl rfl (by decide)).2 rfl⟩

/-- C2, failing input: two watchers are added under RoomIds "X" and "Y", then the watcher
of "Y" is replaced by one whose resolved RoomId is "X". The first watcher (object 0) is
still running but the map now holds object 2 under "X": two active watchers for "X". -/
theorem replaceListener_leaves_two_active :
    ((((NewManager false).AddListener (.platform ⟨"X", "u1", 0⟩) ⟨.error "", .error "", 0⟩).1
        |>.AddListener (.initializing ⟨"Y", "u2", 0⟩ ⟨"Y", "u2", 0⟩) ⟨.error "", .error "", 0⟩).1
        |>.replaceListener (.initializing ⟨"Y", "u2", 0⟩ ⟨"Y", "u2", 0⟩)
            (.platform ⟨"X", "u2", 0⟩) ⟨.error "", .error "", 0⟩).1.activeInMap = false ∧
    ((((NewManager false).AddListener (.platform ⟨"X", "u1", 0⟩) ⟨.error "", .error "", 0⟩).1
        |>.AddListener (.initializing ⟨"Y", "u2", 0⟩ ⟨"Y", "u2", 0⟩) ⟨.error "", .error "", 0⟩).1
        |>.replaceListener (.initializing ⟨"Y", "u2", 0⟩ ⟨"Y", "u2", 0⟩)
            (.platform ⟨"X", "u2", 0⟩) ⟨.error "", .error "", 0⟩).1.active = [0, 2] ∧
    ((((NewManager false).AddListener (.platform ⟨"X", "u1", 0⟩) ⟨.error "", .error "", 0⟩).1
        |>.AddListener (.initializing ⟨"Y", "u2", 0⟩ ⟨"Y", "u2", 0⟩) ⟨.error "", .error "", 0⟩).1
        |>.replaceListener (.initializing ⟨"Y", "u2", 0⟩ ⟨"Y", "u2", 0⟩)
            (.platform ⟨"X", "u2", 0⟩) ⟨.error "", .error "", 0⟩).1.roomIdOf 0 = some "X" ∧
    ((((NewManager false).AddListener (.platform ⟨"X", "u1", 0⟩) ⟨.error "", .error "", 0⟩).1
        |>.AddListener (.initializing ⟨"Y", "u2", 0⟩ ⟨"Y", "u2", 0⟩) ⟨.error "", .error "", 0⟩).1
        |>.replaceListener (.initializing ⟨"Y", "u2", 0⟩ ⟨"Y", "u2", 0⟩)
            (.platform ⟨"X", "u2", 0⟩) ⟨.error "", .error "", 0⟩).1.roomIdOf 2 = some "X" := by
  decide

end listeners

namespace parser

/-- When the `Stop` of a parser panics: a native parser whose stop channel was closed
without `closeOnce`, or a subprocess adapter with `closeOnce` unused that has no process,
or whose running process has no input pipe. -/
theorem Stop_panics_iff (q : Parser) :
    q.Stop.2 = true ↔
      (∃ p o, q = .native p o ∧ o.done = false ∧ p.stopClosed ≠ 0) ∨
      (∃ a, q = .adapter a ∧ a.closeOnce.done = false ∧
        (a.cmd = none ∨ (a.alive = true ∧ a.cmdStdIn = none))) := by
  cases q with
  | native p o =>
    cases hd : o.done with
    | true => simp [Parser.Stop, flv.Parser.Stop, gosync.Once.Do, flv.Parser.closeStopCh, hd]
    | false =>
      simp only [Parser.Stop, flv.Parser.Stop, gosync.Once.Do, flv.Parser.closeStopCh, hd]
      constructor
      · intro h
        exact Or.inl ⟨p, o, rfl, hd, by simpa using h⟩
      · rintro (⟨p1, o1, heq, _, h⟩ | ⟨a, heq, _⟩)
        · cases heq
          simpa using h
        · cases heq
  | adapter a =>
    obtain ⟨cmd, stdin, once, dbg, t⟩ := a
    cases hd : once.done <;> cases cmd <;> cases stdin <;>
      simp [Parser.Stop, ffmpeg.Parser.Stop, gosync.Once.Do, ffmpeg.Parser.quit,
        ffmpeg.Parser.alive, hd] <;>
      split <;> simp_all

end parser

namespace lifecycle

open events

theorem refreshTail_state (x : listeners.listener) (env : listeners.Env) (info : live.Info)
    (st : listeners.status) (c : Bool) (t : EventType) :
    (x.refreshTail env info st c t).1.state = x.state := by
  simp only [listeners.listener.refreshTail]
  split
  · split
    · split <;> rfl
    · rfl
  · rfl

theorem refresh_state (x : listeners.listener) (env : listeners.Env) :
    (x.refresh env).1.state = x.state := by
  simp only [listeners.listener.refresh]
  split
  · rfl
  · split_ifs <;> first | rfl | (rw [refreshTail_state])

theorem listener_Start_state (l : listeners.listener) (env : listeners.Env) :
    (l.Start env).1.state ≠ listeners.begin := by
  by_cases h : l.state = listeners.begin
  · simp only [listeners.listener.Start, h, if_true]
    have h2 := refresh_state { l with state := listeners.pending } env
    split <;> simp_all [listeners.pending, listeners.running, listeners.begin]
  · simp [listeners.listener.Start, h]

theorem recorder_Close_running (r : recorders.recorder) (h : r.state = recorders.running) :
    r.Close.1.state = recorders.stopped ∧ r.Close.1.stopClosed = r.stopClosed + 1 ∧
    r.Close.1.Live = r.Live ∧
    (r.Close.2.panicked = true ↔ ∃ q, r.parser = some q ∧ q.Stop.2 = true) ∧
    r.Close.2.events =
      (if r.Close.2.panicked then [] else [NewEvent recorders.RecorderStop (.live r.Live)]) := by
  cases hp : r.parser with
  | none => simp [recorders.recorder.Close, h, hp]
  | some q =>
    by_cases hs : q.Stop.2 = true
    · simp [recorders.recorder.Close, h, hp, hs]
    · simp [recorders.recorder.Close, h, hp, hs]

theorem pusher_Close_running (p : pushers.pusher) (h : p.state = pushers.running) :
    p.Close.1.state = pushers.stopped ∧ p.Close.1.stopClosed = p.stopClosed + 1 ∧
    p.Close.1.Live = p.Live ∧
    (p.Close.2.panicked = true ↔ ∃ q, p.parser = some q ∧ q.Stop.2 = true) ∧
    p.Close.2.events =
      (if p.Close.2.panicked then [] else [NewEvent pushers.PusherStop (.live p.Live)]) := by
  cases hp : p.parser with
  | none => simp [pushers.pusher.Close, h, hp]
  | some q =>
    by_cases hs : q.Stop.2 = true
    · simp [pushers.pusher.Close, h, hp, hs]
    · simp [pushers.pusher.Close, h, hp, hs]

/-- C7: on a watcher, a capture worker and a re-emit worker alike, `Start` does nothing
unless the state is Begin and `Close` does nothing unless it is Running: a second `Start`
starts no loop and publishes no event, a second `Close` publishes no event, does not close
the stop channel again and leaves the worker Stopped, and a Stopped worker stays Stopped.
The first `Close` of a Running capture or re-emit worker sets the state to Stopped and
closes the stop channel once; it then stops the parser the worker holds, and it publishes
the stop event exactly when that `Stop` returns: when the `Stop` panics, which is when the
worker holds a parser whose `Stop` panics, `Close` ends in the panic and publishes nothing,
and a `Close` after it is still without effect. -/
theorem start_close_idempotent (l : listeners.listener) (env env2 : listeners.Env)
    (r : recorders.recorder) (p : pushers.pusher) :
    ((l.state ≠ listeners.begin → l.Start env = (l, { events := [], panicked := false })) ∧
     (l.state ≠ listeners.running → l.Close = (l, { events := [], panicked := false })) ∧
     ((l.Start env).1.Start env2 = ((l.Start env).1, { events := [], panicked := false })) ∧
     (l.Close.1.Close = (l.Close.1, { events := [], panicked := false })) ∧
     (l.state = listeners.running →
        l.Close = ({ l with state := listeners.stopped, stopClosed := l.stopClosed + 1 },
          { events := [NewEvent listeners.ListenStop (.live l.Live)], panicked := false })) ∧
     (l.state = listeners.stopped →
        (l.Start env).1.state = listeners.stopped ∧ l.Close.1.state = listeners.stopped)) ∧
    ((r.state ≠ recorders.begin → r.Start = (r, [])) ∧
     (r.state ≠ recorders.running → r.Close = (r, { events := [], panicked := false })) ∧
     (r.Start.1.Start = (r.Start.1, [])) ∧
     (r.Close.1.Close = (r.Close.1, { events := [], panicked := false })) ∧
     (r.state = recorders.begin →
        r.Start = ({ r with state := recorders.running, loops := r.loops + 1 },
          [NewEvent recorders.RecorderStart (.live r.Live)])) ∧
     (r.state = recorders.running →
        r.Close.1.state = recorders.stopped ∧ r.Close.1.stopClosed = r.stopClosed + 1 ∧
        (r.Close.2.panicked = true ↔ ∃ q, r.parser = some q ∧ q.Stop.2 = true) ∧
        r.Close.2.events =
          (if r.Close.2.panicked then []
           else [NewEvent recorders.RecorderStop (.live r.Live)])) ∧
     (r.state = recorders.stopped →
        r.Start.1.state = recorders.stopped ∧ r.Close.1.state = recorders.stopped)) ∧
    ((p.state ≠ pushers.begin → p.Start = (p, [])) ∧
     (p.state ≠ pushers.running → p.Close = (p, { events := [], panicked := false })) ∧
     (p.Start.1.Start = (p.Start.1, [])) ∧
     (p.Close.1.Close = (p.Close.1, { events := [], panicked := false })) ∧
     (p.state = pushers.begin →
        p.Start = ({ p with state := pushers.running, loops := p.loops + 1 },
          [NewEvent pushers.PusherStart (.live p.Live)])) ∧
     (p.state = pushers.running →
        p.Close.1.state = pushers.stopped ∧ p.Close.1.stopClosed = p.stopClosed + 1 ∧
        (p.Close.2.panicked = true ↔ ∃ q, p.parser = some q ∧ q.Stop.2 = true) ∧
        p.Close.2.events =
          (if p.Close.2.panicked then []
           else [NewEvent pushers.PusherStop (.live p.Live)])) ∧
     (p.state = pushers.stopped →
        p.Start.1.state = pushers.stopped ∧ p.Close.1.state = pushers.stopped)) := by
  refine ⟨⟨?_, ?_, ?_, ?_, ?_, ?_⟩, ⟨?_, ?_, ?_, ?_, ?_, ?_, ?_⟩, ⟨?_, ?_, ?_, ?_, ?_, ?_, ?_⟩⟩
  · intro h; simp [listeners.listener.Start, h]
  · intro h; simp [listeners.listener.Close, h]
  · have h := listener_Start_state l env
    generalize (l.Start env).1 = l1 at h
    simp [listeners.listener.Start, h]
  · by_cases h : l.state = listeners.running
    · simp [listeners.listener.Close, h, listeners.stopped, listeners.running]
    · simp [listeners.listener.Close, h]
  · intro h; simp [listeners.listener.Close, h]
  · intro h
    simp [listeners.listener.Start, listeners.listener.Close, h, listeners.stopped,
      listeners.begin, listeners.running]
  · intro h; simp [recorders.recorder.Start, h]
  · intro h; simp [recorders.recorder.Close, h]
  · by_cases h : r.state = recorders.begin
    · simp [recorders.recorder.Start, h, recorders.pending, recorders.running, recorders.begin]
    · simp [recorders.recorder.Start, h]
  · have hno : ∀ x : recorders.recorder, x.state ≠ recorders.running →
        x.Close = (x, { events := [], panicked := false }) := by
      intro x hx; simp [recorders.recorder.Close, hx]
    by_cases h : r.state = recorders.running
    · apply hno
      rw [(recorder_Close_running r h).1]
      decide
    · rw [hno r h]
      exact hno r h
  · intro h; simp [recorders.recorder.Start, h, recorders.pending, recorders.running]
  · intro h
    obtain ⟨h1, h2, _, h4, h5⟩ := recorder_Close_running r h
    exact ⟨h1, h2, h4, h5⟩
  · intro h
    simp [recorders.recorder.Start, recorders.recorder.Close, h, recorders.stopped,
      recorders.begin, recorders.running]
  · intro h; simp [pushers.pusher.Start, h]
  · intro h; simp [pushers.pusher.Close, h]
  · by_cases h : p.state = pushers.begin
    · simp [pushers.pusher.Start, h, pushers.pending, pushers.running, pushers.begin]
    · simp [pushers.pusher.Start, h]
  · have hno : ∀ x : pushers.pusher, x.state ≠ pushers.running →
        x.Close = (x, { events := [], panicked := false }) := by
      intro x hx; simp [pushers.pusher.Close, hx]
    by_cases h : p.state = pushers.running
    · apply hno
      rw [(pusher_Close_running p h).1]
      decide
    · rw [hno p h]
      exact hno p h
  · intro h; simp [pushers.pusher.Start, h, pushers.pending, pushers.running]
  · intro h
    obtain ⟨h1, h2, _, h4, h5⟩ := pusher_Close_running p h
    exact ⟨h1, h2, h4, h5⟩
  · intro h
    simp [pushers.pusher.Start, pushers.pusher.Close, h, pushers.stopped,
      pushers.begin, pushers.running]

/-- Witness for C7: a running watcher started again; a capture worker whose `Close` panics
in the `Stop` of a subprocess adapter without a process, which is Stopped with nothing
published; a closed capture worker closed again; and a running re-emit worker whose process
runs, closed once. -/
theorem start_close_idempotent_witness :
    (startedWatcher.state ≠ listeners.begin ∧
      startedWatcher.Start ⟨.error "", .error "", 1⟩
        = (startedWatcher, { events := [], panicked := false })) ∧
    (processlessRecorder.state = recorders.running ∧
      processlessRecorder.Close.2 = { events := [], panicked := true } ∧
      processlessRecorder.Close.1.state = recorders.stopped ∧
      processlessRecorder.Close.1.stopClosed = processlessRecorder.stopClosed + 1 ∧
      processlessRecorder.Close.1.Close
        = (processlessRecorder.Close.1, { events := [], panicked := false })) ∧
    (streamingPusher.state = pushers.running ∧
      streamingPusher.Close.2
        = { events := [NewEvent pushers.PusherStop (.live (.platform ⟨"X", "u", 0⟩))],
            panicked := false } ∧
      streamingPusher.Close.1.Close
        = (streamingPusher.Close.1, { events := [], panicked := false })) ∧
    (startedPusher.state ≠ pushers.begin ∧ startedPusher.Start = (startedPusher, [])) := by
  have h := start_close_idempotent startedWatcher ⟨.error "", .error "", 1⟩
    ⟨.error "", .error "", 2⟩ processlessRecorder streamingPusher
  have hs := start_close_idempotent startedWatcher ⟨.error "", .error "", 1⟩
    ⟨.error "", .error "", 2⟩ processlessRecorder startedPusher
  obtain ⟨r1, r2, _, _⟩ := h.2.1.2.2.2.2.2.1 (by decide)
  obtain ⟨_, _, _, p4⟩ := h.2.2.2.2.2.2.2.1 (by decide)
  refine ⟨⟨by decide, h.1.1 (by decide)⟩, ⟨by decide, by decide, r1, r2, h.2.1.2.2.2.1⟩,
    ⟨by decide, by decide, h.2.2.2.2.2.1⟩, ⟨by decide, hs.2.2.1 (by decide)⟩⟩

end lifecycle

namespace recorders

open events live

/-- C8 as stated fails: a worker for "X" started at time 0 is registered, one minute has
elapsed with `MaxDuration` one minute, but recording has been switched off for the room;
`cronRestart` removes the worker and `AddRecorder` refuses to add a new one, so the worker
is not restarted although the elapsed time has reached `MaxDuration`. -/
theorem cronRestart_removes_without_readding :
    splitExample.HasRecorder "X" = true ∧
    splitExample.MaxDuration ≤ 60000000000 - 0 ∧
    restarted splitExample
      (splitExample.cronRestart (.platform ⟨"X", "u1", 0⟩)
        ⟨"u1", true, true, false, "", false⟩ watchingX 60000000000).1 "X" = false ∧
    (splitExample.cronRestart (.platform ⟨"X", "u1", 0⟩)
        ⟨"u1", true, true, false, "", false⟩ watchingX 60000000000).1.HasRecorder "X" = false := by
  decide

/-- C8, amended: for a registered capture worker, `cronRestart` leaves the manager as it
is and schedules the next check 15 seconds later when the time elapsed since `StartTime`
is below `MaxDuration`; otherwise it closes the worker and schedules nothing. When that
`Close` panics in the `Stop` of the parser the worker holds, the call ends there: the
closed worker stays registered under its RoomId, the manager is otherwise as it was and
nothing is added. When `Close` returns, the worker is removed, and `AddRecorder` registers
and starts a fresh worker exactly when its preconditions (listen enabled, watcher active,
record enabled) hold at that time. -/
theorem cronRestart_spec (m : manager) (live : Live) (room : configs.LiveRoom)
    (lm : listeners.manager) (now : Int) (idx : Nat) (rec : recorder)
    (hmap : gomap.get m.recorders live.GetLiveId = some idx)
    (hobj : m.objs.get? idx = some rec) :
    (now - rec.StartTime < m.MaxDuration →
      m.cronRestart live room lm now =
        (m, room, { events := [], crons := 0, timers := [now + quarterMinute] })) ∧
    (m.MaxDuration ≤ now - rec.StartTime →
      (m.cronRestart live room lm now).1.objs.get? idx = some rec.Close.1 ∧
      (m.cronRestart live room lm now).2.2.timers = [] ∧
      (m.cronRestart live room lm now).2.2.panicked = rec.Close.2.panicked ∧
      (rec.Close.2.panicked = true →
        (m.cronRestart live room lm now).1 = { m with objs := m.objs.set idx rec.Close.1 } ∧
        gomap.get (m.cronRestart live room lm now).1.recorders live.GetLiveId = some idx ∧
        (m.cronRestart live room lm now).2.2.events = rec.Close.2.events ∧
        (m.cronRestart live room lm now).2.2.crons = 0) ∧
      (rec.Close.2.panicked = false →
        gomap.get (m.cronRestart live room lm now).1.recorders live.GetLiveId ≠ some idx ∧
        (room.Listen = true → lm.HasListener live.GetLiveId = true → room.Record = true →
          gomap.get (m.cronRestart live room lm now).1.recorders live.GetLiveId
            = some m.objs.length ∧
          (m.cronRestart live room lm now).1.objs.get? m.objs.length
            = some (NewRecorder live now).Start.1 ∧
          (m.cronRestart live room lm now).2.2.crons
            = (if m.MaxDuration ≠ 0 then 1 else 0)) ∧
        (¬(room.Listen = true ∧ lm.HasListener live.GetLiveId = true ∧ room.Record = true) →
          (m.cronRestart live room lm now).1.HasRecorder live.GetLiveId = false))) := by
  have hlt : idx < m.objs.length := by
    rcases Nat.lt_or_ge idx m.objs.length with h | h
    · exact h
    · rw [List.get?_eq_none.mpr h] at hobj; cases hobj
  have hobj2 : m.objs[idx]? = some rec := by simpa using hobj
  have hget : m.GetRecorder live.GetLiveId = .ok rec := by
    simp [manager.GetRecorder, hmap, hobj2]
  constructor
  · intro h
    simp [manager.cronRestart, hget, h]
  · intro h
    have hnot : ¬ (now - rec.StartTime < m.MaxDuration) := not_lt.mpr h
    have hcr : m.cronRestart live room lm now =
        ((m.RestartRecorder live room lm now).1, (m.RestartRecorder live room lm now).2.1,
          (m.RestartRecorder live room lm now).2.2.1) := by
      simp [manager.cronRestart, hget, hnot]
    rw [hcr]
    cases hpn : rec.Close.2.panicked with
    | true =>
      have hrem : m.RemoveRecorder live.GetLiveId =
          ({ m with objs := m.objs.set idx rec.Close.1 },
            { events := rec.Close.2.events, crons := 0, timers := [], panicked := true },
            none) := by
        simp [manager.RemoveRecorder, hmap, hobj2, hpn]
      simp [manager.RestartRecorder, hrem, hmap, hlt]
    | false =>
      have hrem : m.RemoveRecorder live.GetLiveId =
          ({ m with objs := m.objs.set idx rec.Close.1,
                    recorders := gomap.delete m.recorders live.GetLiveId },
            { events := rec.Close.2.events, crons := 0, timers := [] }, none) := by
        simp [manager.RemoveRecorder, hmap, hobj2, hpn]
      simp only [manager.RestartRecorder, hrem]
      by_cases hL : room.Listen = true
      · by_cases hW : lm.HasListener live.GetLiveId = true
        · by_cases hR : room.Record = true
          · simp [manager.AddRecorder, hL, hW, hR, gomap.get_delete_self, gomap.get_set_self,
              Effects.none, List.getElem?_append_right, List.getElem?_append_left, hlt]
            omega
          · simp [manager.AddRecorder, hL, hW, hR, gomap.get_delete_self, manager.HasRecorder,
              Effects.none, hlt]
        · simp [manager.AddRecorder, hL, hW, gomap.get_delete_self, manager.HasRecorder,
            Effects.none, hlt]
      · simp [manager.AddRecorder, hL, gomap.get_delete_self, manager.HasRecorder,
          Effects.none, hlt]

/-- Witness for C8: with `MaxDuration` one minute, a worker started at time 0 is left alone
at 59 seconds and the next check is scheduled 15 seconds later; at 60 seconds a worker that
holds a subprocess adapter without a process is closed, its `Close` panics, and it stays
registered with nothing added. -/
theorem cronRestart_spec_witness :
    (gomap.get splitExample.recorders "X" = some 0 ∧
      splitExample.cronRestart (.platform ⟨"X", "u1", 0⟩)
          ⟨"u1", true, true, true, "", false⟩ watchingX 59000000000 =
        (splitExample, ⟨"u1", true, true, true, "", false⟩,
          { events := [], crons := 0, timers := [74000000000] })) ∧
    (gomap.get processlessExample.recorders "X" = some 0 ∧
      processlessWorker.Close.2.panicked = true ∧
      (processlessExample.cronRestart (.platform ⟨"X", "u1", 0⟩)
          ⟨"u1", true, true, true, "", false⟩ watchingX 60000000000).1
        = { processlessExample with objs := [processlessWorker.Close.1] } ∧
      (processlessExample.cronRestart (.platform ⟨"X", "u1", 0⟩)
          ⟨"u1", true, true, true, "", false⟩ watchingX 60000000000).2.2.events = []) :=
  ⟨⟨by decide,
    (cronRestart_spec splitExample (.platform ⟨"X", "u1", 0⟩)
      ⟨"u1", true, true, true, "", false⟩ watchingX 59000000000 0
      { NewRecorder (.platform ⟨"X", "u1", 0⟩) 0 with state := running, loops := 1 }
      (by decide) (by decide)).1 (by decide)⟩,
   ⟨by decide, by decide,
    ((cronRestart_spec processlessExample (.platform ⟨"X", "u1", 0⟩)
      ⟨"u1", true, true, true, "", false⟩ watchingX 60000000000 0 processlessWorker
      (by decide) (by decide)).2 (by decide)).2.2.2.1 (by decide) |>.1,
    ((cronRestart_spec processlessExample (.platform ⟨"X", "u1", 0⟩)
      ⟨"u1", true, true, true, "", false⟩ watchingX 60000000000 0 processlessWorker
      (by decide) (by decide)).2 (by decide)).2.2.2.1 (by decide) |>.2.2.1⟩⟩

end recorders

namespace flv

theorem parseTag_unknown (p : Parser) (hd r : List Byte) (hhd : hd.length = 15)
    (h8 : tagTypeOf hd ≠ audioTag) (h9 : tagTypeOf hd ≠ videoTag)
    (h18 : tagTypeOf hd ≠ scriptTag) (hrest : p.i.rest = hd ++ r) :
    p.parseTag.2 = some .ErrUnknownTag ∧ p.parseTag.1.o = p.o := by
  obtain ⟨md, ⟨rest, buf⟩, o, a, tc, sc⟩ := p
  simp only at hrest
  subst hrest
  have hread : 15 ≤ (hd ++ r).length := by simp [hhd]
  simp only [tagTypeOf] at h8 h9 h18
  simp only [Parser.parseTag, BufferedReader.ReadN, hread, if_true, List.take_left' hhd,
    List.drop_left' hhd, h8, h9, h18, if_false, and_self]

/-- C11: a 15-byte tag header whose type byte is not 8, 9 or 18 makes `parseTag` return
`ErrUnknownTag` and leave the destination untouched, in every parser state and for every
destination; in a session that forwarded a header and well-formed tags before it, the
destination then holds exactly that header and those tags. -/
theorem doParse_unknown_tag (flags : Byte) (tags : List (List Byte)) (hd r : List Byte)
    (stop : Nat → Bool) (fuel : Nat)
    (hwf : ∀ t ∈ tags, wellFormedTag t = true)
    (hseq : (tags.filter isAVCSeqHeaderTag).length ≤ 1)
    (hhd : hd.length = 15)
    (h8 : tagTypeOf hd ≠ audioTag) (h9 : tagTypeOf hd ≠ videoTag)
    (h18 : tagTypeOf hd ≠ scriptTag)
    (hstop : ∀ j, j ≤ tags.length → stop j = false)
    (hfuel : tags.length < fuel) :
    (∀ p : Parser, p.i.rest = hd ++ r →
      p.parseTag.2 = some .ErrUnknownTag ∧ p.parseTag.1.o = p.o) ∧
    ∃ p1,
      (newParser (flvHeader flags ++ tags.flatten ++ (hd ++ r)) (acceptAll [])).doParse stop fuel
        = some (p1, some .ErrUnknownTag) ∧
      p1.o.out = flvHeader flags ++ tags.flatten := by
  refine ⟨fun p hp => parseTag_unknown p hd r hhd h8 h9 h18 hp, ?_⟩
  have hh := parseHeader_valid
    (newParser (flvHeader flags ++ tags.flatten ++ (hd ++ r)) (acceptAll []))
    flags (tags.flatten ++ (hd ++ r)) rfl (by simp [newParser, List.append_assoc]) rfl
  obtain ⟨q0, hq0⟩ : ∃ q : Parser,
      q = { newParser (flvHeader flags ++ tags.flatten ++ (hd ++ r)) (acceptAll []) with
        Metadata := { HasVideo := decide (flags.val &&& (1 <<< 2) ≠ 0)
                      HasAudio := decide (flags.val &&& 1 ≠ 0) }
        i := { rest := tags.flatten ++ (hd ++ r), buf := [] }
        o := { out := (newParser (flvHeader flags ++ tags.flatten ++ (hd ++ r))
                        (acceptAll [])).o.out ++ flvHeader flags, script := [] } } := ⟨_, rfl⟩
  rw [← hq0] at hh
  obtain ⟨f, rfl⟩ : ∃ f, fuel = (f + 1) + tags.length := ⟨fuel - tags.length - 1, by omega⟩
  obtain ⟨q, h1, h2, h3, _, _⟩ := parseTags_wellFormed_then stop (hd ++ r) tags (f + 1) 0 q0 hwf
    (by rw [hq0]) (by rw [hq0]) (by rw [hq0])
    (by rw [hq0]; simpa [newParser] using hseq)
    (fun j _ hj => hstop j (by omega))
  obtain ⟨e1, e2⟩ := parseTag_unknown q hd r hhd h8 h9 h18 (by rw [h2])
  have hs : stop (0 + tags.length) = false := hstop _ (by omega)
  refine ⟨q.parseTag.1, ?_, ?_⟩
  · simp only [Parser.doParse, hh, h1, parseTags, hs]
    rcases hpt : q.parseTag with ⟨p2, _ | e⟩
    · rw [hpt] at e1; simp at e1
    · rw [hpt] at e1; simp at e1; simp [e1]
  · rw [e2, h3, hq0]; simp [newParser, acceptAll]

/-- Witness for C11: after the header and an audio tag, a tag header of type 10. -/
theorem doParse_unknown_tag_witness :
    tagTypeOf exampleUnknownHeader = 10 ∧
    ∃ p1,
      (newParser (flvHeader 5 ++ [exampleAudioTag].flatten ++ (exampleUnknownHeader ++ [1, 2]))
          (acceptAll [])).doParse (fun _ => false) 2 = some (p1, some .ErrUnknownTag) ∧
      p1.o.out = flvHeader 5 ++ [exampleAudioTag].flatten :=
  ⟨by decide,
   (doParse_unknown_tag 5 [exampleAudioTag] exampleUnknownHeader [1, 2] (fun _ => false) 2
     (by decide) (by decide) (by decide) (by decide) (by decide) (by decide) (fun _ _ => rfl)
     (by decide)).2⟩

end flv

namespace listeners

open events live

/-- C12: `status.Diff` yields the went-live bit exactly when the old snapshot is offline
and the new one live, the went-offline bit exactly when the old one is live and the new
one offline, the renamed bit exactly when both are live under different names, and 0 in
every other case; the result is always one of 0, 1, 2, 4, the cases of the `switch` in
`refresh`. -/
theorem Diff_spec (old new : status) :
    (old.Diff new = statusToTrueEvt ↔ (old.roomStatus = false ∧ new.roomStatus = true)) ∧
    (old.Diff new = statusToFalseEvt ↔ (old.roomStatus = true ∧ new.roomStatus = false)) ∧
    (old.Diff new = roomNameChangedEvt ↔
      (old.roomStatus = true ∧ new.roomStatus = true ∧ old.roomName ≠ new.roomName)) ∧
    (old.Diff new = 0 ↔
      (old.roomStatus = new.roomStatus ∧
        ¬(old.roomStatus = true ∧ old.roomName ≠ new.roomName))) ∧
    (old.Diff new = 0 ∨ old.Diff new = statusToTrueEvt ∨ old.Diff new = statusToFalseEvt ∨
      old.Diff new = roomNameChangedEvt) := by
  obtain ⟨n1, s1⟩ := old
  obtain ⟨n2, s2⟩ := new
  by_cases hn : n1 = n2 <;> cases s1 <;> cases s2 <;>
    simp [status.Diff, statusToTrueEvt, statusToFalseEvt, roomNameChangedEvt, hn]

theorem refreshTail_status (x : listener) (env : Env) (info : Info) (st : status) (c : Bool)
    (t : EventType) : (x.refreshTail env info st c t).1.status = st := by
  simp only [listener.refreshTail]
  split
  · split
    · split <;> rfl
    · rfl
  · rfl

/-- C13: whenever `GetInfo` succeeds, the snapshot stored after `refresh` is the fetched
room name and live status, whatever event was or was not dispatched. -/
theorem refresh_stores_snapshot (l : listener) (env : Env) (info : Info)
    (hget : l.Live.GetInfo env.resp = .ok info) :
    (l.refresh env).1.status = { roomName := info.RoomName, roomStatus := info.Status } := by
  simp only [listener.refresh, hget]
  split_ifs <;> first | rfl | (rw [refreshTail_status])

/-- Witness for C13: the name changes while the room is offline (no event), and a rename
while live with the rename policy disabled (event swallowed). -/
theorem refresh_stores_snapshot_witness :
    ((watcherWith "A" false false).refresh
        ⟨.ok ⟨"host", "B", false, false, ""⟩, .error "", 9⟩).1.status
      = { roomName := "B", roomStatus := false } ∧
    ((watcherWith "A" false false).refresh
        ⟨.ok ⟨"host", "B", false, false, ""⟩, .error "", 9⟩).2.events = [] ∧
    ((watcherWith "A" true false).refresh
        ⟨.ok ⟨"host", "B", true, false, ""⟩, .error "", 9⟩).1.status
      = { roomName := "B", roomStatus := true } ∧
    ((watcherWith "A" true false).refresh
        ⟨.ok ⟨"host", "B", true, false, ""⟩, .error "", 9⟩).2.events = [] :=
  ⟨refresh_stores_snapshot (watcherWith "A" false false)
      ⟨.ok ⟨"host", "B", false, false, ""⟩, .error "", 9⟩ ⟨"host", "B", false, false, ""⟩ rfl,
   by decide,
   refresh_stores_snapshot (watcherWith "A" true false)
      ⟨.ok ⟨"host", "B", true, false, ""⟩, .error "", 9⟩ ⟨"host", "B", true, false, ""⟩ rfl,
   by decide⟩

end listeners

namespace gomap

theorem isSome_get_set {κ α : Type} [DecidableEq κ] (m : List (κ × α)) (k x : κ) (v : α) :
    (get (set m k v) x).isSome = true ↔ (x = k ∨ (get m x).isSome = true) := by
  by_cases h : x = k
  · subst h; simp [get_set_self]
  · simp [get_set_other _ _ _ _ h, h]

theorem isSome_get_delete {κ α : Type} [DecidableEq κ] (m : List (κ × α)) (k x : κ) :
    (get (delete m k) x).isSome = true ↔ (x ≠ k ∧ (get m x).isSome = true) := by
  by_cases h : x = k
  · subst h; simp [get_delete_self]
  · simp [get_delete_other _ _ _ h, h]

end gomap

namespace listeners

open events live

theorem call_keys (m : manager) (ids : List String) (c : Call)
    (h : ∀ x, (gomap.get m.listeners x).isSome = true ↔ x ∈ ids) :
    ∀ x, (gomap.get (m.call c).listeners x).isSome = true ↔ x ∈ trackStep ids c := by
  intro x
  cases c with
  | AddListener live env =>
    simp only [manager.call, manager.AddListener, trackStep]
    cases hg : gomap.get m.listeners live.GetLiveId with
    | some idx =>
      have hin : live.GetLiveId ∈ ids := (h _).mp (by simp [hg])
      simp [hin, h]
    | none =>
      have hin : live.GetLiveId ∉ ids := fun hc => by
        have := (h _).mpr hc
        simp [hg] at this
      simp only [hin, if_false, gomap.isSome_get_set, h, List.mem_append, List.mem_singleton]
      tauto
  | RemoveListener liveId =>
    simp only [manager.call, manager.RemoveListener, trackStep]
    cases hg : gomap.get m.listeners liveId with
    | none =>
      have hin : liveId ∉ ids := fun hc => by
        have := (h _).mpr hc
        simp [hg] at this
      simp only [h, List.mem_filter, decide_eq_true_eq]
      constructor
      · intro hx; exact ⟨hx, fun he => hin (he ▸ hx)⟩
      · intro hx; exact hx.1
    | some idx =>
      simp only [(closeObj_listeners m idx).1, gomap.isSome_get_delete, h, List.mem_filter,
        decide_eq_true_eq]
      tauto
  | replaceListener o n env =>
    simp only [manager.call, manager.replaceListener, trackStep]
    cases hg : gomap.get m.listeners o.GetLiveId with
    | none =>
      have hin : o.GetLiveId ∉ ids := fun hc => by
        have := (h _).mpr hc
        simp [hg] at this
      simp [hin, h]
    | some idx =>
      have hin : o.GetLiveId ∈ ids := (h _).mp (by simp [hg])
      simp only [hin, if_true, (closeObj_listeners m idx).1, List.mem_append, List.mem_filter,
        List.mem_singleton, Bool.and_eq_true, decide_eq_true_eq]
      by_cases he : o.GetLiveId = n.GetLiveId
      · simp only [he, if_true, gomap.isSome_get_set, h]
        rw [he] at hin
        constructor
        · rintro (hx | hx)
          · exact Or.inr hx
          · by_cases hxn : x = n.GetLiveId
            · exact Or.inr hxn
            · exact Or.inl ⟨hx, hxn, hxn⟩
        · rintro (hx | hx)
          · exact Or.inr hx.1
          · exact Or.inl hx
      · simp only [he, if_false, gomap.isSome_get_set, gomap.isSome_get_delete, h]
        constructor
        · rintro (hx | hx)
          · exact Or.inr hx
          · by_cases hxn : x = n.GetLiveId
            · exact Or.inr hxn
            · exact Or.inl ⟨hx.2, hx.1, hxn⟩
        · rintro (hx | hx)
          · exact Or.inr ⟨hx.2.1, hx.1⟩
          · exact Or.inl hx
  | Close =>
    simp only [manager.call, manager.Close, trackStep, List.not_mem_nil, iff_false]
    rw [(closeAll_spec m.listeners m).1, gomap.get_foldl_delete]
    split
    · simp
    · rename_i hn
      cases hg : gomap.get m.listeners x with
      | none => simp
      | some idx =>
        have := gomap.mem_of_get _ _ _ hg
        exact absurd (List.mem_map.mpr ⟨(x, idx), this, rfl⟩) hn

theorem foldl_keys (calls : List Call) :
    ∀ (m : manager) (ids : List String),
      (∀ x, (gomap.get m.listeners x).isSome = true ↔ x ∈ ids) →
      ∀ x, (gomap.get (calls.foldl manager.call m).listeners x).isSome = true ↔
        x ∈ calls.foldl trackStep ids := by
  induction calls with
  | nil => intro m ids h; exact h
  | cons c rest ih => intro m ids h; exact ih _ _ (call_keys m ids c h)

/-- C14: `AddListener` returns `ErrListenerExist` exactly when the RoomId is in the map,
`RemoveListener` and `GetListener` return `ErrListenerNotExist` exactly when it is not;
a call that returns one of these errors leaves the manager as it was, with no watcher
started or closed and no event; and after any sequence of calls `HasListener` holds
exactly for the RoomIds added and not since removed. -/
theorem manager_lookup_errors (m : manager) (live : Live) (env : Env) (liveId : String)
    (policy : Bool) (calls : List Call) :
    ((m.AddListener live env).2.2 = some .ErrListenerExist ↔
      m.HasListener live.GetLiveId = true) ∧
    (m.HasListener live.GetLiveId = true →
      m.AddListener live env = (m, [], some .ErrListenerExist)) ∧
    (m.HasListener live.GetLiveId = false → (m.AddListener live env).2.2 = none) ∧
    ((m.RemoveListener liveId).2.2 = some .ErrListenerNotExist ↔
      m.HasListener liveId = false) ∧
    (m.HasListener liveId = false →
      m.RemoveListener liveId = (m, [], some .ErrListenerNotExist)) ∧
    (m.HasListener liveId = true → (m.RemoveListener liveId).2.2 = none) ∧
    (m.GetListener liveId = .error .ErrListenerNotExist ↔ m.HasListener liveId = false) ∧
    (∀ id, (runCalls policy calls).HasListener id = decide (id ∈ tracked calls)) := by
  refine ⟨?_, ?_, ?_, ?_, ?_, ?_, ?_, ?_⟩
  · cases hg : gomap.get m.listeners live.GetLiveId <;>
      simp [manager.AddListener, manager.HasListener, hg]
  · intro h
    cases hg : gomap.get m.listeners live.GetLiveId <;>
      simp_all [manager.AddListener, manager.HasListener]
  · intro h
    cases hg : gomap.get m.listeners live.GetLiveId <;>
      simp_all [manager.AddListener, manager.HasListener]
  · cases hg : gomap.get m.listeners liveId <;>
      simp [manager.RemoveListener, manager.HasListener, hg]
  · intro h
    cases hg : gomap.get m.listeners liveId <;>
      simp_all [manager.RemoveListener, manager.HasListener]
  · intro h
    cases hg : gomap.get m.listeners liveId <;>
      simp_all [manager.RemoveListener, manager.HasListener]
  · cases hg : gomap.get m.listeners liveId <;>
      simp [manager.GetListener, manager.HasListener, hg]
  · intro id
    have h := foldl_keys calls (NewManager policy) []
      (by intro x; simp [NewManager, gomap.get]) id
    simp only [runCalls, tracked, manager.HasListener]
    by_cases hin : id ∈ List.foldl trackStep [] calls
    · simp [hin, h.mpr hin]
    · have : ¬ (gomap.get (List.foldl manager.call (NewManager policy) calls).listeners id).isSome
          = true := fun hc => hin (h.mp hc)
      simp [hin, Bool.eq_false_iff.mpr this]

/-- Witness for C14: "X" and "Y" are added, "X" is removed; adding "Y" again and removing
"X" again are rejected and change nothing. -/
theorem manager_lookup_errors_witness :
    (runCalls false
        [.AddListener (.platform ⟨"X", "u1", 0⟩) ⟨.error "", .error "", 0⟩,
         .AddListener (.platform ⟨"Y", "u2", 0⟩) ⟨.error "", .error "", 0⟩,
         .RemoveListener "X"]).HasListener "Y" = true ∧
    (runCalls false
        [.AddListener (.platform ⟨"X", "u1", 0⟩) ⟨.error "", .error "", 0⟩,
         .AddListener (.platform ⟨"Y", "u2", 0⟩) ⟨.error "", .error "", 0⟩,
         .RemoveListener "X"]).AddListener (.platform ⟨"Y", "u2", 0⟩) ⟨.error "", .error "", 0⟩
      = (runCalls false
          [.AddListener (.platform ⟨"X", "u1", 0⟩) ⟨.error "", .error "", 0⟩,
           .AddListener (.platform ⟨"Y", "u2", 0⟩) ⟨.error "", .error "", 0⟩,
           .RemoveListener "X"], [], some .ErrListenerExist) ∧
    (runCalls false
        [.AddListener (.platform ⟨"X", "u1", 0⟩) ⟨.error "", .error "", 0⟩,
         .AddListener (.platform ⟨"Y", "u2", 0⟩) ⟨.error "", .error "", 0⟩,
         .RemoveListener "X"]).HasListener "X" = false ∧
    (runCalls false
        [.AddListener (.platform ⟨"X", "u1", 0⟩) ⟨.error "", .error "", 0⟩,
         .AddListener (.platform ⟨"Y", "u2", 0⟩) ⟨.error "", .error "", 0⟩,
         .RemoveListener "X"]).RemoveListener "X"
      = (runCalls false
          [.AddListener (.platform ⟨"X", "u1", 0⟩) ⟨.error "", .error "", 0⟩,
           .AddListener (.platform ⟨"Y", "u2", 0⟩) ⟨.error "", .error "", 0⟩,
           .RemoveListener "X"], [], some .ErrListenerNotExist) :=
  ⟨by decide,
   (manager_lookup_errors _ (.platform ⟨"Y", "u2", 0⟩) ⟨.error "", .error "", 0⟩ "X" false []).2.1
     (by decide),
   by decide,
   (manager_lookup_errors _ (.platform ⟨"Y", "u2", 0⟩) ⟨.error "", .error "", 0⟩ "X" false
     []).2.2.2.2.1 (by decide)⟩

end listeners

namespace recorders

open events live

/-- C15: `AddRecorder` checks, in this order, that listening is enabled for the room, that
the watcher manager holds a watcher for the RoomId, that recording is enabled, and that no
capture worker is registered for the RoomId; the first check that fails decides the error,
and a rejected call leaves the manager as it was and dispatches nothing. When every check
passes a new worker is registered and started. -/
theorem AddRecorder_checks (m : manager) (live : Live) (room : configs.LiveRoom)
    (lm : listeners.manager) (now : Int) :
    (room.Listen = false →
      (m.AddRecorder live room lm now).1 = m ∧
      (m.AddRecorder live room lm now).2.2 = (Effects.none, some .ErrListenNotEnabled)) ∧
    (room.Listen = true → lm.HasListener live.GetLiveId = false →
      (m.AddRecorder live room lm now).1 = m ∧
      (m.AddRecorder live room lm now).2.2 = (Effects.none, some .ErrNoListening)) ∧
    (room.Listen = true → lm.HasListener live.GetLiveId = true → room.Record = false →
      (m.AddRecorder live room lm now).1 = m ∧
      (m.AddRecorder live room lm now).2.2 = (Effects.none, some .ErrRecordNotEnabled)) ∧
    (room.Listen = true → lm.HasListener live.GetLiveId = true → room.Record = true →
      m.HasRecorder live.GetLiveId = true →
      (m.AddRecorder live room lm now).1 = m ∧
      (m.AddRecorder live room lm now).2.2 = (Effects.none, some .ErrRecorderExist)) ∧
    (room.Listen = true → lm.HasListener live.GetLiveId = true → room.Record = true →
      m.HasRecorder live.GetLiveId = false →
      (m.AddRecorder live room lm now).2.2.2 = none ∧
      (m.AddRecorder live room lm now).1.recorders
        = gomap.set m.recorders live.GetLiveId m.objs.length ∧
      (m.AddRecorder live room lm now).1.objs = m.objs ++ [(NewRecorder live now).Start.1]) := by
  refine ⟨?_, ?_, ?_, ?_, ?_⟩
  · intro h1; simp [manager.AddRecorder, h1]
  · intro h1 h2; simp [manager.AddRecorder, h1, h2]
  · intro h1 h2 h3; simp [manager.AddRecorder, h1, h2, h3]
  · intro h1 h2 h3 h4
    cases hg : gomap.get m.recorders live.GetLiveId with
    | none => simp [manager.HasRecorder, hg] at h4
    | some idx => simp [manager.AddRecorder, h1, h2, h3, hg]
  · intro h1 h2 h3 h4
    cases hg : gomap.get m.recorders live.GetLiveId with
    | some idx => simp [manager.HasRecorder, hg] at h4
    | none => simp [manager.AddRecorder, h1, h2, h3, hg]

/-- Witness for C15: a room with listening on but recording off and no watcher is
rejected for the missing watcher, the earlier of the two failing checks; with the watcher
present it is rejected for recording. -/
theorem AddRecorder_checks_witness :
    (splitExample.AddRecorder (.platform ⟨"X", "u1", 0⟩) ⟨"u1", true, false, false, "", false⟩
        (listeners.NewManager false) 5).2.2 = (Effects.none, some .ErrNoListening) ∧
    (splitExample.AddRecorder (.platform ⟨"X", "u1", 0⟩) ⟨"u1", true, false, false, "", false⟩
        watchingX 5).2.2 = (Effects.none, some .ErrRecordNotEnabled) ∧
    (splitExample.AddRecorder (.platform ⟨"X", "u1", 0⟩) ⟨"u1", true, false, true, "", false⟩
        watchingX 5).1 = splitExample :=
  ⟨((AddRecorder_checks splitExample (.platform ⟨"X", "u1", 0⟩)
      ⟨"u1", true, false, false, "", false⟩ (listeners.NewManager false) 5).2.1
      rfl (by decide)).2,
   ((AddRecorder_checks splitExample (.platform ⟨"X", "u1", 0⟩)
      ⟨"u1", true, false, false, "", false⟩ watchingX 5).2.2.1 rfl (by decide) rfl).2,
   ((AddRecorder_checks splitExample (.platform ⟨"X", "u1", 0⟩)
      ⟨"u1", true, false, true, "", false⟩ watchingX 5).2.2.2.1 rfl (by decide) rfl
      (by decide)).1⟩

end recorders

namespace pushers

open events live

/-- C16: `AddPusher` checks, in this order, that listening is enabled for the room, that
the watcher manager holds a watcher for the RoomId, that the RTMP target is not empty,
that push is enabled, and that no re-emit worker is registered for the RoomId; the first
check that fails decides the error and the manager is left as it was. Only when every
check passes is a new worker registered and started. -/
theorem AddPusher_checks (m : manager) (live : Live) (room : configs.LiveRoom)
    (lm : listeners.manager) (now : Int) :
    (room.Listen = false →
      (m.AddPusher live room lm now).1 = m ∧
      (m.AddPusher live room lm now).2.2 = ([], some .ErrListenNotEnabled)) ∧
    (room.Listen = true → lm.HasListener live.GetLiveId = false →
      (m.AddPusher live room lm now).1 = m ∧
      (m.AddPusher live room lm now).2.2 = ([], some .ErrNoListening)) ∧
    (room.Listen = true → lm.HasListener live.GetLiveId = true → room.Rtmp = "" →
      (m.AddPusher live room lm now).1 = m ∧
      (m.AddPusher live room lm now).2.2 = ([], some .ErrRtmpNotExist)) ∧
    (room.Listen = true → lm.HasListener live.GetLiveId = true → room.Rtmp ≠ "" →
      room.Push = false →
      (m.AddPusher live room lm now).1 = m ∧
      (m.AddPusher live room lm now).2.2 = ([], some .ErrPushNotEnabled)) ∧
    (room.Listen = true → lm.HasListener live.GetLiveId = true → room.Rtmp ≠ "" →
      room.Push = true → m.HasPusher live.GetLiveId = true →
      (m.AddPusher live room lm now).1 = m ∧
      (m.AddPusher live room lm now).2.2 = ([], some .ErrPusherExist)) ∧
    (room.Listen = true → lm.HasListener live.GetLiveId = true → room.Rtmp ≠ "" →
      room.Push = true → m.HasPusher live.GetLiveId = false →
      (m.AddPusher live room lm now).2.2.2 = none ∧
      (m.AddPusher live room lm now).1.pushers
        = gomap.set m.pushers live.GetLiveId m.objs.length ∧
      (m.AddPusher live room lm now).1.objs = m.objs ++ [(NewPusher live now).Start.1]) ∧
    ((m.AddPusher live room lm now).1 ≠ m →
      room.Listen = true ∧ lm.HasListener live.GetLiveId = true ∧ room.Rtmp ≠ "" ∧
      room.Push = true ∧ m.HasPusher live.GetLiveId = false) := by
  refine ⟨?_, ?_, ?_, ?_, ?_, ?_, ?_⟩
  · intro h1; simp [manager.AddPusher, h1]
  · intro h1 h2; simp [manager.AddPusher, h1, h2]
  · intro h1 h2 h3; simp [manager.AddPusher, h1, h2, h3]
  · intro h1 h2 h3 h4; simp [manager.AddPusher, h1, h2, h3, h4]
  · intro h1 h2 h3 h4 h5
    cases hg : gomap.get m.pushers live.GetLiveId with
    | none => simp [manager.HasPusher, hg] at h5
    | some idx => simp [manager.AddPusher, h1, h2, h3, h4, hg]
  · intro h1 h2 h3 h4 h5
    cases hg : gomap.get m.pushers live.GetLiveId with
    | some idx => simp [manager.HasPusher, hg] at h5
    | none => simp [manager.AddPusher, h1, h2, h3, h4, hg]
  · intro hne
    cases h1 : room.Listen with
    | false => exact absurd (by simp [manager.AddPusher, h1]) hne
    | true =>
      cases h2 : lm.HasListener live.GetLiveId with
      | false => exact absurd (by simp [manager.AddPusher, h1, h2]) hne
      | true =>
        by_cases h3 : room.Rtmp = ""
        · exact absurd (by simp [manager.AddPusher, h1, h2, h3]) hne
        · cases h4 : room.Push with
          | false => exact absurd (by simp [manager.AddPusher, h1, h2, h3, h4]) hne
          | true =>
            cases hg : gomap.get m.pushers live.GetLiveId with
            | some idx => exact absurd (by simp [manager.AddPusher, h1, h2, h3, h4, hg]) hne
            | none => simp [h3, manager.HasPusher, hg]

/-- Witness for C16: with a watcher for "X" and push enabled but no RTMP target the call
is rejected for the missing target; with a target it registers and starts a worker. -/
theorem AddPusher_checks_witness :
    (NewManager.AddPusher (.platform ⟨"X", "u1", 0⟩) ⟨"u1", true, false, false, "", true⟩
        recorders.watchingX 5).2.2 = ([], some .ErrRtmpNotExist) ∧
    (NewManager.AddPusher (.platform ⟨"X", "u1", 0⟩)
        ⟨"u1", true, false, false, "rtmp://t", true⟩ recorders.watchingX 5).2.2.2 = none :=
  ⟨((AddPusher_checks NewManager (.platform ⟨"X", "u1", 0⟩)
      ⟨"u1", true, false, false, "", true⟩ recorders.watchingX 5).2.2.1
      rfl (by decide) rfl).2,
   ((AddPusher_checks NewManager (.platform ⟨"X", "u1", 0⟩)
      ⟨"u1", true, false, false, "rtmp://t", true⟩ recorders.watchingX 5).2.2.2.2.2.1
      rfl (by decide) (by decide) rfl (by decide)).1⟩

end pushers

namespace events

theorem registered_RemoveAll (e : dispatcher) (t t1 : EventType) :
    (e.RemoveAllEventListener t).registered t1 = [] := by
  simp [dispatcher.RemoveAllEventListener, dispatcher.registered, gomap.get]

/-- C17, failing input: one listener is registered for "LiveStart" and one for
"ConfigChanged"; `RemoveAllEventListener("ConfigChanged")` replaces the whole map, so the
listener of "LiveStart" is gone as well. -/
theorem RemoveAll_drops_other_types :
    (run [.add "LiveStart" (some 1), .add "ConfigChanged" (some 2)]).registered "LiveStart"
      = [some 1] ∧
    ((run [.add "LiveStart" (some 1), .add "ConfigChanged" (some 2)]).RemoveAllEventListener
      "ConfigChanged").registered "LiveStart" = [] ∧
    ((run [.add "LiveStart" (some 1), .add "ConfigChanged" (some 2)]).RemoveAllEventListener
      "ConfigChanged").registered "ConfigChanged" = [] := by
  decide

theorem registered_Remove (e : dispatcher) (t t1 : EventType) (l : ListenerRef) :
    (e.RemoveEventListener t l).registered t1 =
      if t1 = t then removeLoop l (e.registered t) else e.registered t1 := by
  simp only [dispatcher.RemoveEventListener, dispatcher.registered]
  cases hg : gomap.get e.saver t with
  | none =>
    by_cases ht : t1 = t
    · subst ht; simp [hg, removeLoop]
    · simp [ht]
  | some ls =>
    by_cases ht : t1 = t
    · subst ht
      by_cases hlen : (removeLoop l ls).length = 0
      · have : removeLoop l ls = [] := List.length_eq_zero.mp hlen
        simp [hlen, gomap.get_delete_self, this]
      · simp [hlen, gomap.get_set_self]
    · by_cases hlen : (removeLoop l ls).length = 0
      · simp [hlen, gomap.get_delete_other _ _ _ ht, ht]
      · simp [hlen, gomap.get_set_other _ _ _ _ ht, ht]

theorem removeLoop_eq_erase (l : ListenerRef) (ls : List ListenerRef) :
    removeLoop l ls = ls.erase l := by
  induction ls with
  | nil => rfl
  | cons v rest ih =>
    simp only [removeLoop, List.erase_cons]
    by_cases h : v = l
    · simp [h]
    · simp [h, ih]

/-- C18, failing input: listener 1 is registered twice for "t", with listener 2 in
between; `RemoveEventListener("t", 1)` removes the first occurrence only, so listener 1 is
still registered for "t" afterwards. -/
theorem Remove_leaves_second_occurrence :
    (run [.add "t" (some 1), .add "t" (some 2), .add "t" (some 1)]).registered "t"
      = [some 1, some 2, some 1] ∧
    ((run [.add "t" (some 1), .add "t" (some 2), .add "t" (some 1)]).RemoveEventListener
      "t" (some 1)).registered "t" = [some 2, some 1] := by
  decide

theorem registered_Add (e : dispatcher) (t t1 : EventType) (l : ListenerRef) :
    (e.AddEventListener t l).registered t1 =
      if t1 = t then
        (if l = none then [l] else e.registered t ++ [l])
      else e.registered t1 := by
  simp only [dispatcher.AddEventListener, dispatcher.registered]
  cases hg : gomap.get e.saver t with
  | none =>
    by_cases ht : t1 = t
    · subst ht
      by_cases hl : l = none <;> simp [hg, hl, gomap.get_set_self]
    · simp [ht, gomap.get_set_other _ _ _ _ ht]
  | some ls =>
    by_cases ht : t1 = t
    · subst ht
      by_cases hl : l = none <;> simp [hg, hl, gomap.get_set_self]
    · by_cases hl : l = none <;> simp [ht, hl, gomap.get_set_other _ _ _ _ ht]

/-- C19 as stated fails for a nil listener: listener 1 is registered for "t", then
`AddEventListener("t", nil)` is called; the list of "t" becomes the nil listener alone,
listener 1 is no longer registered. -/
theorem Add_nil_drops_listeners :
    (run [.add "t" (some 1)]).registered "t" = [some 1] ∧
    ((run [.add "t" (some 1)]).AddEventListener "t" none).registered "t" = [none] ∧
    ((run [.add "t" (some 1)]).AddEventListener "t" none).registered "t"
      ≠ (run [.add "t" (some 1)]).registered "t" ++ [none] := by
  decide

/-- C19, amended: for every event type `t` and every listener `l` that is not nil, after
`AddEventListener(t, l)` the listener list of `t` is the previous list of `t` followed by
`l`, so every listener registered for `t` before the call is still registered; with a nil
listener the list of `t` is replaced by the nil listener alone; in both cases the lists of
all other types are unchanged. -/
theorem Add_listener_spec (e : dispatcher) (t : EventType) (l : ListenerRef) :
    (l ≠ none →
      (e.AddEventListener t l).registered t = e.registered t ++ [l] ∧
      ∀ x ∈ e.registered t, x ∈ (e.AddEventListener t l).registered t) ∧
    (l = none → (e.AddEventListener t l).registered t = [none]) ∧
    (∀ t1, t1 ≠ t → (e.AddEventListener t l).registered t1 = e.registered t1) := by
  refine ⟨fun hl => ?_, fun hl => ?_, fun t1 ht => ?_⟩
  · have h : (e.AddEventListener t l).registered t = e.registered t ++ [l] := by
      rw [registered_Add]; simp [hl]
    refine ⟨h, fun x hx => ?_⟩
    rw [h]
    exact List.mem_append_left _ hx
  · rw [registered_Add]; simp [hl]
  · rw [registered_Add]; simp [ht]

/-- Witness for C19: listener 1 is registered for "t" and listener 3 for "u"; after
`AddEventListener("t", 2)` the list of "t" is listeners 1 and 2 and the list of "u" is
still listener 3. -/
theorem Add_listener_spec_witness :
    (some 2 : ListenerRef) ≠ none ∧
    ((run [.add "t" (some 1), .add "u" (some 3)]).AddEventListener "t" (some 2)).registered "t"
      = [some 1, some 2] ∧
    ((run [.add "t" (some 1), .add "u" (some 3)]).AddEventListener "t" (some 2)).registered "u"
      = [some 3] :=
  ⟨by decide,
   ((Add_listener_spec (run [.add "t" (some 1), .add "u" (some 3)]) "t" (some 2)).1
      (by decide)).1,
   (Add_listener_spec (run [.add "t" (some 1), .add "u" (some 3)]) "t" (some 2)).2.2 "u"
      (by decide)⟩

end events

namespace flv

theorem doWriteLoop_zero (b : List Byte) (n : Nat) (o : Writer) :
    doWriteLoop b n o 0 = (o, 0, none) := by
  cases n <;> simp [doWriteLoop]

theorem doWriteLoop_out (b : List Byte) :
    ∀ (n : Nat) (o : Writer) (left : Nat), left ≤ b.length →
      (doWriteLoop b n o left).2.1 ≤ left ∧
      (doWriteLoop b n o left).1.out =
        o.out ++ (b.drop (b.length - left)).take (left - (doWriteLoop b n o left).2.1) := by
  intro n
  induction n with
  | zero => intro o left _; simp [doWriteLoop]
  | succ n ih =>
    intro o left hle
    by_cases hpos : left > 0
    · have hslen : (b.drop (b.length - left)).length = left := by
        rw [List.length_drop]; omega
      generalize hs : b.drop (b.length - left) = s at hslen
      obtain ⟨out, script⟩ := o
      cases script with
      | nil =>
        simp only [doWriteLoop, hpos, if_true, hs, Writer.Write, hslen, Nat.sub_self,
          doWriteLoop_zero]
        simp [← hslen]
      | cons x rs =>
        simp only [doWriteLoop, hpos, if_true, hs, Writer.Write, hslen]
        have hmin : min x.accept left ≤ left := Nat.min_le_right _ _
        have htake : List.take x.accept s = List.take (min x.accept left) s := by
          rcases Nat.le_total x.accept left with h | h
          · rw [Nat.min_eq_left h]
          · rw [Nat.min_eq_right h, List.take_of_length_le (by omega),
              List.take_of_length_le (by omega)]
        cases hf : x.fail with
        | true =>
          simp only [if_true]
          refine ⟨by omega, ?_⟩
          rw [htake]
          congr 2
          omega
        | false =>
          simp only [Bool.false_eq_true, if_false]
          obtain ⟨h1, h2⟩ := ih ⟨out ++ List.take x.accept s, rs⟩
            (left - min x.accept left) (by omega)
          refine ⟨by omega, ?_⟩
          rw [h2]
          have hdrop : b.drop (b.length - (left - min x.accept left))
              = s.drop (min x.accept left) := by
            rw [← hs, List.drop_drop]
            congr 1
            omega
          rw [hdrop, List.append_assoc]
          congr 1
          generalize (doWriteLoop b n ⟨out ++ List.take x.accept s, rs⟩
            (left - min x.accept left)).2.1 = fin at h1 ⊢
          rw [htake]
          have : left - fin = min x.accept left + (left - min x.accept left - fin) := by omega
          rw [this, List.take_add]
    · have h0 : left = 0 := by omega
      subst h0
      simp [doWriteLoop_zero]

end flv

namespace flv

theorem doWriteLoop_script (b : List Byte) :
    ∀ (n : Nat) (o : Writer) (left : Nat), left ≤ b.length →
      ∃ pre, o.script = pre ++ (doWriteLoop b n o left).1.script ∧ pre.length ≤ n ∧
        ((doWriteLoop b n o left).2.2 = none → (doWriteLoop b n o left).2.1 ≠ 0 →
          pre.length = n ∧ ∀ x ∈ pre, x.fail = false) ∧
        ((doWriteLoop b n o left).2.2 ≠ none →
          ∃ pre0 x, pre = pre0 ++ [x] ∧ x.fail = true ∧ ∀ y ∈ pre0, y.fail = false) := by
  intro n
  induction n with
  | zero =>
    intro o left _
    exact ⟨[], by simp [doWriteLoop], by simp, by simp [doWriteLoop], by simp [doWriteLoop]⟩
  | succ n ih =>
    intro o left hle
    by_cases hpos : left > 0
    · have hslen : (b.drop (b.length - left)).length = left := by
        rw [List.length_drop]; omega
      generalize hs : b.drop (b.length - left) = s at hslen
      obtain ⟨out, script⟩ := o
      cases script with
      | nil =>
        refine ⟨[], ?_, by simp, ?_, ?_⟩ <;>
          simp [doWriteLoop, hpos, Writer.Write, hs, hslen, doWriteLoop_zero]
      | cons x rs =>
        cases hf : x.fail with
        | true =>
          refine ⟨[x], ?_, by simp, ?_, ?_⟩
          · simp [doWriteLoop, hpos, Writer.Write, hs, hf]
          · simp [doWriteLoop, hpos, Writer.Write, hs, hf]
          · intro _
            exact ⟨[], x, rfl, hf, by simp⟩
        | false =>
          obtain ⟨pre, h1, h2, h3, h4⟩ := ih ⟨out ++ List.take x.accept s, rs⟩
            (left - min x.accept left) (by omega)
          have hstep : doWriteLoop b (n + 1) ⟨out, x :: rs⟩ left
              = doWriteLoop b n ⟨out ++ List.take x.accept s, rs⟩ (left - min x.accept left) := by
            simp only [doWriteLoop, hpos, if_true, Writer.Write, hs, hslen, hf,
              Bool.false_eq_true, if_false]
          rw [hstep]
          refine ⟨x :: pre, ?_, by simp; omega, ?_, ?_⟩
          · simp only [List.cons_append]; rw [← h1]
          · intro ha hb
            obtain ⟨hl, hall⟩ := h3 ha hb
            refine ⟨by simp [hl], ?_⟩
            intro y hy
            rcases List.mem_cons.mp hy with rfl | hy
            · exact hf
            · exact hall y hy
          · intro ha
            obtain ⟨pre0, y, hp, hy, hall⟩ := h4 ha
            refine ⟨x :: pre0, y, by simp [hp], hy, ?_⟩
            intro z hz
            rcases List.mem_cons.mp hz with rfl | hz
            · exact hf
            · exact hall z hz
    · have h0 : left = 0 := by omega
      subst h0
      exact ⟨[], by simp [doWriteLoop_zero], by simp, by simp [doWriteLoop_zero],
        by simp [doWriteLoop_zero]⟩

end flv

namespace flv

theorem doWrite_snd (p : Parser) (b : List Byte) :
    (p.doWrite b).2 =
      match (doWriteLoop b ioRetryCount p.o b.length).2.2 with
      | some e => some e
      | none =>
        if (doWriteLoop b ioRetryCount p.o b.length).2.1 ≠ 0 then
          some (.incompleteWrite b.length ioRetryCount
            (doWriteLoop b ioRetryCount p.o b.length).2.1)
        else none := by
  unfold Parser.doWrite
  rcases doWriteLoop b ioRetryCount p.o b.length with ⟨o1, left, _ | e⟩
  · simp only; split <;> rfl
  · rfl

/-- C20 as stated fails for payload bytes: the 17 header and sub-header bytes of a tag are
accepted, then the destination takes one of the two payload bytes without an error. The
copy ends at once with `io.ErrShortWrite` after that single `Write`, although a further
attempt would have been accepted; the same short answer to the header write is retried and
the tag goes through. -/
theorem doCopy_short_write_not_retried :
    ((newParser exampleSeqHeaderTag ⟨[], [⟨17, false⟩, ⟨1, false⟩]⟩).parseTag).2
      = some .ErrShortWrite ∧
    ((newParser exampleSeqHeaderTag ⟨[], [⟨17, false⟩, ⟨1, false⟩]⟩).parseTag).1.o
      = ⟨exampleSeqHeaderTag.take 18, []⟩ ∧
    ((newParser exampleSeqHeaderTag ⟨[], [⟨16, false⟩]⟩).parseTag).2 = none ∧
    ((newParser exampleSeqHeaderTag ⟨[], [⟨16, false⟩]⟩).parseTag).1.o
      = ⟨exampleSeqHeaderTag, []⟩ := by
  decide

/-- C20, amended: header and sub-header bytes go through `doWrite`, which appends a prefix
of the bytes to the destination in order and all of them on success, makes at most three
`Write` calls, fails with the incomplete-write error only after three calls that each took
too few bytes without an error, and returns a `Write` error from the call that reported it
with no further call. Payload bytes go through `doCopy`, which hands them to `Write` in
chunks and does not retry: a `Write` of the first chunk that takes fewer bytes than offered
without an error ends the copy with `io.ErrShortWrite` after that one call, and whenever
`doCopy` ends with `io.ErrShortWrite`, in whichever chunk, the reader has moved past more
bytes than the destination holds, so the bytes not taken are never offered again. -/
theorem doWrite_retry_spec (p : Parser) (b : List Byte) :
    (∃ k, k ≤ b.length ∧ (p.doWrite b).1.o.out = p.o.out ++ b.take k ∧
      ((p.doWrite b).2 = none → k = b.length)) ∧
    (∃ pre, p.o.script = pre ++ (p.doWrite b).1.o.script ∧ pre.length ≤ ioRetryCount ∧
      (∀ total retries left, (p.doWrite b).2 = some (.incompleteWrite total retries left) →
        total = b.length ∧ retries = ioRetryCount ∧ left ≠ 0 ∧
        pre.length = ioRetryCount ∧ ∀ x ∈ pre, x.fail = false) ∧
      ((p.doWrite b).2 = some .writeFailed →
        ∃ pre0 x, pre = pre0 ++ [x] ∧ x.fail = true ∧ ∀ y ∈ pre0, y.fail = false)) ∧
    ((p.doWrite b).2 = none ∨ (p.doWrite b).2 = some .writeFailed ∨
      ∃ left, (p.doWrite b).2 = some (.incompleteWrite b.length ioRetryCount left)) ∧
    (∀ n x rs, p.o.script = x :: rs → x.fail = false →
      x.accept < (p.i.rest.take (min (copySize n) n)).length →
      (p.doCopy n).2 = some .ErrShortWrite ∧
      (p.doCopy n).1.o = ⟨p.o.out ++ (p.i.rest.take (min (copySize n) n)).take x.accept, rs⟩) ∧
    (∀ n, (p.doCopy n).2 = some .ErrShortWrite →
      ∃ k c, k < c ∧ c ≤ n ∧ (p.doCopy n).1.o.out = p.o.out ++ p.i.rest.take k ∧
        (p.doCopy n).1.i = { p.i with rest := p.i.rest.drop c }) := by
  obtain ⟨hle, hout⟩ := doWriteLoop_out b ioRetryCount p.o b.length (Nat.le_refl _)
  obtain ⟨pre, hpre, hlen, hpend, hfail⟩ :=
    doWriteLoop_script b ioRetryCount p.o b.length (Nat.le_refl _)
  have herr := doWriteLoop_error b ioRetryCount p.o b.length
  have hfst := doWrite_fst p b
  have hsnd := doWrite_snd p b
  refine ⟨?_, ?_, ?_, ?_, ?_⟩
  · refine ⟨b.length - (doWriteLoop b ioRetryCount p.o b.length).2.1, by omega, ?_, ?_⟩
    · rw [hfst]
      simpa using hout
    · intro hnone
      rw [hsnd] at hnone
      rcases herr with h | h
      · rw [h] at hnone
        simp only at hnone
        split at hnone
        · cases hnone
        · rename_i h0
          have : (doWriteLoop b ioRetryCount p.o b.length).2.1 = 0 := by
            simpa using h0
          omega
      · rw [h] at hnone; cases hnone
  · refine ⟨pre, by rw [hfst]; exact hpre, hlen, ?_, ?_⟩
    · intro total retries left hinc
      rw [hsnd] at hinc
      rcases herr with h | h
      · rw [h] at hinc
        simp only at hinc
        split at hinc
        · rename_i h0
          simp only [Option.some.injEq, Error.incompleteWrite.injEq] at hinc
          obtain ⟨e1, e2, e3⟩ := hinc
          obtain ⟨hl, hall⟩ := hpend h h0
          exact ⟨e1.symm, e2.symm, by rw [← e3]; exact h0, hl, hall⟩
        · cases hinc
      · rw [h] at hinc; cases hinc
    · intro hw
      apply hfail
      rw [hsnd] at hw
      intro hnone
      rw [hnone] at hw
      simp only at hw
      split at hw <;> cases hw
  · rw [hsnd]
    rcases herr with h | h
    · rw [h]
      simp only
      split
      · exact Or.inr (Or.inr ⟨_, rfl⟩)
      · exact Or.inl rfl
    · rw [h]; exact Or.inr (Or.inl rfl)
  · intro n x rs hs hf hshort
    obtain ⟨md, ⟨rest, buf⟩, ⟨out, script⟩, a, tc, sc⟩ := p
    simp only at hs hshort
    subst hs
    have hne : List.take (min (copySize n) n) rest ≠ [] := by
      intro h; rw [h] at hshort; simp at hshort
    have hmin : min x.accept (List.take (min (copySize n) n) rest).length = x.accept :=
      Nat.min_eq_left (by omega)
    have hlen : (List.take (min (copySize n) n) rest).length ≤ n := by
      rw [List.length_take]
      omega
    have hnn : ¬ (0 + x.accept = n) := by omega
    generalize hd : List.take (min (copySize n) n) rest = data at hshort hne hmin hlen
    simp only [Parser.doCopy, CopyN, copyLoop, hd, hne, if_false, Writer.Write, hf, hmin,
      hshort, if_true, Bool.false_eq_true, hnn, and_self, reduceCtorEq, and_false]
  · intro n hn
    obtain ⟨k, c, _, hc, _, e1, e2, _, _, e5⟩ :=
      copyLoop_spec (copySize n) (copySize_pos n) (p.i.rest.length + 1) p.o p.i n 0
        (Nat.lt_succ_self _)
    have ho : (p.doCopy n).1.o = (copyLoop (copySize n) (p.i.rest.length + 1) p.o p.i n 0).1 := by
      simp only [Parser.doCopy, CopyN]
      split_ifs <;> rfl
    have hi : (p.doCopy n).1.i
        = (copyLoop (copySize n) (p.i.rest.length + 1) p.o p.i n 0).2.1 := by
      simp only [Parser.doCopy, CopyN]
      split_ifs <;> rfl
    have he : (copyLoop (copySize n) (p.i.rest.length + 1) p.o p.i n 0).2.2.2
        = some .ErrShortWrite := by
      simp only [Parser.doCopy, CopyN] at hn
      by_cases h1 : (copyLoop (copySize n) (p.i.rest.length + 1) p.o p.i n 0).2.2.1 = n
      · rw [if_pos h1] at hn
        cases hn
      · rw [if_neg h1] at hn
        by_cases h2 : (copyLoop (copySize n) (p.i.rest.length + 1) p.o p.i n 0).2.2.1 < n ∧
            (copyLoop (copySize n) (p.i.rest.length + 1) p.o p.i n 0).2.2.2 = none
        · rw [if_pos h2] at hn
          cases hn
        · rw [if_neg h2] at hn
          exact hn
    exact ⟨k, c, e5 he, hc, by rw [ho, e1], by rw [hi, e2]⟩

/-- Witness for C20: a buffer of three bytes written to a destination that takes one byte
per call is complete after three calls; a payload copy of two bytes to the same destination
stops after one short call, with the reader past more bytes than were written. -/
theorem doWrite_retry_spec_witness :
    ((newParser [7, 8] ⟨[], [⟨1, false⟩, ⟨1, false⟩, ⟨1, false⟩]⟩).doWrite [1, 2, 3]).2 = none ∧
    ((newParser [7, 8] ⟨[], [⟨1, false⟩, ⟨1, false⟩, ⟨1, false⟩]⟩).doWrite [1, 2, 3]).1.o
      = ⟨[1, 2, 3], []⟩ ∧
    ((newParser [7, 8] ⟨[], [⟨1, false⟩, ⟨1, false⟩, ⟨1, false⟩]⟩).doCopy 2).2
      = some .ErrShortWrite ∧
    ((newParser [7, 8] ⟨[], [⟨1, false⟩, ⟨1, false⟩, ⟨1, false⟩]⟩).doCopy 2).1.o
      = ⟨[] ++ List.take 1 (List.take 2 [7, 8]), [⟨1, false⟩, ⟨1, false⟩]⟩ ∧
    (∃ k c, k < c ∧ c ≤ 2 ∧
      ((newParser [7, 8] ⟨[], [⟨1, false⟩, ⟨1, false⟩, ⟨1, false⟩]⟩).doCopy 2).1.o.out
        = [] ++ List.take k [7, 8] ∧
      ((newParser [7, 8] ⟨[], [⟨1, false⟩, ⟨1, false⟩, ⟨1, false⟩]⟩).doCopy 2).1.i
        = ⟨List.drop c [7, 8], []⟩) :=
  ⟨by decide, by decide,
   ((doWrite_retry_spec (newParser [7, 8] ⟨[], [⟨1, false⟩, ⟨1, false⟩, ⟨1, false⟩]⟩)
      [1, 2, 3]).2.2.2.1 2 ⟨1, false⟩ [⟨1, false⟩, ⟨1, false⟩] rfl rfl (by decide)).1,
   ((doWrite_retry_spec (newParser [7, 8] ⟨[], [⟨1, false⟩, ⟨1, false⟩, ⟨1, false⟩]⟩)
      [1, 2, 3]).2.2.2.1 2 ⟨1, false⟩ [⟨1, false⟩, ⟨1, false⟩] rfl rfl (by decide)).2,
   (doWrite_retry_spec (newParser [7, 8] ⟨[], [⟨1, false⟩, ⟨1, false⟩, ⟨1, false⟩]⟩)
      [1, 2, 3]).2.2.2.2 2 (by decide)⟩

end flv

namespace flv

theorem nativeStop_done (p : Parser) (o : gosync.Once) (h : o.done = true) :
    p.Stop o = (p, o, .returned none) := by
  simp [Parser.Stop, gosync.Once.Do, h]

theorem stopTimes_done (n : Nat) (p : Parser) (o : gosync.Once) (h : o.done = true) :
    stopTimes n p o = (p, o, List.replicate n (.returned none)) := by
  induction n with
  | zero => rfl
  | succ n ih => simp only [stopTimes, nativeStop_done p o h, ih, List.replicate_succ]

theorem Stop_fresh (p : Parser) (o : gosync.Once) (h : o.done = false)
    (hc : p.stopClosed = 0) :
    p.Stop o = ({ p with stopClosed := 1 }, { done := true }, .returned none) := by
  simp [Parser.Stop, gosync.Once.Do, h, Parser.closeStopCh, hc]

end flv

namespace ffmpeg

theorem adapterStop_done (p : Parser) (h : p.closeOnce.done = true) :
    p.Stop = (p, .returned none) := by
  simp [Parser.Stop, gosync.Once.Do, h]

theorem exited_frame (p : Parser) (code : Int) :
    (p.exited code).closeOnce = p.closeOnce ∧ (p.exited code).cmdStdIn = p.cmdStdIn := by
  unfold Parser.exited
  cases p.cmd <;> simp

theorem runActs_done (acts : List Act) :
    ∀ p : Parser, p.closeOnce.done = true →
      (runActs acts p).1.cmdStdIn = p.cmdStdIn ∧
      (runActs acts p).1.closeOnce = p.closeOnce ∧
      ∀ x ∈ (runActs acts p).2, x = .returned none := by
  induction acts with
  | nil => intro p _; simp [runActs]
  | cons a acts ih =>
    intro p h
    cases a with
    | stop =>
      simp only [runActs, adapterStop_done p h]
      obtain ⟨h1, h2, h3⟩ := ih p h
      refine ⟨h1, h2, ?_⟩
      intro x hx
      rcases List.mem_cons.1 hx with hx | hx
      · exact hx
      · exact h3 x hx
    | exit code =>
      simp only [runActs]
      have hf := exited_frame p code
      obtain ⟨h1, h2, h3⟩ := ih (p.exited code) (by rw [hf.1]; exact h)
      exact ⟨by rw [h1, hf.2], by rw [h2, hf.1], h3⟩

theorem Stop_first (p : Parser) (h : p.closeOnce.done = false) (hp : p.hasProcess = true) :
    p.Stop.2 = .returned none ∧ p.Stop.1.closeOnce.done = true ∧
    p.Stop.1.cmd = p.cmd ∧
    p.Stop.1.cmdStdIn =
      (if p.alive then p.cmdStdIn.map (fun w => w ++ ["q"]) else p.cmdStdIn) := by
  obtain ⟨cmd, stdin, once, dbg, t⟩ := p
  cases cmd with
  | none => simp [Parser.hasProcess] at hp
  | some c =>
    cases stdin with
    | none => simp [Parser.hasProcess] at hp
    | some w =>
      simp only at h
      obtain ⟨st⟩ := c
      cases st <;>
        simp [Parser.Stop, gosync.Once.Do, h, Parser.quit, Parser.alive]

theorem Stop_uses_once (p : Parser) : p.Stop.1.closeOnce.done = true := by
  cases h : p.closeOnce.done <;> simp [Parser.Stop, gosync.Once.Do, h]

theorem Stop_quits (p : Parser) : p.Stop.1.quits ≤ p.quits + 1 := by
  obtain ⟨cmd, stdin, ⟨done⟩, dbg, t⟩ := p
  cases done with
  | true => simp [Parser.Stop, gosync.Once.Do]
  | false =>
    cases cmd with
    | none => simp [Parser.Stop, gosync.Once.Do, Parser.quit, Parser.quits]
    | some c =>
      obtain ⟨st⟩ := c
      cases st <;> cases stdin <;>
        simp [Parser.Stop, gosync.Once.Do, Parser.quit, Parser.quits, List.count_append]

theorem runActs_quits (acts : List Act) :
    ∀ p : Parser, (runActs acts p).1.quits ≤ p.quits + 1 := by
  induction acts with
  | nil => intro p; simp [runActs]
  | cons a acts ih =>
    intro p
    cases a with
    | stop =>
      simp only [runActs]
      have h1 := (runActs_done acts p.Stop.1 (Stop_uses_once p)).1
      have h2 := Stop_quits p
      simp only [Parser.quits] at h2 ⊢
      rw [h1]
      exact h2
    | exit code =>
      simp only [runActs]
      have h1 := ih (p.exited code)
      have h2 := (exited_frame p code).2
      simp only [Parser.quits] at h1 ⊢
      rw [h2] at h1
      exact h1

/-- Where `Stop` is idempotent. Native parser: from the state that `Build` leaves (channel
open, `closeOnce` unused) any number of calls returns nil each time and closes the stop
channel exactly once, the state being that after one call; once `closeOnce` is used,
further calls return nil and change nothing. Subprocess adapter: in every state a `Stop`
leaves `closeOnce` used, after which every `Stop` returns nil and writes nothing, and over
any sequence of `Stop` calls and process exits the quit signal is written at most once.
With the process created, whatever follows a first `Stop`, every call returns nil, the
input pipe is as the first call left it, and the quit signal was written by that call
exactly when the process had not exited. -/
theorem Stop_idempotent :
    (∀ (p : flv.Parser) (o : gosync.Once) (n : Nat), o.done = false → p.stopClosed = 0 →
      (flv.stopTimes (n + 1) p o).2.2 = List.replicate (n + 1) (.returned none) ∧
      (flv.stopTimes (n + 1) p o).1.stopClosed = 1 ∧
      (flv.stopTimes (n + 1) p o).1 = (p.Stop o).1 ∧
      (flv.stopTimes (n + 1) p o).2.1 = (p.Stop o).2.1) ∧
    (∀ (p : flv.Parser) (o : gosync.Once) (n : Nat), o.done = true →
      flv.stopTimes n p o = (p, o, List.replicate n (.returned none))) ∧
    (∀ p : Parser, p.Stop.1.closeOnce.done = true) ∧
    (∀ (p : Parser) (acts : List Act), p.closeOnce.done = true →
      (∀ x ∈ (runActs acts p).2, x = .returned none) ∧
      (runActs acts p).1.cmdStdIn = p.cmdStdIn) ∧
    (∀ (p : Parser) (acts : List Act), (runActs acts p).1.quits ≤ p.quits + 1) ∧
    (∀ (p : Parser) (acts : List Act), p.closeOnce.done = false → p.hasProcess = true →
      (∀ x ∈ (runActs (.stop :: acts) p).2, x = .returned none) ∧
      (runActs (.stop :: acts) p).1.cmdStdIn = p.Stop.1.cmdStdIn ∧
      (runActs (.stop :: acts) p).1.quits = p.quits + (if p.alive then 1 else 0)) := by
  refine ⟨?_, ?_, Stop_uses_once, ?_, fun p acts => runActs_quits acts p, ?_⟩
  · intro p o n h hc
    have h1 := flv.Stop_fresh p o h hc
    have h2 := flv.stopTimes_done n { p with stopClosed := 1 } { done := true } rfl
    simp only [flv.stopTimes, h1, h2, List.replicate_succ, and_self]
  · intro p o n h
    exact flv.stopTimes_done n p o h
  · intro p acts h
    obtain ⟨g1, _, g3⟩ := runActs_done acts p h
    exact ⟨g3, g1⟩
  · intro p acts h hp
    obtain ⟨h1, h2, _, h4⟩ := Stop_first p h hp
    obtain ⟨g1, _, g3⟩ := runActs_done acts p.Stop.1 h2
    refine ⟨?_, ?_, ?_⟩
    · intro x hx
      simp only [runActs, List.mem_cons] at hx
      rcases hx with hx | hx
      · rw [hx, h1]
      · exact g3 x hx
    · simp only [runActs]
      exact g1
    · simp only [runActs, Parser.quits, g1, h4]
      cases hs : p.cmdStdIn with
      | none => simp [Parser.hasProcess, hs] at hp
      | some w => cases ha : p.alive <;> simp [List.count_append]

/-- Examples of `Stop_idempotent`: three `Stop` calls on a fresh native parser, and on a
started subprocess adapter two `Stop` calls, the exit of the process and a third `Stop`. -/
theorem Stop_idempotent_witness :
    ((flv.stopTimes 3 (flv.newParser [] (flv.acceptAll [])) ⟨false⟩).2.2
        = [.returned none, .returned none, .returned none] ∧
      (flv.stopTimes 3 (flv.newParser [] (flv.acceptAll [])) ⟨false⟩).1.stopClosed = 1) ∧
    ((∀ x ∈ (runActs [.stop, .stop, .exit 0, .stop] (Build []).started).2,
        x = .returned none) ∧
      (runActs [.stop, .stop, .exit 0, .stop] (Build []).started).1.quits = 1) := by
  refine ⟨?_, ?_⟩
  · have h := Stop_idempotent.1 (flv.newParser [] (flv.acceptAll [])) ⟨false⟩ 2 rfl rfl
    exact ⟨h.1, h.2.1⟩
  · have h := Stop_idempotent.2.2.2.2.2 (Build []).started [.stop, .exit 0, .stop] rfl rfl
    exact ⟨h.1, h.2.2⟩

theorem runStops_done (n : Nat) (p : Parser) (h : p.closeOnce.done = true) :
    runActs (List.replicate n .stop) p = (p, List.replicate n (.returned none)) := by
  induction n with
  | zero => rfl
  | succ n ih => simp only [List.replicate_succ, runActs, adapterStop_done p h, ih]

/-- C21 fails for the subprocess adapter: on the parser that `Build` returns, whatever the
configuration, the first of any number of `Stop` calls panics instead of returning nil,
because it reads `p.cmd.ProcessState` while `cmd` is still nil; the calls after it return
nil and no quit signal is written. The same holds for the call through the `parser.Parser`
interface that the workers make. -/
theorem Stop_after_Build_panics (cfg : List (String × String)) (n : Nat) :
    (runActs (List.replicate (n + 1) .stop) (Build cfg)).2
      = .panicked :: List.replicate n (.returned none) ∧
    (runActs (List.replicate (n + 1) .stop) (Build cfg)).1.quits = 0 ∧
    (parser.Parser.adapter (Build cfg)).Stop.2 = true := by
  have h1 : (Build cfg).Stop.2 = .panicked := by
    simp [Build, Parser.Stop, gosync.Once.Do, Parser.quit]
  have h2 : (Build cfg).Stop.1.closeOnce.done = true := Stop_uses_once (Build cfg)
  have h3 : (Build cfg).Stop.1.cmdStdIn = none := by
    simp [Build, Parser.Stop, gosync.Once.Do, Parser.quit]
  refine ⟨?_, ?_, ?_⟩
  · simp only [List.replicate_succ, runActs, runStops_done n _ h2, h1]
  · simp only [List.replicate_succ, runActs, runStops_done n _ h2, Parser.quits, h3]
  · simp [parser.Parser.Stop, h1]

end ffmpeg
namespace recorders

open live

/-- C22 fails: `tryRecord` and `parseInfo` drop the error of the cache lookup and assert
the type of the value, so they panic exactly when the cache has no entry for the room,
whatever else it holds; with an empty cache both panic, while `getFields`, which checks
the error, never panics and answers nil. -/
theorem tryRecord_cache_miss_panics :
    (∀ (r : recorder) (url : String) (urls : List String) (cache : gcache.Cache),
      r.tryRecord (.ok (url :: urls)) cache = .panicked ↔
        gomap.get cache r.Live.GetLiveId = none) ∧
    (∀ (cache : gcache.Cache) (l : Live) (room : Except String configs.LiveRoom)
        (listening recording pushing : Bool),
      servers.parseInfo cache l room listening recording pushing = .panicked ↔
        gomap.get cache l.GetLiveId = none) ∧
    (∀ (r : recorder) (cache : gcache.Cache), r.getFields cache ≠ .panicked) ∧
    (NewRecorder (.platform ⟨"X", "u1", 0⟩) 0).tryRecord (.ok ["http://s/a.flv"]) []
      = .panicked ∧
    servers.parseInfo [] (.platform ⟨"X", "u1", 0⟩) (.error "") false false false
      = .panicked ∧
    (NewRecorder (.platform ⟨"X", "u1", 0⟩) 0).getFields [] = .returned none := by
  refine ⟨?_, ?_, ?_, by decide, by decide, by decide⟩
  · intro r url urls cache
    simp only [recorder.tryRecord, gcache.Get]
    cases gomap.get cache r.Live.GetLiveId <;> simp [gcache.assertInfo]
  · intro cache l room a b c
    simp only [servers.parseInfo, gcache.Get]
    cases gomap.get cache l.GetLiveId <;> simp [gcache.assertInfo]
  · intro r cache
    simp only [recorder.getFields, gcache.Get]
    cases gomap.get cache r.Live.GetLiveId <;> simp [gcache.assertInfo]

end recorders
namespace configs

/-- C23: `Verify` returns nil exactly when the receiver is not nil, its RPC section
verifies, `Interval` is positive, `OutPutPath` exists, `MaxDuration` is not strictly
between 0 and one minute, and RPC is enabled or a room is configured; the RPC section
verifies whenever RPC is disabled, whatever `Bind` is, and otherwise exactly when `Bind`
resolves. -/
theorem Verify_spec (c : Option Config) (env : Env) :
    (Config.Verify c env = none ↔
      ∃ cfg, c = some cfg ∧ RPC.verify (some cfg.RPC) env = none ∧ 0 < cfg.Interval ∧
        env.statOk cfg.OutPutPath = true ∧
        ¬ (0 < cfg.VideoSplitStrategies.MaxDuration ∧
            cfg.VideoSplitStrategies.MaxDuration < minute) ∧
        (cfg.RPC.Enable = true ∨ cfg.LiveRooms ≠ [])) ∧
    ((Config.Verify c env).isSome = true ↔ ¬ (Config.Verify c env = none)) ∧
    (∀ r : RPC, r.Enable = false → RPC.verify (some r) env = none) ∧
    (∀ r : RPC, r.Enable = true →
      (RPC.verify (some r) env = none ↔ env.resolves r.Bind = true)) ∧
    RPC.verify none env = none := by
  refine ⟨?_, ?_, ?_, ?_, rfl⟩
  · cases c with
    | none => simp [Config.Verify]
    | some cfg =>
      simp only [Config.Verify, Option.some.injEq, exists_eq_left']
      cases hr : RPC.verify (some cfg.RPC) env with
      | some err => simp
      | none =>
        simp only [true_and]
        split_ifs with h1 h2 h3 h4
        · constructor
          · intro h; cases h
          · intro h; omega
        · constructor
          · intro h; cases h
          · intro h; simp [h.2.1] at h2
        · constructor
          · intro h; cases h
          · intro h; exact absurd h3 h.2.2.1
        · constructor
          · intro h; cases h
          · intro h
            rcases h.2.2.2 with hE | hL
            · simp [hE] at h4
            · exact absurd (List.length_eq_zero.mp h4.2) hL
        · refine ⟨fun _ => ⟨by omega, by simpa using h2, h3, ?_⟩, fun _ => rfl⟩
          by_cases hE : cfg.RPC.Enable = true
          · exact Or.inl hE
          · right
            intro hL
            exact h4 ⟨by simpa using hE, by simp [hL]⟩
  · cases Config.Verify c env <;> simp
  · intro r h
    simp [RPC.verify, h]
  · intro r h
    cases hb : env.resolves r.Bind <;> simp [RPC.verify, h, hb]

/-- C23 on the cases of the package's tests: the disabled RPC section with the bind
address "foo@bar" verifies, and the configuration of the test is accepted on a machine
where its address resolves and its path exists. -/
theorem Verify_spec_witness :
    RPC.verify (some ⟨false, "foo@bar"⟩) anyEnv = none ∧
    Config.Verify (some (configWith [] [])) anyEnv = none :=
  ⟨(Verify_spec none anyEnv).2.2.1 ⟨false, "foo@bar"⟩ rfl,
   (Verify_spec (some (configWith [] [])) anyEnv).1.2
     ⟨configWith [] [], rfl, by decide, by decide, by decide, by decide, by decide⟩⟩

end configs
namespace recorders

open live configs

/-- C24 fails for negative durations: `Verify` rejects a `MaxDuration` only when it lies
strictly between 0 and one minute, so a configuration with one room is accepted exactly
when its `MaxDuration` is at most 0 or at least one minute. With minus one nanosecond the
configuration is accepted, `AddRecorder` takes splitting as enabled and spawns
`cronRestart`, and `cronRestart` run at the very moment the worker started closes it and
registers a fresh worker with a fresh `cronRestart`, instead of waiting for a minute. -/
theorem Verify_accepts_negative_MaxDuration :
    (∀ d : Int, Config.Verify (some (splitting d)) anyEnv = none ↔ (d ≤ 0 ∨ minute ≤ d)) ∧
    Config.Verify (some (splitting (-1))) anyEnv = none ∧
    (splitting (-1)).VideoSplitStrategies.MaxDuration ≠ 0 ∧
    (splitting (-1)).VideoSplitStrategies.MaxDuration < minute ∧
    negativeSplit.MaxDuration = (splitting (-1)).VideoSplitStrategies.MaxDuration ∧
    (negativeSplit.AddRecorder (.platform ⟨"X", "u1", 0⟩)
        ⟨"u1", true, true, true, "", false⟩ watchingX 0).2.2.1.crons = 1 ∧
    restarted
      (negativeSplit.AddRecorder (.platform ⟨"X", "u1", 0⟩)
        ⟨"u1", true, true, true, "", false⟩ watchingX 0).1
      ((negativeSplit.AddRecorder (.platform ⟨"X", "u1", 0⟩)
        ⟨"u1", true, true, true, "", false⟩ watchingX 0).1.cronRestart
          (.platform ⟨"X", "u1", 0⟩) ⟨"u1", true, true, true, "", false⟩ watchingX 0).1
      "X" = true ∧
    ((negativeSplit.AddRecorder (.platform ⟨"X", "u1", 0⟩)
        ⟨"u1", true, true, true, "", false⟩ watchingX 0).1.cronRestart
          (.platform ⟨"X", "u1", 0⟩) ⟨"u1", true, true, true, "", false⟩ watchingX 0).2.2.crons
      = 1 := by
  refine ⟨?_, by decide, by decide, by decide, by decide, by decide, by decide, by decide⟩
  intro d
  simp only [Config.Verify, RPC.verify, splitting, configWith, anyEnv, minute]
  by_cases h : d > 0 ∧ d < 60000000000
  · simp [h]
  · simp [h]; omega

end recorders

namespace flv

theorem inOrder_writtenStart (input out0 out : List Byte) (i : BufferedReader)
    (h : inOrder input out0 out i) : writtenStart input out0 out := by
  obtain ⟨w, h1, h2⟩ := h
  refine ⟨w.length, ?_, ?_⟩
  · rw [h2]; simp only [List.length_append]; omega
  · rw [h1, h2, List.append_assoc, List.take_left' rfl]

theorem writtenStart_part (input out0 w b rest : List Byte) (k : Nat) (hk : k ≤ b.length)
    (hin : input = w ++ b ++ rest) :
    writtenStart input out0 (out0 ++ w ++ b.take k) := by
  refine ⟨w.length + k, ?_, ?_⟩
  · rw [hin]; simp only [List.length_append]; omega
  · rw [hin, List.append_assoc, List.append_assoc, List.take_append,
      List.take_append_of_le_length hk]

theorem doWrite_out (p : Parser) (b : List Byte) :
    ∃ k, k ≤ b.length ∧ (p.doWrite b).1.o.out = p.o.out ++ b.take k ∧
      ((p.doWrite b).2 = none → k = b.length) ∧ (p.doWrite b).1.i = p.i := by
  obtain ⟨hle, hout⟩ := doWriteLoop_out b ioRetryCount p.o b.length (Nat.le_refl _)
  have herr := doWriteLoop_error b ioRetryCount p.o b.length
  have hfst := doWrite_fst p b
  have hsnd := doWrite_snd p b
  refine ⟨b.length - (doWriteLoop b ioRetryCount p.o b.length).2.1, by omega, ?_, ?_, ?_⟩
  · rw [hfst]
    simpa using hout
  · intro hnone
    rw [hsnd] at hnone
    rcases herr with h | h
    · rw [h] at hnone
      simp only at hnone
      split at hnone
      · cases hnone
      · rename_i h0
        have : (doWriteLoop b ioRetryCount p.o b.length).2.1 = 0 := by
          simpa using h0
        omega
    · rw [h] at hnone; cases hnone
  · rw [hfst]

theorem doCopy_out (p : Parser) (n : Nat) :
    ∃ k, k ≤ (p.i.rest.take n).length ∧
      (p.doCopy n).1.o.out = p.o.out ++ (p.i.rest.take n).take k ∧
      ((p.doCopy n).2 = none →
        k = (p.i.rest.take n).length ∧
        (p.doCopy n).1.i = { p.i with rest := p.i.rest.drop n }) := by
  obtain ⟨k, c, hk, hc, hc2, e1, e2, e3, e4, _⟩ :=
    copyLoop_spec (copySize n) (copySize_pos n) (p.i.rest.length + 1) p.o p.i n 0
      (Nat.lt_succ_self _)
  have hlen : (p.i.rest.take n).length = min n p.i.rest.length := List.length_take _ _
  have hkn : k ≤ n := Nat.le_trans hk hc
  refine ⟨k, by omega, ?_, ?_⟩
  · have : (p.doCopy n).1.o.out
        = (copyLoop (copySize n) (p.i.rest.length + 1) p.o p.i n 0).1.out := by
      simp only [Parser.doCopy, CopyN]
      split_ifs <;> rfl
    rw [this, e1, List.take_take, Nat.min_eq_left hkn]
  · intro hnone
    have hw : (copyLoop (copySize n) (p.i.rest.length + 1) p.o p.i n 0).2.2.1 = n := by
      by_contra h1
      simp only [Parser.doCopy, CopyN, h1, if_false] at hnone
      by_cases h2 : (copyLoop (copySize n) (p.i.rest.length + 1) p.o p.i n 0).2.2.1 < n ∧
          (copyLoop (copySize n) (p.i.rest.length + 1) p.o p.i n 0).2.2.2 = none
      · rw [if_pos h2] at hnone
        cases hnone
      · rw [if_neg h2] at hnone
        apply h2
        refine ⟨?_, hnone⟩
        rw [e3] at h1 ⊢
        omega
    rw [e3] at hw
    have hkc : k = n := by omega
    have hcn : c = n := by omega
    refine ⟨by omega, ?_⟩
    have : (p.doCopy n).1.i
        = (copyLoop (copySize n) (p.i.rest.length + 1) p.o p.i n 0).2.1 := by
      simp only [Parser.doCopy, CopyN]
      split_ifs <;> rfl
    rw [this, e2, hcn]

theorem ReadByte_inOrder (input out0 out : List Byte) (i : BufferedReader)
    (h : inOrder input out0 out i) :
    inOrder input out0 out i.ReadByte.1 ∧ i.ReadByte.1.rest.length ≤ i.rest.length := by
  obtain ⟨rest, buf⟩ := i
  obtain ⟨w, h1, h2⟩ := h
  cases rest with
  | nil => exact ⟨⟨w, h1, h2⟩, Nat.le_refl _⟩
  | cons b rest =>
    refine ⟨⟨w, h1, ?_⟩, ?_⟩
    · simp only [BufferedReader.ReadByte] at h2 ⊢
      rw [h2]; simp
    · simp [BufferedReader.ReadByte]

theorem ReadN_inOrder (input out0 out : List Byte) (i : BufferedReader) (n : Nat)
    (h : inOrder input out0 out i) :
    inOrder input out0 out (i.ReadN n).1 ∧ (i.ReadN n).1.rest.length ≤ i.rest.length ∧
      (∀ b, (i.ReadN n).2 = .ok b → (i.ReadN n).1.rest.length + n = i.rest.length) := by
  obtain ⟨rest, buf⟩ := i
  obtain ⟨w, h1, h2⟩ := h
  by_cases hn : n ≤ rest.length
  · simp only [BufferedReader.ReadN, hn, if_true]
    refine ⟨⟨w, h1, ?_⟩, ?_, ?_⟩
    · simp only at h2 ⊢
      rw [h2]; simp
    · simp
    · intro _ _; simp only [List.length_drop]; omega
  · simp only [BufferedReader.ReadN, hn, if_false]
    refine ⟨⟨w, h1, ?_⟩, ?_, ?_⟩
    · simp only at h2 ⊢
      rw [h2]; simp
    · simp
    · intro b hb; cases hb

theorem forward_stepOk (input out0 : List Byte) (p : Parser) (l : Nat)
    (h : inOrder input out0 p.o.out p.i) :
    stepOk input out0 p.i.rest.length (p.forward l) := by
  obtain ⟨w, h1, h2⟩ := h
  obtain ⟨k, hk, hout, hall, hi⟩ := doWrite_out p p.i.buf
  rcases hw : p.doWrite p.i.buf with ⟨p1, _ | e⟩
  · rw [hw] at hout hall hi
    have hk1 : k = p.i.buf.length := hall rfl
    have hout1 : p1.o.out = p.o.out ++ p.i.buf := by
      have h3 : p1.o.out = p.o.out ++ p.i.buf.take k := hout
      rw [h3, hk1, List.take_of_length_le (Nat.le_refl _)]
    have hi1 : p1.i = p.i := hi
    have hres : p.forward l = ({ p1 with i := p1.i.Reset }).doCopy l := by
      simp only [Parser.forward, BufferedReader.AllBytes, hw]
    have hqo : ({ p1 with i := p1.i.Reset } : Parser).o = p1.o := rfl
    have hqi : ({ p1 with i := p1.i.Reset } : Parser).i = ⟨p.i.rest, []⟩ := by
      simp [BufferedReader.Reset, hi1]
    rw [hres]
    generalize ({ p1 with i := p1.i.Reset } : Parser) = q at hqo hqi
    obtain ⟨k2, hk2, hout2, hall2⟩ := doCopy_out q l
    rw [hqi] at hk2 hout2 hall2
    rw [hqo] at hout2
    simp only at hk2 hout2 hall2
    have hsplit : input = (w ++ p.i.buf) ++ List.take l p.i.rest ++ List.drop l p.i.rest := by
      rw [h2, List.append_assoc (w ++ p.i.buf), List.take_append_drop]
    refine ⟨?_, ?_⟩
    · rw [hout2, hout1, h1]
      have := writtenStart_part input out0 (w ++ p.i.buf) (List.take l p.i.rest)
        (List.drop l p.i.rest) k2 hk2 hsplit
      simpa [List.append_assoc] using this
    · intro hnone
      obtain ⟨hk3, hi2⟩ := hall2 hnone
      refine ⟨⟨w ++ p.i.buf ++ List.take l p.i.rest, ?_, ?_⟩, ?_, ?_⟩
      · rw [hout2, hout1, h1, hk3, List.take_of_length_le (Nat.le_refl _)]
        simp [List.append_assoc]
      · rw [hi2]
        simpa using hsplit
      · rw [hi2]
      · rw [hi2]
        simp
  · rw [hw] at hout hi
    have hout1 : p1.o.out = p.o.out ++ p.i.buf.take k := hout
    have hres : p.forward l = (p1, some e) := by
      simp only [Parser.forward, BufferedReader.AllBytes, hw]
    rw [hres]
    refine ⟨?_, fun h => by cases h⟩
    show writtenStart input out0 p1.o.out
    rw [hout1, h1]
    exact writtenStart_part input out0 w p.i.buf p.i.rest k hk h2

theorem stepOk_mono (input out0 : List Byte) (m n : Nat) (r : Parser × Option Error)
    (h : stepOk input out0 m r) (hmn : m ≤ n) : stepOk input out0 n r :=
  ⟨h.1, fun hr => ⟨(h.2 hr).1, (h.2 hr).2.1, Nat.le_trans (h.2 hr).2.2 hmn⟩⟩

theorem tagOk_of_stepOk {τ : Type} (input out0 : List Byte) (m : Nat) (tag : τ)
    (x : Parser × Option Error) :
    stepOk input out0 m x →
    tagOk input out0 m
      (match x with
        | (p, some e) => (p, Except.error e)
        | (p, none) => (p, Except.ok tag)) := by
  intro h
  obtain ⟨p, _ | e⟩ := x
  · exact ⟨h.1, fun _ _ => h.2 rfl⟩
  · exact ⟨h.1, fun _ ht => by cases ht⟩

theorem stepOk_of_tagOk {τ : Type} (input out0 : List Byte) (m : Nat)
    (x : Parser × Except Error τ) :
    tagOk input out0 m x →
    stepOk input out0 m
      (match x with
        | (p, .error e) => (p, some e)
        | (p, .ok _) => (p, none)) := by
  intro h
  obtain ⟨p, e | t⟩ := x
  · exact ⟨h.1, fun ht => by cases ht⟩
  · exact ⟨h.1, fun _ => h.2 t rfl⟩

theorem tagOk_error {τ : Type} (input out0 : List Byte) (m : Nat) (p : Parser) (e : Error)
    (h : writtenStart input out0 p.o.out) :
    tagOk input out0 m ((p, Except.error e) : Parser × Except Error τ) :=
  ⟨h, fun _ ht => by cases ht⟩

theorem parseAudioTag_tagOk (input out0 : List Byte) (p : Parser) (length ts : Nat)
    (h : inOrder input out0 p.o.out p.i) :
    tagOk input out0 p.i.rest.length (p.parseAudioTag length ts) := by
  have hr := ReadByte_inOrder input out0 p.o.out p.i h
  simp only [Parser.parseAudioTag]
  rcases hb : p.i.ReadByte with ⟨i1, e | b⟩
  · rw [hb] at hr
    exact tagOk_error input out0 _ _ e (inOrder_writtenStart _ _ _ i1 hr.1)
  · rw [hb] at hr
    simp only
    split
    · have hr2 := ReadByte_inOrder input out0 p.o.out i1 hr.1
      rcases hb2 : i1.ReadByte with ⟨i2, e | b2⟩
      · rw [hb2] at hr2
        exact tagOk_error input out0 _ _ e (inOrder_writtenStart _ _ _ i2 hr2.1)
      · rw [hb2] at hr2
        exact tagOk_of_stepOk input out0 _ _ _
          (stepOk_mono input out0 _ _ _ (forward_stepOk input out0 _ _ hr2.1)
            (Nat.le_trans hr2.2 hr.2))
    · exact tagOk_of_stepOk input out0 _ _ _
        (stepOk_mono input out0 _ _ _ (forward_stepOk input out0 _ _ hr.1) hr.2)

theorem parseVideoTag_tagOk (input out0 : List Byte) (p : Parser) (length ts : Nat)
    (h : inOrder input out0 p.o.out p.i) :
    tagOk input out0 p.i.rest.length (p.parseVideoTag length ts) := by
  have hr := ReadByte_inOrder input out0 p.o.out p.i h
  simp only [Parser.parseVideoTag]
  rcases hb : p.i.ReadByte with ⟨i1, e | b⟩
  · rw [hb] at hr
    exact tagOk_error input out0 _ _ e (inOrder_writtenStart _ _ _ i1 hr.1)
  · rw [hb] at hr
    simp only
    split
    · have hr2 := ReadByte_inOrder input out0 p.o.out i1 hr.1
      rcases hb2 : i1.ReadByte with ⟨i2, e | b2⟩
      · rw [hb2] at hr2
        exact tagOk_error input out0 _ _ e (inOrder_writtenStart _ _ _ i2 hr2.1)
      · rw [hb2] at hr2
        simp only
        split
        · have hr3 := ReadN_inOrder input out0 p.o.out i2 3 hr2.1
          rcases hb3 : i2.ReadN 3 with ⟨i3, e | c⟩
          · rw [hb3] at hr3
            exact tagOk_error input out0 _ _ e (inOrder_writtenStart _ _ _ i3 hr3.1)
          · rw [hb3] at hr3
            exact tagOk_of_stepOk input out0 _ _ _
              (stepOk_mono input out0 _ _ _ (forward_stepOk input out0 _ _ hr3.1)
                (Nat.le_trans hr3.2.1 (Nat.le_trans hr2.2 hr.2)))
        · split
          · split
            · exact tagOk_error input out0 _ _ _ (inOrder_writtenStart _ _ _ i2 hr2.1)
            · exact tagOk_of_stepOk input out0 _ _ _
                (stepOk_mono input out0 _ _ _ (forward_stepOk input out0 _ _ hr2.1)
                  (Nat.le_trans hr2.2 hr.2))
          · exact tagOk_of_stepOk input out0 _ _ _
              (stepOk_mono input out0 _ _ _ (forward_stepOk input out0 _ _ hr2.1)
                (Nat.le_trans hr2.2 hr.2))
    · exact tagOk_of_stepOk input out0 _ _ _
        (stepOk_mono input out0 _ _ _ (forward_stepOk input out0 _ _ hr.1) hr.2)

theorem parseAudioTag_result (input out0 : List Byte) (p : Parser) (length ts : Nat)
    (r : Parser × Except Error AudioTagHeader) (hr : p.parseAudioTag length ts = r)
    (h : inOrder input out0 p.o.out p.i) : tagOk input out0 p.i.rest.length r :=
  hr ▸ parseAudioTag_tagOk input out0 p length ts h

theorem parseVideoTag_result (input out0 : List Byte) (p : Parser) (length ts : Nat)
    (r : Parser × Except Error VideoTagHeader) (hr : p.parseVideoTag length ts = r)
    (h : inOrder input out0 p.o.out p.i) : tagOk input out0 p.i.rest.length r :=
  hr ▸ parseVideoTag_tagOk input out0 p length ts h

theorem forward_result (input out0 : List Byte) (p : Parser) (l : Nat)
    (r : Parser × Option Error) (hr : p.forward l = r)
    (h : inOrder input out0 p.o.out p.i) : stepOk input out0 p.i.rest.length r :=
  hr ▸ forward_stepOk input out0 p l h

theorem parseTag_stepOk (input out0 : List Byte) (p : Parser)
    (h : inOrder input out0 p.o.out p.i) :
    writtenStart input out0 p.parseTag.1.o.out ∧
    (p.parseTag.2 = none →
      inOrder input out0 p.parseTag.1.o.out p.parseTag.1.i ∧ p.parseTag.1.i.buf = [] ∧
      p.parseTag.1.i.rest.length + 15 ≤ p.i.rest.length) := by
  have hr := ReadN_inOrder input out0 p.o.out p.i 15 h
  have key : ∀ (m : Nat) (r : Parser × Option Error), stepOk input out0 m r →
      m + 15 = p.i.rest.length →
      writtenStart input out0 r.1.o.out ∧
      (r.2 = none → inOrder input out0 r.1.o.out r.1.i ∧ r.1.i.buf = [] ∧
        r.1.i.rest.length + 15 ≤ p.i.rest.length) := by
    intro m r hs hm
    refine ⟨hs.1, fun hn => ⟨(hs.2 hn).1, (hs.2 hn).2.1, ?_⟩⟩
    have := (hs.2 hn).2.2
    omega
  simp only [Parser.parseTag]
  rcases hb : p.i.ReadN 15 with ⟨i1, e | b⟩
  · rw [hb] at hr
    exact ⟨inOrder_writtenStart _ _ _ i1 hr.1, fun hn => by cases hn⟩
  · rw [hb] at hr
    have hlen := hr.2.2 b rfl
    simp only
    split
    · split
      · rename_i p2 e heq
        have ha := parseAudioTag_result input out0 _ _ _ _ heq hr.1
        exact ⟨ha.1, fun hn => by cases hn⟩
      · rename_i p2 t heq
        have ha := parseAudioTag_result input out0 _ _ _ _ heq hr.1
        exact key i1.rest.length (p2, none) ⟨ha.1, fun _ => ha.2 t rfl⟩ hlen
    · split
      · split
        · rename_i p2 e heq
          have ha := parseVideoTag_result input out0 _ _ _ _ heq hr.1
          exact ⟨ha.1, fun hn => by cases hn⟩
        · rename_i p2 t heq
          have ha := parseVideoTag_result input out0 _ _ _ _ heq hr.1
          exact key i1.rest.length (p2, none) ⟨ha.1, fun _ => ha.2 t rfl⟩ hlen
      · split
        · exact key i1.rest.length _ (forward_result input out0 _ _ _ rfl hr.1) hlen
        · exact ⟨inOrder_writtenStart _ _ _ i1 hr.1, fun hn => by cases hn⟩

theorem parseHeader_stepOk (input out0 : List Byte) (p : Parser)
    (h : inOrder input out0 p.o.out p.i) :
    stepOk input out0 p.i.rest.length p.parseHeader := by
  have hr := ReadN_inOrder input out0 p.o.out p.i 9 h
  simp only [Parser.parseHeader]
  rcases hb : p.i.ReadN 9 with ⟨i1, e | b⟩
  · rw [hb] at hr
    exact ⟨inOrder_writtenStart _ _ _ i1 hr.1, fun hn => by cases hn⟩
  · rw [hb] at hr
    simp only
    split
    · exact ⟨inOrder_writtenStart _ _ _ i1 hr.1, fun hn => by cases hn⟩
    · split
      · exact ⟨inOrder_writtenStart _ _ _ i1 hr.1, fun hn => by cases hn⟩
      · obtain ⟨w, h1, h2⟩ := hr.1
        simp only [BufferedReader.AllBytes]
        generalize hq : ({ Metadata := _, i := i1, o := p.o, avcHeaderCount := p.avcHeaderCount, tagCount := p.tagCount, stopClosed := p.stopClosed } : Parser) = q
        have hqo : q.o = p.o := by rw [← hq]
        have hqi : q.i = i1 := by rw [← hq]
        obtain ⟨k, hk, hout, hall, hi⟩ := doWrite_out q i1.buf
        rcases hw : q.doWrite i1.buf with ⟨p3, _ | e⟩
        · rw [hw] at hout hall hi
          have hk1 : k = i1.buf.length := hall rfl
          have hout1 : p3.o.out = q.o.out ++ i1.buf.take k := hout
          have hi1 : p3.i = q.i := hi
          rw [hk1, List.take_of_length_le (Nat.le_refl _), hqo, h1] at hout1
          rw [hqi] at hi1
          refine ⟨⟨(w ++ i1.buf).length, ?_, ?_⟩, fun _ => ⟨⟨w ++ i1.buf, ?_, ?_⟩, ?_, ?_⟩⟩
          · rw [h2]; simp only [List.length_append]; omega
          · show p3.o.out = _
            rw [hout1, h2, List.take_left' rfl, List.append_assoc]
          · show p3.o.out = _
            rw [hout1, List.append_assoc]
          · show input = w ++ i1.buf ++ p3.i.Reset.buf ++ p3.i.Reset.rest
            rw [h2, hi1]; simp [BufferedReader.Reset]
          · rfl
          · show p3.i.Reset.rest.length ≤ _
            rw [hi1]; exact hr.2.1
        · rw [hw] at hout
          have hout1 : p3.o.out = q.o.out ++ i1.buf.take k := hout
          refine ⟨?_, fun hn => by cases hn⟩
          show writtenStart input out0 p3.o.out
          rw [hout1, hqo, h1]
          exact writtenStart_part input out0 w i1.buf i1.rest k hk h2

theorem parseTags_writtenStart (input out0 : List Byte) (stop : Nat → Bool) :
    ∀ (fuel k : Nat) (p : Parser), inOrder input out0 p.o.out p.i →
      (∀ r, parseTags stop fuel k p = some r → writtenStart input out0 r.1.o.out) ∧
      (p.i.rest.length < fuel → (parseTags stop fuel k p).isSome = true) := by
  intro fuel
  induction fuel with
  | zero =>
    intro k p _
    exact ⟨fun r hr => by simp [parseTags] at hr, fun hlt => by omega⟩
  | succ fuel ih =>
    intro k p h
    have hstep := parseTag_stepOk input out0 p h
    simp only [parseTags]
    cases hs : stop k with
    | true =>
      simp only [if_true]
      refine ⟨fun r hr => ?_, fun _ => rfl⟩
      cases hr
      exact inOrder_writtenStart _ _ _ _ h
    | false =>
      simp only [Bool.false_eq_true, if_false]
      rcases hp : p.parseTag with ⟨p1, _ | e⟩
      · rw [hp] at hstep
        obtain ⟨hin, _, hlen⟩ := hstep.2 rfl
        obtain ⟨ih1, ih2⟩ := ih (k + 1) p1 hin
        simp only
        refine ⟨ih1, fun hlt => ih2 ?_⟩
        have hlen' : p1.i.rest.length + 15 ≤ p.i.rest.length := hlen
        omega
      · rw [hp] at hstep
        simp only
        refine ⟨fun r hr => ?_, fun _ => rfl⟩
        cases hr
        exact hstep.1

/-- C25: for every input, every destination and every schedule of stop requests, whenever
`doParse` returns (at the end of the input, on a parse error, on a write error or on a
stop request) the destination holds, after what it held before, the first `k` bytes of
the input for some `k`; and `doParse` does return, within as many rounds as the input has
bytes. -/
theorem doParse_writes_input_start (input : List Byte) (o : Writer) (stop : Nat → Bool) :
    (∀ fuel r, (newParser input o).doParse stop fuel = some r →
      ∃ k, k ≤ input.length ∧ r.1.o.out = o.out ++ input.take k) ∧
    (∀ fuel, input.length < fuel →
      ((newParser input o).doParse stop fuel).isSome = true) := by
  have h0 : inOrder input o.out (newParser input o).o.out (newParser input o).i :=
    ⟨[], by simp [newParser], by simp [newParser]⟩
  have hh := parseHeader_stepOk input o.out (newParser input o) h0
  have hlen0 : (newParser input o).i.rest.length = input.length := rfl
  rw [hlen0] at hh
  simp only [Parser.doParse]
  rcases hp : (newParser input o).parseHeader with ⟨p1, _ | e⟩
  · rw [hp] at hh
    obtain ⟨hin, _, hle⟩ := hh.2 rfl
    have hle1 : p1.i.rest.length ≤ input.length := hle
    simp only
    refine ⟨fun fuel r hr => ?_, fun fuel hlt => ?_⟩
    · exact (parseTags_writtenStart input o.out stop fuel 0 p1 hin).1 r hr
    · exact (parseTags_writtenStart input o.out stop fuel 0 p1 hin).2 (by omega)
  · rw [hp] at hh
    simp only
    refine ⟨fun fuel r hr => ?_, fun _ _ => rfl⟩
    cases hr
    exact hh.1

/-- Witness for C25: with the first destination the header and the 17 header bytes of the
audio tag reach the destination, the second of them after a short write, then the write of
the payload fails; the destination holds the first 26 bytes of the input. With the second
destination the write of the payload takes the byte offered and reports an error:
`io.CopyN` has copied the count asked for and returns nil, the parser goes on to the next
tag and stops at its unknown type with the first 27 bytes of the input written. -/
theorem doParse_writes_input_start_witness :
    (((newParser exampleStream exampleFailingWriter).doParse (fun _ => false) 43).isSome = true ∧
      ∃ k, k ≤ exampleStream.length ∧
        exampleStream.take 26 = exampleFailingWriter.out ++ exampleStream.take k) ∧
    (((newParser exampleStream exampleReportingWriter).doParse (fun _ => false) 43).isSome
        = true ∧
      ∃ k, k ≤ exampleStream.length ∧
        exampleStream.take 27 = exampleReportingWriter.out ++ exampleStream.take k) :=
  ⟨⟨(doParse_writes_input_start exampleStream exampleFailingWriter (fun _ => false)).2 43
      (by decide),
    (doParse_writes_input_start exampleStream exampleFailingWriter (fun _ => false)).1 43
      (⟨⟨true, true⟩, ⟨exampleUnknownHeader, []⟩, ⟨exampleStream.take 26, []⟩, 0, 1, 0⟩,
        some .writeFailed)
      (by decide)⟩,
   ⟨(doParse_writes_input_start exampleStream exampleReportingWriter (fun _ => false)).2 43
      (by decide),
    (doParse_writes_input_start exampleStream exampleReportingWriter (fun _ => false)).1 43
      (⟨⟨true, true⟩, ⟨[], exampleUnknownHeader⟩, ⟨exampleStream.take 27, []⟩, 0, 2, 0⟩,
        some .ErrUnknownTag)
      (by decide)⟩⟩

end flv
namespace flv

/-- C26 fails when the declared length is smaller than the sub-header: the count handed to
`doCopy` is computed on `uint32` and wraps. For an MP3 audio tag the count is
`length - 1` for every declared length, which is 4294967295 for the declared length 0; for
an AVC NAL unit it is `length - 5`, which is 4294967295 for the declared length 4. On a tag
that declares no payload the parser therefore copies the three bytes behind the
sub-header, and a whole video tag that follows is copied as payload without being parsed,
until the input ends. -/
theorem copy_length_wraps :
    (∀ (md : Metadata) (rest buf : List Byte) (o : Writer) (a tc sc length ts : Nat),
      (Parser.parseAudioTag ⟨md, ⟨0x2F :: rest, buf⟩, o, a, tc, sc⟩ length ts).1 =
        (Parser.forward ⟨md, ⟨rest, buf ++ [0x2F]⟩, o, a, tc, sc⟩ (sub32 length 1)).1) ∧
    (∀ (md : Metadata) (c0 c1 c2 : Byte) (rest buf : List Byte) (o : Writer)
        (a tc sc length ts : Nat),
      (Parser.parseVideoTag ⟨md, ⟨0x17 :: 1 :: c0 :: c1 :: c2 :: rest, buf⟩, o, a, tc, sc⟩
          length ts).1 =
        (Parser.forward ⟨md, ⟨rest, buf ++ [0x17] ++ [1] ++ [c0, c1, c2]⟩, o, a, tc, sc⟩
          (sub32 (sub32 (sub32 length 1) 1) 3)).1) ∧
    sub32 0 1 = 4294967295 ∧
    sub32 (sub32 (sub32 4 1) 1) 3 = 4294967295 ∧
    declaredLength exampleZeroLengthTag = 0 ∧
    ((newParser exampleZeroLengthTag (acceptAll [])).parseTag).1.o.out
      = exampleZeroLengthTag ∧
    ((newParser exampleZeroLengthTag (acceptAll [])).parseTag).2 = some .EOF ∧
    ((newParser (exampleZeroLengthTag.take 16 ++ exampleVideoTag) (acceptAll [])).parseTag).1.o.out
      = exampleZeroLengthTag.take 16 ++ exampleVideoTag ∧
    ((newParser (exampleZeroLengthTag.take 16 ++ exampleVideoTag) (acceptAll [])).parseTag).1.i.rest
      = [] := by
  refine ⟨?_, ?_, by decide, by decide, by decide, by decide, by decide, by decide, by decide⟩
  · intro md rest buf o a tc sc length ts
    simp only [Parser.parseAudioTag, BufferedReader.ReadByte]
    have h : ((47 : Byte).val >>> 4) &&& 15 ≠ AAC := by decide
    simp only [Fin.isValue] at h ⊢
    rw [if_neg h]
    split <;> (rename_i heq; exact (congrArg Prod.fst heq).symm)
  · intro md c0 c1 c2 rest buf o a tc sc length ts
    simp only [Parser.parseVideoTag, BufferedReader.ReadByte, BufferedReader.ReadN]
    have h1 : ((23 : Byte).val) &&& 15 = AVCCode := by decide
    have h2 : ((1 : Byte).val) = AVCNALU := by decide
    simp only [Fin.isValue] at h1 h2 ⊢
    simp only [h1, h2, if_true, List.length_cons, Nat.le_add_left]
    split <;> (rename_i heq; exact (congrArg Prod.fst heq).symm)

end flv

namespace ffmpeg

/-- C27 fails: on the parser that `Build` returns, whatever the configuration, `cmd` is
nil and `Stop` panics when it reads `p.cmd.ProcessState`. The panic leaves `closeOnce`
used, so a `Stop` that comes after `ParseLiveStream` has started the process returns nil
without writing the quit signal. -/
theorem Stop_before_process_panics (cfg : List (String × String)) :
    (Build cfg).cmd = none ∧
    (Build cfg).Stop.2 = .panicked ∧
    (Build cfg).Stop.1.closeOnce.done = true ∧
    (Build cfg).Stop.1.started.Stop.2 = .returned none ∧
    (Build cfg).Stop.1.started.Stop.1.quits = 0 ∧
    (Build cfg).started.Stop.1.quits = 1 := by
  simp [Build, Parser.Stop, gosync.Once.Do, Parser.quit, Parser.started, Parser.quits]

end ffmpeg
namespace pushers

open live

/-- C28 fails: with a stream URL at hand `tryPush` returns early only for a room whose
push is disabled and whose RTMP target is not empty; for every other room, so also with
push disabled or with an empty target, it builds a parser and runs `ParseLiveStream`
towards `room.Rtmp`. A room with push disabled and no target gets a session towards the
empty destination, and so does a room with push enabled and no target. -/
theorem tryPush_guard :
    (∀ (r : pusher) (url : String) (urls : List String) (room : configs.LiveRoom),
      ((r.tryPush (.ok (url :: urls)) (some room)).2
          = .returned { slept := false, built := 0, sessions := [] } ↔
        (room.Push = false ∧ room.Rtmp ≠ "")) ∧
      ((r.tryPush (.ok (url :: urls)) (some room)).2
          = .returned { slept := false, built := 1, sessions := [(url, room.Rtmp)] } ↔
        (room.Push = true ∨ room.Rtmp = ""))) ∧
    ((NewPusher (.platform ⟨"X", "u1", 0⟩) 0).tryPush (.ok ["http://s/a.flv"])
        (some ⟨"u1", true, true, false, "", false⟩)).2
      = .returned { slept := false, built := 1, sessions := [("http://s/a.flv", "")] } ∧
    ((NewPusher (.platform ⟨"X", "u1", 0⟩) 0).tryPush (.ok ["http://s/a.flv"])
        (some ⟨"u1", true, true, false, "", true⟩)).2
      = .returned { slept := false, built := 1, sessions := [("http://s/a.flv", "")] } ∧
    ((NewPusher (.platform ⟨"X", "u1", 0⟩) 0).tryPush (.ok ["http://s/a.flv"])
        (some ⟨"u1", true, true, false, "rtmp://t/live", false⟩)).2
      = .returned { slept := false, built := 0, sessions := [] } := by
  refine ⟨?_, by decide, by decide, by decide⟩
  intro r url urls room
  cases hp : room.Push <;> by_cases hr : room.Rtmp = "" <;>
    simp [pusher.tryPush, hp, hr]

end pushers
namespace configs

theorem refreshLoop_absent (rooms : List LiveRoom) (url : String) :
    ∀ (k : Nat) (m : List (String × Int)), (∀ room ∈ rooms, room.Url ≠ url) →
      gomap.get (refreshLoop rooms k m) url = gomap.get m url := by
  induction rooms with
  | nil => intro k m _; rfl
  | cons r rest ih =>
    intro k m h
    simp only [refreshLoop]
    rw [ih (k + 1) _ (fun room hr => h room (List.mem_cons_of_mem _ hr))]
    exact gomap.get_set_other m r.Url url _ (fun e => h r (List.mem_cons_self _ _) e.symm)

theorem refreshLoop_present (rooms : List LiveRoom) (url : String) :
    ∀ (k : Nat) (m : List (String × Int)), (∃ room ∈ rooms, room.Url = url) →
      ∃ j room, rooms[j]? = some room ∧ room.Url = url ∧
        gomap.get (refreshLoop rooms k m) url = some ((k + j : Nat) : Int) ∧
        ∀ j1 room1, j < j1 → rooms[j1]? = some room1 → room1.Url ≠ url := by
  induction rooms with
  | nil => intro k m h; obtain ⟨_, hm, _⟩ := h; cases hm
  | cons r rest ih =>
    intro k m h
    by_cases hrest : ∃ room ∈ rest, room.Url = url
    · obtain ⟨j, room, hj, hu, hg, hlast⟩ := ih (k + 1) (gomap.set m r.Url k) hrest
      refine ⟨j + 1, room, by simpa using hj, hu, ?_, ?_⟩
      · simp only [refreshLoop]
        rw [hg]
        congr 2
        omega
      · intro j1 room1 hlt hget
        cases j1 with
        | zero => omega
        | succ j1 => exact hlast j1 room1 (by omega) (by simpa using hget)
    · have hr : r.Url = url := by
        obtain ⟨room, hm, hu⟩ := h
        rcases List.mem_cons.1 hm with e | e
        · rw [← e]; exact hu
        · exact absurd ⟨room, e, hu⟩ hrest
      refine ⟨0, r, by simp, hr, ?_, ?_⟩
      · simp only [refreshLoop]
        rw [refreshLoop_absent rest url (k + 1) _ (fun room hm hu => hrest ⟨room, hm, hu⟩)]
        rw [← hr]
        simp [gomap.get_set_self]
      · intro j1 room1 hlt hget
        cases j1 with
        | zero => omega
        | succ j1 =>
          intro hu
          exact hrest ⟨room1, List.getElem?_mem (by simpa using hget), hu⟩

theorem indexIsRoom_true (c : Config) (index : Int) (url : String)
    (h : c.indexIsRoom index url = true) :
    0 ≤ index ∧ ∃ room, c.LiveRooms[index.toNat]? = some room ∧ room.Url = url := by
  simp only [Config.indexIsRoom, Bool.and_eq_true, decide_eq_true_eq, List.get?_eq_getElem?] at h
  obtain ⟨⟨h0, _⟩, h2⟩ := h
  refine ⟨h0, ?_⟩
  cases hg : c.LiveRooms[index.toNat]? with
  | none => rw [hg] at h2; cases h2
  | some room =>
    rw [hg] at h2
    exact ⟨room, rfl, by simpa using h2⟩

theorem indexIsRoom_of_room (c : Config) (j : Nat) (room : LiveRoom) (url : String)
    (hj : c.LiveRooms[j]? = some room) (hu : room.Url = url) :
    c.indexIsRoom (j : Int) url = true := by
  have hlt : j < c.LiveRooms.length := by
    rcases Nat.lt_or_ge j c.LiveRooms.length with h | h
    · exact h
    · rw [List.getElem?_eq_none h] at hj; cases hj
  simp only [Config.indexIsRoom, Bool.and_eq_true, decide_eq_true_eq, List.get?_eq_getElem?,
    Int.toNat_ofNat, hj, hu]
  exact ⟨⟨Int.ofNat_nonneg j, by exact_mod_cast hlt⟩, trivial⟩

theorem indexIsRoom_refresh (c : Config) (index : Int) (url : String) :
    c.RefreshLiveRoomIndexCache.indexIsRoom index url = c.indexIsRoom index url := rfl

theorem getImpl_ok (c : Config) (url : String) (j : Nat)
    (h : c.getLiveRoomByUrlImpl url = .ok j) :
    ∃ room, c.LiveRooms[j]? = some room ∧ room.Url = url := by
  simp only [Config.getLiveRoomByUrlImpl] at h
  split at h
  · rename_i index hidx
    split at h
    · rename_i hroom
      cases h
      exact (indexIsRoom_true c index url hroom).2
    · cases h
  · cases h

/-- After a refresh the lookup in the index cache of a url that some room has gives the
index of the last room with that url; for a url that no room has it gives what the cache
held before. -/
theorem refreshed_lookup (c : Config) (url : String) :
    ((∃ room ∈ c.LiveRooms, room.Url = url) →
      ∃ (j : Nat) (room : LiveRoom), c.LiveRooms[j]? = some room ∧ room.Url = url ∧
        gomap.get c.RefreshLiveRoomIndexCache.liveRoomIndexCache url = some (j : Int) ∧
        ∀ j1 room1, j < j1 → c.LiveRooms[j1]? = some room1 → room1.Url ≠ url) ∧
    ((∀ room ∈ c.LiveRooms, room.Url ≠ url) →
      gomap.get c.RefreshLiveRoomIndexCache.liveRoomIndexCache url
        = gomap.get c.liveRoomIndexCache url) := by
  constructor
  · intro h
    obtain ⟨j, room, hj, hu, hg, hlast⟩ :=
      refreshLoop_present c.LiveRooms url 0 c.liveRoomIndexCache h
    refine ⟨j, room, hj, hu, ?_, hlast⟩
    simp only [Config.RefreshLiveRoomIndexCache]
    rw [hg]
    simp
  · intro h
    exact refreshLoop_absent c.LiveRooms url 0 c.liveRoomIndexCache h

theorem getImpl_absent (c : Config) (url : String) (h : ∀ room ∈ c.LiveRooms, room.Url ≠ url) :
    c.getLiveRoomByUrlImpl url = .error ("房间 " ++ url ++ " 不存在") := by
  simp only [Config.getLiveRoomByUrlImpl]
  split
  · rename_i index hidx
    split
    · rename_i hroom
      obtain ⟨_, room, hr, hu⟩ := indexIsRoom_true c index url hroom
      exact absurd hu (h room (List.getElem?_mem hr))
    · rfl
  · rfl

theorem getImpl_refreshed (c : Config) (url : String)
    (h : ∃ room ∈ c.LiveRooms, room.Url = url) :
    ∃ j, c.RefreshLiveRoomIndexCache.getLiveRoomByUrlImpl url = .ok j := by
  obtain ⟨j, room, hj, hu, hg, _⟩ := (refreshed_lookup c url).1 h
  refine ⟨j, ?_⟩
  simp only [Config.getLiveRoomByUrlImpl, hg, indexIsRoom_refresh,
    indexIsRoom_of_room c j room url hj hu, if_true, Int.toNat_ofNat]

/-- C29: whatever the index cache holds, `GetLiveRoomByUrl` returns an error exactly when
no room of `LiveRooms` has the url, and otherwise the pointer it returns is that of a room
of `LiveRooms` whose `Url` is the url; `LiveRooms` is left as it is. -/
theorem GetLiveRoomByUrl_spec (c : Config) (url : String) :
    ((∃ err, (c.GetLiveRoomByUrl url).2 = .error err) ↔
      ∀ room ∈ c.LiveRooms, room.Url ≠ url) ∧
    (∀ j, (c.GetLiveRoomByUrl url).2 = .ok j →
      ∃ room, c.LiveRooms.get? j = some room ∧ room.Url = url) ∧
    (c.GetLiveRoomByUrl url).1.LiveRooms = c.LiveRooms := by
  have hget : ∀ j, (c.GetLiveRoomByUrl url).2 = .ok j →
      ∃ room, c.LiveRooms[j]? = some room ∧ room.Url = url := by
    intro j hj
    simp only [Config.GetLiveRoomByUrl] at hj
    split at hj
    · rename_i room hroom
      cases hj
      exact getImpl_ok c url _ hroom
    · split at hj
      · cases hj
      · rename_i room hroom
        cases hj
        exact getImpl_ok c.RefreshLiveRoomIndexCache url _ hroom
  refine ⟨?_, ?_, ?_⟩
  · constructor
    · rintro ⟨err, herr⟩ room hm hu
      obtain ⟨j, hj⟩ := getImpl_refreshed c url ⟨room, hm, hu⟩
      simp only [Config.GetLiveRoomByUrl] at herr
      split at herr
      · cases herr
      · rw [hj] at herr
        cases herr
    · intro h
      have h1 := getImpl_absent c url h
      have h2 := getImpl_absent c.RefreshLiveRoomIndexCache url h
      exact ⟨"房间 " ++ url ++ " 不存在", by simp only [Config.GetLiveRoomByUrl, h1, h2]⟩
  · intro j hj
    obtain ⟨room, hr, hu⟩ := hget j hj
    exact ⟨room, by simpa using hr, hu⟩
  · simp only [Config.GetLiveRoomByUrl]
    split
    · rfl
    · split <;> rfl

/-- C29 on a stale cache: after the room "a" is removed from the rooms "a" and "b", the
cache still places "b" at index 1, beyond the end of the list; the lookup of "b" returns
the room at index 0, and the lookup of the removed "a" is an error. -/
theorem GetLiveRoomByUrl_spec_witness :
    ((configWith [roomAt "a", roomAt "b"] []).RemoveLiveRoomByUrl "a").1.liveRoomIndexCache
      = [("b", 1)] ∧
    (∃ room,
      ((configWith [roomAt "a", roomAt "b"] []).RemoveLiveRoomByUrl "a").1.LiveRooms.get? 0
        = some room ∧ room.Url = "b") ∧
    ∃ err, (((configWith [roomAt "a", roomAt "b"] []).RemoveLiveRoomByUrl "a").1.GetLiveRoomByUrl
      "a").2 = .error err :=
  ⟨by decide,
   (GetLiveRoomByUrl_spec ((configWith [roomAt "a", roomAt "b"] []).RemoveLiveRoomByUrl "a").1
      "b").2.1 0 (by rfl),
   (GetLiveRoomByUrl_spec ((configWith [roomAt "a", roomAt "b"] []).RemoveLiveRoomByUrl "a").1
      "a").1.2 (by decide)⟩

end configs
namespace configs

theorem Update_found (c : Config) (url : String) (room : LiveRoom) (j : Nat) (old : LiveRoom)
    (hj : c.LiveRooms[j]? = some old) (hu : old.Url = url)
    (hg : gomap.get c.RefreshLiveRoomIndexCache.liveRoomIndexCache url = some (j : Int)) :
    (c.UpdateLiveRoomByUrl url room).2 = none ∧
    (c.UpdateLiveRoomByUrl url room).1.LiveRooms = c.LiveRooms.take j ++ [room] := by
  have hlt : j < c.LiveRooms.length := by
    rcases Nat.lt_or_ge j c.LiveRooms.length with h | h
    · exact h
    · rw [List.getElem?_eq_none h] at hj; cases hj
  have hlen : (List.take j c.LiveRooms).length = j := by
    rw [List.length_take]; omega
  simp only [Config.UpdateLiveRoomByUrl, hg, indexIsRoom_refresh,
    indexIsRoom_of_room c j old url hj hu, if_true, Int.toNat_ofNat, true_and]
  have hdrop : List.drop (j + 1) (List.take j c.LiveRooms ++ [room]) = [] := by
    apply List.drop_eq_nil_of_le
    simp only [List.length_append, hlen, List.length_singleton]
    omega
  show (List.take j c.LiveRooms ++ [room]) ++
      List.drop (j + 1) (List.take j c.LiveRooms ++ [room]) = _
  rw [hdrop, List.append_nil]

theorem Update_absent (c : Config) (url : String) (room : LiveRoom)
    (h : ∀ r ∈ c.LiveRooms, r.Url ≠ url) :
    (c.UpdateLiveRoomByUrl url room).2 = some ("更新房间失败：" ++ url) ∧
    (c.UpdateLiveRoomByUrl url room).1.LiveRooms = c.LiveRooms := by
  simp only [Config.UpdateLiveRoomByUrl]
  split
  · rename_i index hidx
    split
    · rename_i hroom
      rw [indexIsRoom_refresh] at hroom
      obtain ⟨_, old, hr, hu⟩ := indexIsRoom_true c index url hroom
      exact absurd hu (h old (List.getElem?_mem hr))
    · exact ⟨rfl, rfl⟩
  · exact ⟨rfl, rfl⟩

/-- C30 fails for every room that is not the last one with its url: the second `append`
of `UpdateLiveRoomByUrl` reads `c.LiveRooms[index+1:]` after the first has cut the list
off behind the new room, so it appends nothing and the rooms behind the updated one are
dropped. Updating "a" in the rooms "a", "b", "c" leaves the new room alone. The call
succeeds exactly when some room has the url, and then `LiveRooms` is the rooms before the
last room with that url followed by the new room; without such a room it returns an error
and leaves `LiveRooms` as it is. -/
theorem UpdateLiveRoomByUrl_drops_later_rooms :
    ((configWith [roomAt "a", roomAt "b", roomAt "c"] []).UpdateLiveRoomByUrl "a"
        ⟨"a", true, false, true, "", false⟩).2 = none ∧
    ((configWith [roomAt "a", roomAt "b", roomAt "c"] []).UpdateLiveRoomByUrl "a"
        ⟨"a", true, false, true, "", false⟩).1.LiveRooms
      = [⟨"a", true, false, true, "", false⟩] ∧
    (∀ (c : Config) (url : String) (room : LiveRoom),
      ((c.UpdateLiveRoomByUrl url room).2 = none ↔ ∃ r ∈ c.LiveRooms, r.Url = url) ∧
      ((c.UpdateLiveRoomByUrl url room).2 = none ∨
        (c.UpdateLiveRoomByUrl url room).1.LiveRooms = c.LiveRooms) ∧
      ∃ j, (c.UpdateLiveRoomByUrl url room).2 = none →
        (c.UpdateLiveRoomByUrl url room).1.LiveRooms = c.LiveRooms.take j ++ [room] ∧
        (∃ old, c.LiveRooms.get? j = some old ∧ old.Url = url) ∧
        ∀ j1 room1, j < j1 → c.LiveRooms.get? j1 = some room1 → room1.Url ≠ url) := by
  refine ⟨by decide, by decide, ?_⟩
  intro c url room
  by_cases h : ∃ r ∈ c.LiveRooms, r.Url = url
  · obtain ⟨j, old, hj, hu, hg, hlast⟩ := (refreshed_lookup c url).1 h
    obtain ⟨h1, h2⟩ := Update_found c url room j old hj hu hg
    refine ⟨⟨fun _ => h, fun _ => h1⟩, Or.inl h1, j, fun _ => ⟨h2, ⟨old, by simpa using hj, hu⟩, ?_⟩⟩
    intro j1 room1 hlt hget
    exact hlast j1 room1 hlt (by simpa using hget)
  · have h' : ∀ r ∈ c.LiveRooms, r.Url ≠ url := fun r hr hu => h ⟨r, hr, hu⟩
    obtain ⟨h1, h2⟩ := Update_absent c url room h'
    refine ⟨⟨fun hn => ?_, fun hh => absurd hh h⟩, Or.inr h2, 0, fun hn => ?_⟩
    · rw [h1] at hn; cases hn
    · rw [h1] at hn; cases hn

end configs
